import Mathlib

/-!
# Block scanner of the QTUM asset adapter (`assets/qtum/blockscaner.go`)

A shallow embedding of the scanner controller, the transaction extractor, the
batch extraction funnel and the unscanned-record ledger (namespace `qtum`),
and of the address creation of the account manager
(`manager/account_manager.go`, namespace `manager`).

Conventions of the embedding

* `uint64` values are natural numbers; every subtraction that can wrap in the
  source is written with an explicit `% U64`.  A Go `int` is an integer, its
  addition wrapping at 64 bits (`manager.wrapInt`).
* A Go result `(value, error)` is an `Except String _`; a lone `error` result
  is an `Option String`, `none` being nil.
* The persisted store, and the calls and notifications the scanner issues, are
  one explicit `State`; every operation is a function `State → State`
  (possibly with a result).  `State.log` holds the issued calls in the order
  they were issued.
* A Go `map` is an association list in insertion order.
* Opening the embedded database always succeeds.
* The goroutines of a batch extraction are embedded twice: their effect on the
  store is the sequential fold over the results in arrival order, and the
  dispatcher `extractRuntime` and the worker pool behind `extractingCH` are
  step functions on explicit states, for the properties of ordering and of
  bounded concurrency.
-/

namespace openwallet

/-- The `openwallet.SmartContract` fields the scanner fills in. -/
structure SmartContract where
  ContractID : String
  Address : String
  Protocol : String
  Symbol : String
deriving DecidableEq, Repr

/-- The `openwallet.Coin` fields the scanner fills in. -/
structure Coin where
  Symbol : String
  IsContract : Bool
  ContractID : String
  Contract : SmartContract
deriving DecidableEq, Repr

/-- The `openwallet.TxInput` fields the scanner fills in. -/
structure TxInput where
  SourceTxID : String
  SourceIndex : Nat
  TxID : String
  Address : String
  Amount : String
  Coin : Coin
  Index : Nat
  Sid : String
  CreateAt : Nat
  BlockHeight : Nat
  BlockHash : String
deriving DecidableEq, Repr

/-- The `openwallet.TxOutPut` fields the scanner fills in; `ExtParam` is the
extension map written by `SetExtParam`. -/
structure TxOutPut where
  TxID : String
  Address : String
  Amount : String
  Coin : Coin
  Index : Nat
  Sid : String
  ExtParam : List (String × String)
  CreateAt : Nat
  BlockHeight : Nat
  BlockHash : String
  Confirm : Nat
deriving DecidableEq, Repr

/-- The `openwallet.Transaction` summary record synthesized per bucket. -/
structure Transaction where
  WxID : String
  TxID : String
  From : List String
  To : List String
  Fees : String
  Coin : Coin
  BlockHash : String
  BlockHeight : Nat
  Decimal : Nat
  ConfirmTime : Nat
  Status : String
deriving DecidableEq, Repr

/-- The `openwallet.TxExtractData` bundle; `Transaction` is a nil pointer until
the summary is synthesized. -/
structure TxExtractData where
  TxInputs : List TxInput
  TxOutputs : List TxOutPut
  Transaction : Option Transaction
deriving DecidableEq, Repr

/-- The result of `openwallet.NewBlockExtractData()`: an empty bundle. -/
def NewBlockExtractData : TxExtractData :=
  { TxInputs := [], TxOutputs := [], Transaction := none }

/-- The `openwallet.BlockHeader` delivered to observers. -/
structure BlockHeader where
  Hash : String
  Previousblockhash : String
  Height : Nat
  Time : Nat
  Fork : Bool
deriving DecidableEq, Repr

end openwallet

namespace manager

/-! ## Account manager (`manager/account_manager.go`) -/

/-- The `openwallet.AssetsAccount` fields that `CreateAddress` reads and
writes; `AddressIndex` is a Go `int`. -/
structure AssetsAccount where
  AccountID : String
  Symbol : String
  HDPath : String
  AddressIndex : Int
  OwnerKeys : List String
  Required : Nat
deriving DecidableEq, Repr

set_option linter.dupNamespace false in
/-- The `openwallet.Address` record built by `CreateAddress`. -/
structure Address where
  Address : String
  AccountID : String
  HDPath : String
  CreatedAt : Nat
  Symbol : String
  Index : Nat
  WatchOnly : Bool
deriving DecidableEq, Repr

/-- The value `symbolInfo.AddressDecode()` of an asset: the two encoders that
`CreateAddress` calls, on public key bytes. -/
structure SymbolInfo where
  PublicKeyToAddress : List Nat → Bool → Except String String
  RedeemScriptToAddress : List (List Nat) → Nat → Bool → Except String String

/-- The calls `CreateAddress` makes on its database transaction. -/
inductive DbCall where
  | SaveAccount (account : AssetsAccount)
  | SaveAddress (addr : Address)
  | Commit
  | Rollback
deriving DecidableEq, Repr

/-- Everything `CreateAddress` takes from outside: the application database
(`OpenDB`, the lookup `db.One("AccountID", accountID, &account)`, `db.Begin`,
the error results of `tx.Save` and `tx.Commit`), the asset registry, the key
chain, the testnet switch and the clock.  `GenPublicChild key i` stands for
`pubkey.GenPublicChild(i)` followed by `GetPublicKeyBytes()`; the source does
not inspect the error result of `GenPublicChild`. -/
structure Env where
  OpenDB : String → Option String
  One : String → String → Option AssetsAccount
  GetSymbolInfo : String → Except String SymbolInfo
  Begin : Option String
  SaveAccount : AssetsAccount → Option String
  SaveAddress : Address → Option String
  Commit : Option String
  OWDecode : String → Except String String
  GenPublicChild : String → Nat → List Nat
  isTestnet : Bool
  now : Nat

/-- Addition on the Go type `int` (64 bits): the result wraps around. -/
def wrapInt (x : Int) : Int :=
  (x + 2 ^ 63) % 2 ^ 64 - 2 ^ 63

/-- The conversion `uint64(x)` of an `int`. -/
def toUint64 (x : Int) : Nat :=
  (x % 2 ^ 64).toNat

/-- The conversion `uint32(x)` of an `int`. -/
def toUint32 (x : Int) : Nat :=
  (x % 2 ^ 32).toNat

/-- The function `GetAssetsAccountInfo`. -/
def GetAssetsAccountInfo (env : Env) (appID _walletID accountID : String) :
    Except String AssetsAccount :=
  match env.OpenDB appID with
  | some err => .error err
  | none =>
      match env.One appID accountID with
      | none => .error ("can not find account: " ++ accountID)
      | some account => .ok account

/-- The inner loop of `CreateAddress` over `account.OwnerKeys`: every owner key
is decoded and its child key of index `uint32(newIndex)` is appended to
`newKeys`; a key that cannot be decoded ends the call with its error. -/
def deriveKeys (env : Env) (newIndex : Int) : List String → List (List Nat) →
    Except String (List (List Nat))
  | [], newKeys => .ok newKeys
  | pub :: rest, newKeys =>
      match env.OWDecode pub with
      | .error err => .error err
      | .ok pubkey =>
          deriveKeys env newIndex rest (newKeys ++ [env.GenPublicChild pubkey (toUint32 newIndex)])

/-- The loop `for i := uint64(0); i < count; i++` of `CreateAddress`, with the
number of rounds still to run, the account, the variables `newKeys` and
`addrs`, and the calls made so far on the transaction.  `newKeys` is declared
before the loop and handed from one round to the next as it is.  The
expression `newKeys[0]` on an empty slice ends the call with an error. -/
def createLoop (env : Env) (symbolInfo : SymbolInfo) (accountID : String) :
    Nat → AssetsAccount → List (List Nat) → List Address → List DbCall →
      Except String (List Address) × List DbCall
  | 0, _, _, addrs, log => (.ok addrs, log)
  | n + 1, account, newKeys, addrs, log =>
      let newIndex := wrapInt (account.AddressIndex + 1)
      let derivedPath := account.HDPath ++ "/" ++ toString newIndex
      match deriveKeys env newIndex account.OwnerKeys newKeys with
      | .error err => (.error err, log)
      | .ok newKeys1 =>
          let encoded : Except String String :=
            if account.OwnerKeys.length > 1 then
              symbolInfo.RedeemScriptToAddress newKeys1 account.Required env.isTestnet
            else
              match newKeys1.head? with
              | none => .error "index out of range"
              | some key0 => symbolInfo.PublicKeyToAddress key0 env.isTestnet
          match encoded with
          | .error err => (.error err, log)
          | .ok address =>
              let addr : Address :=
                { Address := address, AccountID := accountID, HDPath := derivedPath,
                  CreatedAt := env.now, Symbol := account.Symbol,
                  Index := toUint64 newIndex, WatchOnly := false }
              let account1 : AssetsAccount := { account with AddressIndex := newIndex }
              match env.SaveAccount account1 with
              | some err => (.error err, log ++ [DbCall.SaveAccount account1])
              | none =>
                  match env.SaveAddress addr with
                  | some err =>
                      (.error err,
                        log ++ [DbCall.SaveAccount account1, DbCall.SaveAddress addr])
                  | none =>
                      createLoop env symbolInfo accountID n account1 newKeys1 (addrs ++ [addr])
                        (log ++ [DbCall.SaveAccount account1, DbCall.SaveAddress addr])

/-- The function `CreateAddress`: its result and the calls it makes on the
database transaction, in order; the deferred `tx.Rollback()` is the last call
of every return after `db.Begin`. -/
def CreateAddress (env : Env) (appID walletID accountID : String) (count : Nat) :
    Except String (List Address) × List DbCall :=
  match GetAssetsAccountInfo env appID walletID accountID with
  | .error err => (.error err, [])
  | .ok account =>
      if count = 0 then (.error "create address count is zero", [])
      else
        match env.GetSymbolInfo account.Symbol with
        | .error err => (.error err, [])
        | .ok symbolInfo =>
            match env.OpenDB appID with
            | some err => (.error err, [])
            | none =>
                match env.Begin with
                | some err => (.error err, [])
                | none =>
                    match createLoop env symbolInfo accountID count account [] [] [] with
                    | (.error err, log) => (.error err, log ++ [DbCall.Rollback])
                    | (.ok addrs, log) =>
                        match env.Commit with
                        | some err => (.error err, log ++ [DbCall.Commit, DbCall.Rollback])
                        | none => (.ok addrs, log ++ [DbCall.Commit, DbCall.Rollback])

/-- Scenario "fresh account with one owner key": account `acc1` of symbol
`QTUM` has the owner key `pubA` and address index `-1`; the child key of index
`i` has the bytes `[i]`, and the address of the key bytes `[i]` is `Q` followed
by `i`. -/
def oneKeyEnv : Env :=
  { OpenDB := fun _ => none,
    One := fun _ accountID =>
      if accountID = "acc1" then
        some { AccountID := "acc1", Symbol := "QTUM", HDPath := "m/44/88/0",
               AddressIndex := -1, OwnerKeys := ["pubA"], Required := 1 }
      else none,
    GetSymbolInfo := fun _ =>
      .ok { PublicKeyToAddress := fun key _ => .ok ("Q" ++ toString (key.headD 0)),
            RedeemScriptToAddress := fun _ _ _ => .error "not supported" },
    Begin := none,
    SaveAccount := fun _ => none,
    SaveAddress := fun _ => none,
    Commit := none,
    OWDecode := fun pub => if pub = "pubA" then .ok "keyA" else .error "bad key",
    GenPublicChild := fun _ i => [i],
    isTestnet := false,
    now := 0 }

end manager

namespace qtum

open openwallet (TxExtractData TxInput TxOutPut Coin SmartContract BlockHeader)

/-- The modulus of `uint64` arithmetic. -/
def U64 : Nat := 2 ^ 64

/-- The constant `maxExtractingSize`. -/
def maxExtractingSize : Nat := 15

/-- Modelled from the spec: the `Vin` record (declared outside the scanner
file): `(prevTxid, prevVout, addr, value, coinbase)` plus its position `N`. -/
structure Vin where
  Coinbase : String
  TxID : String
  Vout : Nat
  N : Nat
  Addr : String
  Value : String
deriving DecidableEq, Repr

/-- Modelled from the spec: the `Vout` record `(n, value, addr, scriptPubKey)`. -/
structure Vout where
  N : Nat
  Addr : String
  Value : String
  ScriptPubKey : String
deriving DecidableEq, Repr

/-- Modelled from the spec: the `TokenReceipt` record. -/
structure TokenReceipt where
  TxHash : String
  ContractAddress : String
  From : String
  To : String
  Amount : String
  BlockHeight : Nat
  BlockHash : String
deriving DecidableEq, Repr

/-- Modelled from the spec: the fetched `Transaction` record, with the fields
the extractor reads. -/
structure Transaction where
  TxID : String
  BlockHash : String
  BlockHeight : Nat
  Confirmations : Nat
  Blocktime : Nat
  Isqrc20Transfer : Bool
  TokenReceipts : List TokenReceipt
  Vins : List Vin
  Vouts : List Vout
deriving DecidableEq, Repr

/-- Modelled from the spec: the `Block` record: header fields plus the ordered
list of transaction ids. -/
structure Block where
  Hash : String
  Previousblockhash : String
  Height : Nat
  Time : Nat
  tx : List String
deriving DecidableEq, Repr

/-- Modelled from the spec: `Block.BlockHeader()`, the header of a block (the
`Fork` flag is overwritten by `newBlockNotify`). -/
def Block.BlockHeader (b : Block) : BlockHeader :=
  { Hash := b.Hash, Previousblockhash := b.Previousblockhash, Height := b.Height,
    Time := b.Time, Fork := false }

/-- Modelled from the spec: the `UnscanRecord` `(blockHeight, txid, reason)`;
its identity is the pair `(blockHeight, txid)`. -/
structure UnscanRecord where
  BlockHeight : Nat
  TxID : String
  Reason : String
deriving DecidableEq, Repr

/-- Modelled from the spec: `NewUnscanRecord(height, txid, reason)`. -/
def NewUnscanRecord (height : Nat) (txID reason : String) : UnscanRecord :=
  { BlockHeight := height, TxID := txID, Reason := reason }

/-- The struct `ExtractResult`; the two maps are association lists keyed by
`sourceKey`, in insertion order. -/
structure ExtractResult where
  extractData : List (String × TxExtractData)
  extractContractData : List (String × TxExtractData)
  TxID : String
  BlockHeight : Nat
  Success : Bool
deriving DecidableEq, Repr

/-- Everything the scanner takes from outside: the remote node behind the
wallet manager, the helpers of package `openwallet`, the observers, the
scanner's switches, and the two orders the Go runtime leaves open (arrival of
extraction results, iteration of the rescan map). -/
structure Env where
  GetBlockHeight : Except String Nat
  GetBlockHash : Nat → Except String String
  GetBlock : String → Except String Block
  GetTransaction : String → Except String Transaction
  GetTxIDsInMemPool : Except String (List String)
  Symbol : String
  GenTxInputSID : String → String → String → Nat → String
  GenTxOutPutSID : String → String → String → Nat → String
  GenContractID : String → String → String
  GenTransactionWxID : openwallet.Transaction → String
  TxStatusSuccess : String
  now : Nat
  ScanAddressFunc : String → String × Bool
  Observers : List Nat
  BlockExtractDataNotify : Nat → String → TxExtractData → Option String
  Scanning : Bool
  IsScanMemPool : Bool
  RescanLastBlockCount : Nat
  arrival : List String → List String
  mapOrder : List (Nat × List String) → List (Nat × List String)

/-! ## Decimal amounts (`shopspring/decimal`, plain notation) -/

/-- A decimal number `value / 10 ^ scale`. -/
structure Decimal where
  value : Int
  scale : Nat
deriving DecidableEq, Repr

/-- The constant `decimal.Zero`. -/
def Decimal.Zero : Decimal := { value := 0, scale := 0 }

/-- The value of a string of decimal digits, `none` when it is empty or holds
another character. -/
def parseDigits : List Char → Option Nat
  | [] => none
  | cs => cs.foldl (fun acc c =>
      match acc with
      | none => none
      | some n => if c.isDigit then some (n * 10 + (c.toNat - 48)) else none) (some 0)

/-- A signed string of decimal digits, as `big.Int.SetString(s, 10)` reads it. -/
def parseInt : List Char → Option Int
  | '-' :: cs => (parseDigits cs).map (fun n => - (n : Int))
  | '+' :: cs => (parseDigits cs).map (fun n => (n : Int))
  | cs => (parseDigits cs).map (fun n => (n : Int))

/-- The function `decimal.NewFromString` on plain notation `[sign]digits[.digits]`;
the error result is `none`. -/
def Decimal.NewFromString (s : String) : Option Decimal :=
  match s.data.splitOn '.' with
  | [whole] => (parseInt whole).map (fun v => { value := v, scale := 0 })
  | [whole, frac] =>
      (parseInt (whole ++ frac)).map (fun v => { value := v, scale := frac.length })
  | _ => none

/-- The caller's `dAmount, _ := decimal.NewFromString(amount)`: the zero value
on error. -/
def Decimal.ofAmount (s : String) : Decimal :=
  (Decimal.NewFromString s).getD Decimal.Zero

/-- The method `Decimal.Add`. -/
def Decimal.Add (a b : Decimal) : Decimal :=
  let k := max a.scale b.scale
  { value := a.value * 10 ^ (k - a.scale) + b.value * 10 ^ (k - b.scale), scale := k }

/-- The method `Decimal.Sub`. -/
def Decimal.Sub (a b : Decimal) : Decimal :=
  let k := max a.scale b.scale
  { value := a.value * 10 ^ (k - a.scale) - b.value * 10 ^ (k - b.scale), scale := k }

/-- The method `rescale`: the same number with `k` fractional digits, truncated
toward zero when digits are dropped. -/
def Decimal.rescale (d : Decimal) (k : Nat) : Decimal :=
  if d.scale ≤ k then { value := d.value * 10 ^ (k - d.scale), scale := k }
  else { value := Int.tdiv d.value (10 ^ (d.scale - k)), scale := k }

/-- The method `Decimal.Round(places)`: half away from zero. -/
def Decimal.Round (d : Decimal) (places : Nat) : Decimal :=
  let t := d.rescale (places + 1)
  let v := if t.value < 0 then t.value - 5 else t.value + 5
  { value := Int.tdiv v 10, scale := places }

/-- Left-pads a digit string with zeros up to length `n`. -/
def padZeros (n : Nat) (s : String) : String :=
  String.mk (List.replicate (n - s.length) '0') ++ s

/-- The method `Decimal.StringFixed(places)` for `places > 0`. -/
def Decimal.StringFixed (d : Decimal) (places : Nat) : String :=
  let r := d.Round places
  let m := r.value.natAbs
  (if r.value < 0 then "-" else "") ++ toString (m / 10 ^ places) ++ "." ++
    padZeros places (toString (m % 10 ^ places))

/-! ## Transaction extractor -/

/-- The Go idiom `ed := m[key]; if ed == nil { ed = NewBlockExtractData();
m[key] = ed }` followed by an update `f` of the bucket. -/
def bucketModify (m : List (String × TxExtractData)) (key : String)
    (f : TxExtractData → TxExtractData) : List (String × TxExtractData) :=
  match m with
  | [] => [(key, f openwallet.NewBlockExtractData)]
  | (k, ed) :: rest =>
      if k = key then (k, f ed) :: rest else (k, ed) :: bucketModify rest key f

/-- The first loop of `extractTransaction`: walks the vins, carrying the
variable `success`; stops at the first coinbase vin (`success = true`) and at
the first previous transaction that cannot be fetched (`success = false`);
a vin without address takes address and value from the referenced vout.
Returns the vins after the walk, `success`, and the transactions fetched. -/
def resolveVins (env : Env) : Bool → List Vin → List Vin × Bool × List String
  | success, [] => ([], success, [])
  | success, input :: rest =>
      if input.Coinbase.length > 0 then
        (input :: rest, true, [])
      else if input.Addr.length = 0 then
        match env.GetTransaction input.TxID with
        | .error _ => (input :: rest, false, [input.TxID])
        | .ok preTx =>
            if h : input.Vout < preTx.Vouts.length then
              let preOut := preTx.Vouts[input.Vout]
              let r := resolveVins env true rest
              ({ input with Addr := preOut.Addr, Value := preOut.Value } :: r.1, r.2.1,
                input.TxID :: r.2.2)
            else
              let r := resolveVins env success rest
              (input :: r.1, r.2.1, input.TxID :: r.2.2)
      else
        let r := resolveVins env success rest
        (input :: r.1, r.2.1, r.2.2)

/-- The loop of `extractTxInput` from position `i` on: returns the result with
the inputs of watched addresses appended to their buckets, the `from` list and
the total amount. -/
def extractTxInputLoop (env : Env) (trx : Transaction)
    (scanAddressFunc : String → String × Bool) (createAt : Nat) :
    Nat → List Vin → ExtractResult → List String → Decimal →
      ExtractResult × List String × Decimal
  | _, [], result, froms, totalAmount => (result, froms, totalAmount)
  | i, output :: rest, result, froms, totalAmount =>
      let txid := output.TxID
      let vout := output.Vout
      let amount := output.Value
      let addr := output.Addr
      let sk := scanAddressFunc addr
      let input : TxInput :=
        { SourceTxID := txid, SourceIndex := vout, TxID := result.TxID, Address := addr,
          Amount := amount,
          Coin := { Symbol := env.Symbol, IsContract := false, ContractID := "",
                    Contract := { ContractID := "", Address := "", Protocol := "",
                                  Symbol := "" } },
          Index := output.N,
          Sid := env.GenTxInputSID txid env.Symbol "" i,
          CreateAt := createAt,
          BlockHeight := trx.BlockHeight, BlockHash := trx.BlockHash }
      let result1 :=
        if sk.2 then
          { result with
            extractData :=
              bucketModify result.extractData (sk.1)
                (fun ed => { ed with TxInputs := ed.TxInputs ++ [input] }) }
        else result
      extractTxInputLoop env trx scanAddressFunc createAt (i + 1) rest result1
        (froms ++ [addr ++ ":" ++ amount]) (totalAmount.Add (Decimal.ofAmount amount))

/-- The function `extractTxInput`. -/
def extractTxInput (env : Env) (trx : Transaction) (result : ExtractResult)
    (scanAddressFunc : String → String × Bool) : ExtractResult × List String × Decimal :=
  extractTxInputLoop env trx scanAddressFunc env.now 0 trx.Vins result [] Decimal.Zero

/-- The loop of `extractTxOutput`. -/
def extractTxOutputLoop (env : Env) (trx : Transaction)
    (scanAddressFunc : String → String × Bool) (createAt : Nat) :
    List Vout → ExtractResult → List String → Decimal →
      ExtractResult × List String × Decimal
  | [], result, tos, totalAmount => (result, tos, totalAmount)
  | output :: rest, result, tos, totalAmount =>
      let amount := output.Value
      let n := output.N
      let addr := output.Addr
      let sk := scanAddressFunc addr
      let outPut : TxOutPut :=
        { TxID := trx.TxID, Address := addr, Amount := amount,
          Coin := { Symbol := env.Symbol, IsContract := false, ContractID := "",
                    Contract := { ContractID := "", Address := "", Protocol := "",
                                  Symbol := "" } },
          Index := n,
          Sid := env.GenTxOutPutSID trx.TxID env.Symbol "" n,
          ExtParam := [("scriptPubKey", output.ScriptPubKey)],
          CreateAt := createAt,
          BlockHeight := trx.BlockHeight, BlockHash := trx.BlockHash,
          Confirm := trx.Confirmations }
      let result1 :=
        if sk.2 then
          { result with
            extractData :=
              bucketModify result.extractData (sk.1)
                (fun ed => { ed with TxOutputs := ed.TxOutputs ++ [outPut] }) }
        else result
      extractTxOutputLoop env trx scanAddressFunc createAt rest result1
        (tos ++ [addr ++ ":" ++ amount]) (totalAmount.Add (Decimal.ofAmount amount))

/-- The function `extractTxOutput`. -/
def extractTxOutput (env : Env) (trx : Transaction) (result : ExtractResult)
    (scanAddressFunc : String → String × Bool) : ExtractResult × List String × Decimal :=
  extractTxOutputLoop env trx scanAddressFunc env.now trx.Vouts result [] Decimal.Zero

/-- The function `extractTransaction` (main-coin extraction).  A nil `trx` is
`none`.  Returns the updated result and the previous transactions fetched. -/
def extractTransaction (env : Env) (trx : Option Transaction) (result : ExtractResult)
    (scanAddressFunc : String → String × Bool) : ExtractResult × List String :=
  match trx with
  | none => ({ result with Success := false }, [])
  | some trx =>
      let r := resolveVins env true trx.Vins
      let trx1 : Transaction := { trx with Vins := r.1 }
      let success := r.2.1
      let result1 :=
        if success then
          let i := extractTxInput env trx1 result scanAddressFunc
          let o := extractTxOutput env trx1 i.1 scanAddressFunc
          let tx0 : openwallet.Transaction :=
            { WxID := "", TxID := trx1.TxID, From := i.2.1, To := o.2.1,
              Fees := (i.2.2.Sub o.2.2).StringFixed 8,
              Coin := { Symbol := env.Symbol, IsContract := false, ContractID := "",
                        Contract := { ContractID := "", Address := "", Protocol := "",
                                      Symbol := "" } },
              BlockHash := trx1.BlockHash, BlockHeight := trx1.BlockHeight,
              Decimal := 8, ConfirmTime := trx1.Blocktime,
              Status := env.TxStatusSuccess }
          let tx : openwallet.Transaction := { tx0 with WxID := env.GenTransactionWxID tx0 }
          { o.1 with
            extractData :=
              o.1.extractData.map (fun kv => (kv.1, { kv.2 with Transaction := some tx })) }
        else result
      -- the source ends this branch with `success = true`
      let success := true
      ({ result1 with Success := success }, r.2.2)

/-- One round of the receipt loop of `extractTokenTransfer`. -/
def extractTokenReceipt (env : Env) (trx : Transaction)
    (scanAddressFunc : String → String × Bool) (createAt : Nat)
    (result : ExtractResult) (tokenReceipt : TokenReceipt) : ExtractResult :=
  let contractId := env.GenContractID env.Symbol tokenReceipt.ContractAddress
  let coin : Coin :=
    { Symbol := env.Symbol, IsContract := true, ContractID := contractId,
      Contract := { ContractID := contractId, Address := tokenReceipt.ContractAddress,
                    Protocol := "qrc20", Symbol := env.Symbol } }
  let sk := scanAddressFunc tokenReceipt.From
  let input : TxInput :=
    { SourceTxID := "", SourceIndex := 0, TxID := trx.TxID, Address := tokenReceipt.From,
      Amount := tokenReceipt.Amount, Coin := coin, Index := 0,
      Sid := env.GenTxInputSID tokenReceipt.TxHash env.Symbol contractId 0,
      CreateAt := createAt,
      BlockHeight := tokenReceipt.BlockHeight, BlockHash := tokenReceipt.BlockHash }
  let result1 :=
    if sk.2 then
      { result with
            extractContractData :=
              bucketModify result.extractContractData (sk.1)
                (fun ed => { ed with TxInputs := ed.TxInputs ++ [input] }) }
    else result
  let sk2 := scanAddressFunc tokenReceipt.To
  let output : TxOutPut :=
    { TxID := trx.TxID, Address := tokenReceipt.To, Amount := tokenReceipt.Amount,
      Coin := coin, Index := 0,
      Sid := env.GenTxOutPutSID tokenReceipt.TxHash env.Symbol contractId 0,
      ExtParam := [], CreateAt := createAt,
      BlockHeight := tokenReceipt.BlockHeight, BlockHash := tokenReceipt.BlockHash,
      Confirm := 0 }
  let result2 :=
    if sk2.2 then
      { result1 with
            extractContractData :=
              bucketModify result1.extractContractData (sk2.1)
                (fun ed => { ed with TxOutputs := ed.TxOutputs ++ [output] }) }
    else result1
  let tx0 : openwallet.Transaction :=
    { WxID := "", TxID := tokenReceipt.TxHash,
      From := [tokenReceipt.From ++ ":" ++ tokenReceipt.Amount],
      To := [tokenReceipt.To ++ ":" ++ tokenReceipt.Amount],
      Fees := "0", Coin := coin,
      BlockHash := tokenReceipt.BlockHash, BlockHeight := tokenReceipt.BlockHeight,
      Decimal := 0, ConfirmTime := trx.Blocktime, Status := env.TxStatusSuccess }
  let tx : openwallet.Transaction := { tx0 with WxID := env.GenTransactionWxID tx0 }
  { result2 with
            extractContractData :=
              result2.extractContractData.map (fun kv => (kv.1, { kv.2 with Transaction := some tx })) }

/-- The function `extractTokenTransfer` (token extraction). -/
def extractTokenTransfer (env : Env) (trx : Option Transaction) (result : ExtractResult)
    (scanAddressFunc : String → String × Bool) : ExtractResult :=
  match trx with
  | none => { result with Success := false }
  | some trx =>
      let result1 :=
        if trx.Isqrc20Transfer then
          trx.TokenReceipts.foldl (extractTokenReceipt env trx scanAddressFunc env.now) result
        else result
      { result1 with Success := true }

/-- The function `ExtractTransaction`: the extraction result of one
transaction id, together with the ids passed to `GetTransaction`, in call
order. -/
def ExtractTransaction (env : Env) (blockHeight : Nat) (blockHash : String) (txid : String)
    (scanAddressFunc : String → String × Bool) : ExtractResult × List String :=
  let result : ExtractResult :=
    { BlockHeight := blockHeight, TxID := txid, extractData := [], extractContractData := [],
      Success := false }
  match env.GetTransaction txid with
  | .error _ => ({ result with Success := false }, [txid])
  | .ok trx =>
      let trx1 : Transaction :=
        if blockHeight > 0 ∧ trx.BlockHeight = 0 then
          { trx with BlockHeight := blockHeight, BlockHash := blockHash }
        else trx
      let r := extractTransaction env (some trx1) result scanAddressFunc
      let r2 := extractTokenTransfer env (some trx1) r.1 scanAddressFunc
      (r2, txid :: r.2)

/-! ## Persisted store and call log -/

/-- The calls to the remote node, the batch extractions and the observer
notifications the scanner issues. -/
inductive Event where
  | GetBlockHeight
  | GetBlockHash (height : Nat)
  | GetBlock (hash : String)
  | GetTransaction (txid : String)
  | GetTxIDsInMemPool
  | BatchExtractTransaction (blockHeight : Nat) (blockHash : String) (txs : List String)
  | NewBlockNotify (header : BlockHeader)
  | BlockExtractDataNotify (observer : Nat) (key : String) (data : TxExtractData)
  | ScanBlock (height : Nat)
deriving DecidableEq, Repr

/-- The persisted store (cursor under keys `blockHeight` and `blockHash` of
bucket `blockchain`, blocks, unscanned records) and the log of issued calls. -/
structure State where
  blockHeight : Nat
  blockHash : String
  blocks : List Block
  unscan : List UnscanRecord
  log : List Event
deriving DecidableEq, Repr

/-- Appends one call to the log. -/
def State.emit (s : State) (e : Event) : State :=
  { s with log := s.log ++ [e] }

/-- The function `GetLocalNewBlock`: the persisted cursor. -/
def GetLocalNewBlock (s : State) : Nat × String :=
  (s.blockHeight, s.blockHash)

/-- The function `SaveLocalNewBlock`: persists the cursor. -/
def SaveLocalNewBlock (blockHeight : Nat) (blockHash : String) (s : State) : State :=
  { s with blockHeight := blockHeight, blockHash := blockHash }

/-- Modelled from the spec: `PutBlock`, the store side of `SaveLocalBlock`
(the store library is outside the repository): the block is stored by height,
the block stored last at a height being the one found there. -/
def SaveLocalBlock (block : Block) (s : State) : State :=
  { s with blocks := block :: s.blocks }

/-- Modelled from the spec: `GetBlockByHeight`, the store side of
`GetLocalBlock`: the stored block of that height, or not found. -/
def GetLocalBlock (height : Nat) (s : State) : Option Block :=
  s.blocks.find? (fun b => b.Height = height)

/-- Modelled from the spec: `InsertUnscan`, idempotent on `(height, txid)`: a
record of the same identity is replaced, otherwise the record is appended. -/
def insertUnscan (r : UnscanRecord) : List UnscanRecord → List UnscanRecord
  | [] => [r]
  | x :: xs =>
      if x.BlockHeight = r.BlockHeight ∧ x.TxID = r.TxID then r :: xs
      else x :: insertUnscan r xs

/-- The function `SaveUnscanRecord`: a record of height 0 is not saved. -/
def SaveUnscanRecord (record : UnscanRecord) (s : State) : State :=
  if record.BlockHeight = 0 then s
  else { s with unscan := insertUnscan record s.unscan }

/-- The function `GetUnscanRecords`. -/
def GetUnscanRecords (s : State) : List UnscanRecord :=
  s.unscan

/-- The function `DeleteUnscanRecord`: deletes every record of that height. -/
def DeleteUnscanRecord (height : Nat) (s : State) : State :=
  { s with unscan := s.unscan.filter (fun r => ¬ r.BlockHeight = height) }

/-- The reason prefix purged by `DeleteUnscanRecordNotFindTX`. -/
def notFindTXReason : String := "[-5]No information available about transaction"

/-- The check `strings.HasPrefix(s, p)`. -/
def HasPrefix (s p : String) : Bool :=
  p.data.isPrefixOf s.data

/-- The function `DeleteUnscanRecordNotFindTX`. -/
def DeleteUnscanRecordNotFindTX (s : State) : State :=
  { s with unscan := s.unscan.filter (fun r => ¬ HasPrefix r.Reason notFindTXReason) }

/-! ## Notification and batch extraction -/

/-- The function `newBlockNotify`. -/
def newBlockNotify (block : Block) (isFork : Bool) (s : State) : State :=
  s.emit (Event.NewBlockNotify { block.BlockHeader with Fork := isFork })

/-- The body of the two nested loops of `newExtractDataNotify`: one observer,
one bucket. -/
def notifyOne (env : Env) (height : Nat) (o : Nat) (s : State)
    (kv : String × TxExtractData) : State :=
  let s1 := s.emit (Event.BlockExtractDataNotify o kv.1 kv.2)
  match env.BlockExtractDataNotify o kv.1 kv.2 with
  | some _ => SaveUnscanRecord (NewUnscanRecord height "" "ExtractData Notify failed.") s1
  | none => s1

/-- The function `newExtractDataNotify`; its error result is always nil. -/
def newExtractDataNotify (env : Env) (height : Nat)
    (extractData : List (String × TxExtractData)) (s : State) : Option String × State :=
  (none, env.Observers.foldl (fun s o => extractData.foldl (notifyOne env height o) s) s)

/-- One round of the closure `saveWork` of `BatchExtractTransaction`: handles
one result and updates the counter `failed`. -/
def saveWork (env : Env) (height : Nat) (acc : State × Nat) (gets : ExtractResult) :
    State × Nat :=
  if gets.Success then
    let n1 := newExtractDataNotify env height gets.extractData acc.1
    let failed1 := if n1.1.isSome then acc.2 + 1 else acc.2
    let n2 := newExtractDataNotify env height gets.extractContractData n1.2
    let failed2 := if n2.1.isSome then failed1 + 1 else failed1
    (n2.2, failed2)
  else
    (SaveUnscanRecord (NewUnscanRecord height "" "") acc.1, acc.2 + 1)

/-- One worker of `extractWork` followed by the save round of its result. -/
def extractAndSave (env : Env) (blockHeight : Nat) (blockHash : String)
    (acc : State × Nat) (txid : String) : State × Nat :=
  let r := ExtractTransaction env blockHeight blockHash txid env.ScanAddressFunc
  let s1 : State := { acc.1 with log := acc.1.log ++ r.2.map Event.GetTransaction }
  saveWork env blockHeight (s1, acc.2) r.1

/-- The function `BatchExtractTransaction`, with the results handled one after
the other in their order of arrival `env.arrival txs`.  The error result is
`some _`; nil is `none`. -/
def BatchExtractTransaction (env : Env) (blockHeight : Nat) (blockHash : String)
    (txs : List String) (s : State) : Option String × State :=
  let s0 := s.emit (Event.BatchExtractTransaction blockHeight blockHash txs)
  if txs.length = 0 then
    (some "BatchExtractTransaction block is nil.", s0)
  else
    let r := (env.arrival txs).foldl (extractAndSave env blockHeight blockHash) (s0, 0)
    if r.2 > 0 then (some "block scanner saveWork failed", r.1) else (none, r.1)

/-! ## Scanner controller -/

/-- The function `SetRescanBlockHeight`. -/
def SetRescanBlockHeight (env : Env) (height : Nat) (s : State) : Option String × State :=
  let height := (height + U64 - 1) % U64
  if height < 0 then
    (some "block height to rescan must greater than 0.", s)
  else
    let s1 := s.emit (Event.GetBlockHash height)
    match env.GetBlockHash height with
    | .error err => (some err, s1)
    | .ok hash => (none, SaveLocalNewBlock height hash s1)

/-- The function `GetCurrentBlockHeader`: the persisted cursor, or the
block below the remote tip when the persisted height is 0. -/
def GetCurrentBlockHeader (env : Env) (s : State) : Except String (Nat × String) × State :=
  let c := GetLocalNewBlock s
  if c.1 = 0 then
    let s1 := s.emit Event.GetBlockHeight
    match env.GetBlockHeight with
    | .error err => (.error err, s1)
    | .ok tip =>
        let blockHeight := (tip + U64 - 1) % U64
        let s2 := s1.emit (Event.GetBlockHash blockHeight)
        match env.GetBlockHash blockHeight with
        | .error err => (.error err, s2)
        | .ok hash => (.ok (blockHeight, hash), s2)
  else (.ok (c.1, c.2), s)

/-- How one round of the loop of `ScanBlockTask` ends: `continue`, `break`, or
`return` from the task. -/
inductive Flow where
  | next
  | stop
  | ret
deriving DecidableEq, Repr

/-- The local variables `currentHeight` and `currentHash` of `ScanBlockTask`. -/
structure LoopVars where
  currentHeight : Nat
  currentHash : String
deriving DecidableEq, Repr

/-- The end of the fork branch once the block at the rewind height is at hand. -/
def forkFinish (currentHeight : Nat) (forkBlock : Option Block) (localBlock : Block)
    (s : State) : Flow × LoopVars × State :=
  let currentHash := localBlock.Hash
  let s1 := SaveLocalNewBlock localBlock.Height localBlock.Hash s
  let s2 := match forkBlock with
    | some fb => newBlockNotify fb true s1
    | none => s1
  (Flow.next, { currentHeight := currentHeight, currentHash := currentHash }, s2)

/-- The rewind of the fork branch: `currentHeight = currentHeight - 2` in
`uint64`, then `if currentHeight <= 0 { currentHeight = 1 }`. -/
def rewindHeight (currentHeight : Nat) : Nat :=
  let currentHeight := (currentHeight + U64 - 2) % U64
  if currentHeight ≤ 0 then 1 else currentHeight

/-- The fork branch of the loop of `ScanBlockTask`; `currentHeight` is the
height of the fetched block. -/
def forkBranch (env : Env) (currentHeight : Nat) (currentHash : String) (s : State) :
    Flow × LoopVars × State :=
  let forkBlock := GetLocalBlock (currentHeight - 1) s
  let s1 := DeleteUnscanRecord (currentHeight - 1) s
  let currentHeight := rewindHeight currentHeight
  match GetLocalBlock currentHeight s1 with
  | some localBlock => forkFinish currentHeight forkBlock localBlock s1
  | none =>
      let s2 := s1.emit (Event.GetBlockHash currentHeight)
      match env.GetBlockHash currentHeight with
      | .error _ =>
          (Flow.stop, { currentHeight := currentHeight, currentHash := currentHash }, s2)
      | .ok prevHash =>
          let s3 := s2.emit (Event.GetBlock prevHash)
          match env.GetBlock prevHash with
          | .error _ =>
              (Flow.stop, { currentHeight := currentHeight, currentHash := currentHash }, s3)
          | .ok localBlock => forkFinish currentHeight forkBlock localBlock s3

/-- The normal branch of the loop of `ScanBlockTask`. -/
def normalBranch (env : Env) (currentHeight : Nat) (hash : String) (block : Block)
    (s : State) : Flow × LoopVars × State :=
  let r := BatchExtractTransaction env block.Height block.Hash block.tx s
  let currentHash := hash
  let s1 := SaveLocalNewBlock currentHeight currentHash r.2
  let s2 := SaveLocalBlock block s1
  let s3 := newBlockNotify block false s2
  (Flow.next, { currentHeight := currentHeight, currentHash := currentHash }, s3)

/-- One round of the loop of `ScanBlockTask`. -/
def scanIteration (env : Env) (v : LoopVars) (s : State) : Flow × LoopVars × State :=
  if ¬ env.Scanning then (Flow.ret, v, s)
  else
    let s1 := s.emit Event.GetBlockHeight
    match env.GetBlockHeight with
    | .error _ => (Flow.stop, v, s1)
    | .ok maxHeight =>
        if v.currentHeight ≥ maxHeight then (Flow.stop, v, s1)
        else
          let currentHeight := v.currentHeight + 1
          let s2 := s1.emit (Event.GetBlockHash currentHeight)
          match env.GetBlockHash currentHeight with
          | .error _ => (Flow.stop, { v with currentHeight := currentHeight }, s2)
          | .ok hash =>
              let s3 := s2.emit (Event.GetBlock hash)
              match env.GetBlock hash with
              | .error err =>
                  (Flow.next, { v with currentHeight := currentHeight },
                    SaveUnscanRecord (NewUnscanRecord currentHeight "" err) s3)
              | .ok block =>
                  if v.currentHash ≠ block.Previousblockhash then
                    forkBranch env currentHeight v.currentHash s3
                  else
                    normalBranch env currentHeight hash block s3

/-- The loop of `ScanBlockTask`, at most `fuel` rounds; `none` when the fuel
runs out before the loop is left. -/
def scanLoop (env : Env) : Nat → LoopVars → State → Option (Flow × LoopVars × State)
  | 0, _, _ => none
  | fuel + 1, v, s =>
      match scanIteration env v s with
      | (Flow.next, v1, s1) => scanLoop env fuel v1 s1
      | r => some r

/-- The function `ScanBlock`. -/
def ScanBlock (env : Env) (height : Nat) (s : State) : Option String × State :=
  let s0 := s.emit (Event.ScanBlock height)
  let s1 := s0.emit (Event.GetBlockHash height)
  match env.GetBlockHash height with
  | .error err => (some err, s1)
  | .ok hash =>
      let s2 := s1.emit (Event.GetBlock hash)
      match env.GetBlock hash with
      | .error err => (some err, SaveUnscanRecord (NewUnscanRecord height "" err) s2)
      | .ok block =>
          let r := BatchExtractTransaction env block.Height block.Hash block.tx s2
          (none, newBlockNotify block false r.2)

/-- The function `ScanTxMemPool`. -/
def ScanTxMemPool (env : Env) (s : State) : State :=
  let s1 := s.emit Event.GetTxIDsInMemPool
  match env.GetTxIDsInMemPool with
  | .error _ => s1
  | .ok txIDsInMemPool =>
      if txIDsInMemPool.length = 0 then s1
      else (BatchExtractTransaction env 0 "" txIDsInMemPool s1).2

/-- First half of one round of the grouping loop of `RescanFailedRecord`:
`if _, exist := blockMap[h]; !exist { blockMap[h] = make([]string, 0) }`. -/
def blockMapEnsure (blockMap : List (Nat × List String)) (height : Nat) :
    List (Nat × List String) :=
  if blockMap.any (fun kv => kv.1 = height) then blockMap else blockMap ++ [(height, [])]

/-- Second half: `blockMap[h] = append(blockMap[h], txid)`. -/
def blockMapAppend (blockMap : List (Nat × List String)) (height : Nat) (txid : String) :
    List (Nat × List String) :=
  blockMap.map (fun kv => if kv.1 = height then (kv.1, kv.2 ++ [txid]) else kv)

/-- One round of the grouping loop of `RescanFailedRecord`. -/
def blockMapAdd (blockMap : List (Nat × List String)) (r : UnscanRecord) :
    List (Nat × List String) :=
  let m := blockMapEnsure blockMap r.BlockHeight
  if r.TxID.length > 0 then blockMapAppend m r.BlockHeight r.TxID else m

/-- The grouping loop of `RescanFailedRecord`: the map from height to the
transaction ids recorded at that height. -/
def buildBlockMap (list : List UnscanRecord) : List (Nat × List String) :=
  list.foldl blockMapAdd []

/-- The end of one round of the rescan loop: the batch extraction (with the
outer, empty `hash`) and the deletion of the records when it returned nil. -/
def rescanExtract (env : Env) (height : Nat) (txs : List String) (s : State) : State :=
  let hash := ""
  let r := BatchExtractTransaction env height hash txs s
  match r.1 with
  | some _ => r.2
  | none => DeleteUnscanRecord height r.2

/-- One round of the rescan loop of `RescanFailedRecord`. -/
def rescanGroup (env : Env) (s : State) (g : Nat × List String) : State :=
  let height := g.1
  let txs := g.2
  if height = 0 then s
  else if txs.length = 0 then
    let s1 := s.emit (Event.GetBlockHash height)
    match env.GetBlockHash height with
    | .error _ => s1
    | .ok hash =>
        let s2 := s1.emit (Event.GetBlock hash)
        match env.GetBlock hash with
        | .error _ => s2
        | .ok block => rescanExtract env height block.tx s2
  else rescanExtract env height txs s

/-- The rescan loop of `RescanFailedRecord`, over the groups in the order
`env.mapOrder` gives them. -/
def rescanLoop (env : Env) (s : State) : State :=
  (env.mapOrder (buildBlockMap (GetUnscanRecords s))).foldl (rescanGroup env) s

/-- The function `RescanFailedRecord`. -/
def RescanFailedRecord (env : Env) (s : State) : State :=
  DeleteUnscanRecordNotFindTX (rescanLoop env s)

/-- The loop after the main loop of `ScanBlockTask`:
`for i := currentHeight - RescanLastBlockCount; i < currentHeight; i++`. -/
def tailRescan (env : Env) (currentHeight : Nat) (s : State) : State :=
  let start := (currentHeight + U64 - env.RescanLastBlockCount) % U64
  (List.range' start (currentHeight - start)).foldl (fun s i => (ScanBlock env i s).2) s

/-- The function `ScanBlockTask`, its main loop running at most `fuel` rounds;
`none` when the fuel runs out. -/
def ScanBlockTask (env : Env) (fuel : Nat) (s : State) : Option State :=
  match GetCurrentBlockHeader env s with
  | (.error _, s1) => some s1
  | (.ok header, s1) =>
      match scanLoop env fuel { currentHeight := header.1, currentHash := header.2 } s1 with
      | none => none
      | some (Flow.ret, _, s2) => some s2
      | some (_, v, s2) =>
          let s3 := tailRescan env v.currentHeight s2
          let s4 := if env.IsScanMemPool then ScanTxMemPool env s3 else s3
          some (RescanFailedRecord env s4)

/-! ## Projections of the call log -/

/-- The headers delivered by `NewBlockNotify`, in order. -/
def blockNotifs (log : List Event) : List BlockHeader :=
  log.filterMap (fun e => match e with
    | Event.NewBlockNotify header => some header
    | _ => none)

/-- The arguments of the calls of `BatchExtractTransaction`, in order. -/
def batchCalls (log : List Event) : List (Nat × String × List String) :=
  log.filterMap (fun e => match e with
    | Event.BatchExtractTransaction blockHeight blockHash txs => some (blockHeight, blockHash, txs)
    | _ => none)

/-- The heights passed to `GetBlockHash`, in order. -/
def hashFetches (log : List Event) : List Nat :=
  log.filterMap (fun e => match e with
    | Event.GetBlockHash height => some height
    | _ => none)

/-- The calls issued inside a batch extraction: transaction fetches and
extract-data notifications. -/
def Event.isData : Event → Bool
  | Event.GetTransaction _ => true
  | Event.BlockExtractDataNotify _ _ _ => true
  | _ => false

/-- A step that leaves cursor and blocks alone and logs only transaction
fetches and extract-data notifications. -/
structure DataStep (s t : State) : Prop where
  blockHeight : t.blockHeight = s.blockHeight
  blockHash : t.blockHash = s.blockHash
  blocks : t.blocks = s.blocks
  log : ∃ evs, t.log = s.log ++ evs ∧ ∀ e ∈ evs, e.isData = true

/-- A step that leaves cursor and blocks alone and delivers no
`NewBlockNotify`. -/
structure QuietStep (s t : State) : Prop where
  blockHeight : t.blockHeight = s.blockHeight
  blockHash : t.blockHash = s.blockHash
  blocks : t.blocks = s.blocks
  notifs : blockNotifs t.log = blockNotifs s.log

/-- The ledger holds a block-level record (empty txid) of that height, written
by the save round or by a failed notification. -/
def HasBlockRecord (height : Nat) (l : List UnscanRecord) : Prop :=
  ∃ r ∈ l, r.BlockHeight = height ∧ r.TxID = "" ∧
    (r.Reason = "" ∨ r.Reason = "ExtractData Notify failed.")

/-- The records of the ledger at one height. -/
def atHeight (h : Nat) (l : List UnscanRecord) : List UnscanRecord :=
  l.filter (fun r => r.BlockHeight = h)

/-- The calls of `BatchExtractTransaction` made with one height. -/
def batchCallsAt (h : Nat) (log : List Event) : List (Nat × String × List String) :=
  (batchCalls log).filter (fun c => c.1 = h)

/-- The explicit transaction ids recorded in the ledger at one height, in
ledger order. -/
def explicitTxids (h : Nat) (l : List UnscanRecord) : List String :=
  (l.filter (fun r => r.BlockHeight = h ∧ r.TxID.length > 0)).map (fun r => r.TxID)

/-- The transaction ids a rescan of height `h` is to extract, in the words of
the specification: the explicit txids `txs` of the group when there are any,
otherwise all txids of the block fetched by height; `none` when that block
cannot be fetched. -/
def specRescanTxs (env : Env) (h : Nat) (txs : List String) : Option (List String) :=
  if txs = [] then
    match env.GetBlockHash h with
    | .error _ => none
    | .ok hash =>
        match env.GetBlock hash with
        | .error _ => none
        | .ok block => some block.tx
  else some txs

/-- Every record of `l` is still in `l2` under its identity
`(height, txid)`. -/
def KeepsIds (l l2 : List UnscanRecord) : Prop :=
  ∀ r ∈ l, ∃ r2 ∈ l2, r2.BlockHeight = r.BlockHeight ∧ r2.TxID = r.TxID

/-! ## Concrete scenarios -/

/-- A remote node that knows nothing, with no observer and no watched
address; scenarios override the fields they need. -/
def emptyEnv : Env :=
  { GetBlockHeight := .error "unreachable",
    GetBlockHash := fun _ => .error "unreachable",
    GetBlock := fun _ => .error "unreachable",
    GetTransaction := fun _ => .error "unreachable",
    GetTxIDsInMemPool := .error "unreachable",
    Symbol := "QTUM",
    GenTxInputSID := fun txid _ _ i => "in:" ++ txid ++ ":" ++ toString i,
    GenTxOutPutSID := fun txid _ _ n => "out:" ++ txid ++ ":" ++ toString n,
    GenContractID := fun symbol addr => symbol ++ ":" ++ addr,
    GenTransactionWxID := fun tx => "wx:" ++ tx.TxID,
    TxStatusSuccess := "1",
    now := 0,
    ScanAddressFunc := fun _ => ("", false),
    Observers := [],
    BlockExtractDataNotify := fun _ _ _ => none,
    Scanning := true,
    IsScanMemPool := false,
    RescanLastBlockCount := 0,
    arrival := fun txs => txs,
    mapOrder := fun m => m }

/-- An empty store with an empty log. -/
def emptyState : State :=
  { blockHeight := 0, blockHash := "", blocks := [], unscan := [], log := [] }

/-- Scenario "extractor dereference failure": transaction `T3` has one vin
without address spending output 0 of `P`, and `P` cannot be fetched. -/
def derefFailEnv : Env :=
  { emptyEnv with
    GetTransaction := fun txid =>
      if txid = "T3" then
        .ok { TxID := "T3", BlockHash := "", BlockHeight := 0, Confirmations := 1,
              Blocktime := 0, Isqrc20Transfer := false, TokenReceipts := [],
              Vins := [{ Coinbase := "", TxID := "P", Vout := 0, N := 0, Addr := "",
                         Value := "" }],
              Vouts := [{ N := 0, Addr := "W", Value := "1.00000000", ScriptPubKey := "" }] }
      else .error "[-5]No information available about transaction",
    ScanAddressFunc := fun addr => if addr = "W" then ("acct1", true) else ("", false) }

/-- Scenario "hash fetch fails": the remote tip is 10 and no hash can be
fetched. -/
def hashFailEnv : Env :=
  { emptyEnv with GetBlockHeight := .ok 10 }

/-- Scenario "block fetch fails": the remote tip is 10, every height has a
hash, no block can be fetched. -/
def blockFailEnv : Env :=
  { emptyEnv with
    GetBlockHeight := .ok 10,
    GetBlockHash := fun h => .ok ("h" ++ toString h),
    GetBlock := fun _ => .error "timeout" }

/-- A store whose cursor is `(5, "h5")`. -/
def stateAt5 : State :=
  { emptyState with blockHeight := 5, blockHash := "h5" }

/-- Scenario "fork at cursor height 0": the tip is 5, heights 0 and 1 have
hashes `g` and `h1`, the block `h1` names another parent than `g`, and the
remote node knows no other height. -/
def forkAtZeroEnv : Env :=
  { emptyEnv with
    GetBlockHeight := .ok 5,
    GetBlockHash := fun h =>
      if h = 0 then .ok "g" else if h = 1 then .ok "h1" else .error "out of range",
    GetBlock := fun hash =>
      if hash = "h1" then
        .ok { Hash := "h1", Previousblockhash := "other", Height := 1, Time := 0, tx := ["T"] }
      else .error "not found" }

/-- Scenario "fork at tip": the tip is 201, block 201 names parent `hashY`;
block 199 can be refetched. -/
def forkAtTipEnv : Env :=
  { emptyEnv with
    GetBlockHeight := .ok 201,
    GetBlockHash := fun h =>
      if h = 201 then .ok "h201" else if h = 199 then .ok "h199" else .error "out of range",
    GetBlock := fun hash =>
      if hash = "h201" then
        .ok { Hash := "h201", Previousblockhash := "hashY", Height := 201, Time := 0,
              tx := ["T"] }
      else if hash = "h199" then
        .ok { Hash := "h199", Previousblockhash := "h198", Height := 199, Time := 0, tx := [] }
      else .error "not found" }

/-- A store with cursor `(200, "hashX")` and no stored block. -/
def stateAt200 : State :=
  { emptyState with blockHeight := 200, blockHash := "hashX" }

/-- The orphaned block of height 200. -/
def block200 : Block :=
  { Hash := "hashX", Previousblockhash := "h199", Height := 200, Time := 0, tx := [] }

/-- A store with cursor `(200, "hashX")` that holds the block of height 200. -/
def stateAt200Stored : State :=
  { stateAt200 with blocks := [block200] }

/-- Scenario "linear advance": the tip is 101, block 101 follows `hashA` and
holds one transaction that cannot be fetched. -/
def advanceEnv : Env :=
  { emptyEnv with
    GetBlockHeight := .ok 101,
    GetBlockHash := fun h => if h = 101 then .ok "h101" else .error "out of range",
    GetBlock := fun hash =>
      if hash = "h101" then
        .ok { Hash := "h101", Previousblockhash := "hashA", Height := 101, Time := 0,
              tx := ["T1"] }
      else .error "not found" }

/-- Scenario "cold start": the tip stays at 100 on a consistent chain, the
mempool is empty, the scanner has its default switches. -/
def coldStartEnv : Env :=
  { emptyEnv with
    GetBlockHeight := .ok 100,
    GetBlockHash := fun h =>
      if h = 99 then .ok "h99" else if h = 100 then .ok "h100" else .error "out of range",
    GetBlock := fun hash =>
      if hash = "h100" then
        .ok { Hash := "h100", Previousblockhash := "h99", Height := 100, Time := 0, tx := [] }
      else .error "not found",
    GetTxIDsInMemPool := .ok [],
    IsScanMemPool := true,
    RescanLastBlockCount := 0 }

/-- Scenario "rescan from height 0": the remote node answers the hash lookup
at height `2^64 - 1`. -/
def rescanZeroEnv : Env :=
  { emptyEnv with
    GetBlockHash := fun h =>
      if h = 18446744073709551615 then .ok "hmax" else .error "out of range" }

/-- Scenario "observer down": `Tok` pays the watched address `W`, `Tbad`
cannot be fetched, and the only observer rejects every notification. -/
def observerDownEnv : Env :=
  { emptyEnv with
    GetTransaction := fun txid =>
      if txid = "Tok" then
        .ok { TxID := "Tok", BlockHash := "h5", BlockHeight := 5, Confirmations := 1,
              Blocktime := 0, Isqrc20Transfer := false, TokenReceipts := [],
              Vins := [],
              Vouts := [{ N := 0, Addr := "W", Value := "1.00000000", ScriptPubKey := "" }] }
      else .error "timeout",
    ScanAddressFunc := fun addr => if addr = "W" then ("acct1", true) else ("", false),
    Observers := [1],
    BlockExtractDataNotify := fun _ _ _ => some "observer down" }

/-- Scenario "rescan": block 7 (`h7`) holds `Ta`; `Ta` and `Tb` can be fetched
and touch no watched address; nothing else is known to the remote node. -/
def rescanEnv : Env :=
  { emptyEnv with
    GetBlockHash := fun h => if h = 7 then .ok "h7" else .error "out of range",
    GetBlock := fun hash =>
      if hash = "h7" then
        .ok { Hash := "h7", Previousblockhash := "h6", Height := 7, Time := 0, tx := ["Ta"] }
      else .error "not found",
    GetTransaction := fun txid =>
      if txid = "Ta" ∨ txid = "Tb" then
        .ok { TxID := txid, BlockHash := "", BlockHeight := 0, Confirmations := 1,
              Blocktime := 0, Isqrc20Transfer := false, TokenReceipts := [],
              Vins := [], Vouts := [] }
      else .error "[-5]No information available about transaction" }

/-- A ledger with a block-level record at height 7 and a transaction record
at height 8. -/
def rescanState : State :=
  { emptyState with
    unscan := [NewUnscanRecord 7 "" "timeout", NewUnscanRecord 8 "Tb" "timeout"] }

/-- A ledger whose only record, at height 5, carries the not-found reason. -/
def notFoundState : State :=
  { emptyState with
    unscan := [NewUnscanRecord 5 "" "[-5]No information available about transaction"] }

/-- A ledger whose only record is a block-level record at height 7 for a block
whose transaction `Tz` cannot be fetched. -/
def rescanFailEnv : Env :=
  { rescanEnv with
    GetBlock := fun hash =>
      if hash = "h7" then
        .ok { Hash := "h7", Previousblockhash := "h6", Height := 7, Time := 0, tx := ["Tz"] }
      else .error "not found" }

/-- A ledger whose only record, at height 5, names transaction `Tx` and carries
the not-found reason. -/
def notFoundTxState : State :=
  { emptyState with
    unscan := [NewUnscanRecord 5 "Tx" "[-5]No information available about transaction"] }

/-- Scenario "spend of a watched address": transaction `T` spends output 1 of
`P`, held by the watched address `W`, and pays the unwatched address `X`. -/
def spendEnv : Env :=
  { emptyEnv with
    GetTransaction := fun txid =>
      if txid = "T" then
        .ok { TxID := "T", BlockHash := "hb", BlockHeight := 5, Confirmations := 1,
              Blocktime := 0, Isqrc20Transfer := false, TokenReceipts := [],
              Vins := [{ Coinbase := "", TxID := "P", Vout := 1, N := 0, Addr := "W",
                         Value := "1.00000000" }],
              Vouts := [{ N := 0, Addr := "X", Value := "0.90000000", ScriptPubKey := "" }] }
      else .error "[-5]No information available about transaction",
    ScanAddressFunc := fun addr => if addr = "W" then ("acct1", true) else ("", false) }

/-- The Go lookup `m[key]` in an extract-data map; `none` is the nil pointer. -/
def bucketGet (m : List (String × TxExtractData)) (key : String) : Option TxExtractData :=
  match m with
  | [] => none
  | (k, ed) :: rest => if k = key then some ed else bucketGet rest key

/-- The bucket of a key, the empty bundle standing for a missing bucket. -/
def bucketD (m : List (String × TxExtractData)) (key : String) : TxExtractData :=
  (bucketGet m key).getD openwallet.NewBlockExtractData

/-- The `TxInput` record that `extractTxInput` builds for the vin `output` at
position `i`, for the result of transaction id `resultTxID`. -/
def coinTxInput (env : Env) (trx : Transaction) (resultTxID : String) (createAt i : Nat)
    (output : Vin) : TxInput :=
  { SourceTxID := output.TxID, SourceIndex := output.Vout, TxID := resultTxID,
    Address := output.Addr, Amount := output.Value,
    Coin := { Symbol := env.Symbol, IsContract := false, ContractID := "",
              Contract := { ContractID := "", Address := "", Protocol := "", Symbol := "" } },
    Index := output.N,
    Sid := env.GenTxInputSID output.TxID env.Symbol "" i,
    CreateAt := createAt,
    BlockHeight := trx.BlockHeight, BlockHash := trx.BlockHash }

/-- The `TxOutPut` record that `extractTxOutput` builds for the vout `output`. -/
def coinTxOutPut (env : Env) (trx : Transaction) (createAt : Nat) (output : Vout) : TxOutPut :=
  { TxID := trx.TxID, Address := output.Addr, Amount := output.Value,
    Coin := { Symbol := env.Symbol, IsContract := false, ContractID := "",
              Contract := { ContractID := "", Address := "", Protocol := "", Symbol := "" } },
    Index := output.N,
    Sid := env.GenTxOutPutSID trx.TxID env.Symbol "" output.N,
    ExtParam := [("scriptPubKey", output.ScriptPubKey)],
    CreateAt := createAt,
    BlockHeight := trx.BlockHeight, BlockHash := trx.BlockHash,
    Confirm := trx.Confirmations }

/-- The vins of a list, with their positions counted from `i`, whose address
is watched under source key `k`. -/
def watchedVins (scanAddressFunc : String → String × Bool) (k : String) (i : Nat)
    (vins : List Vin) : List (Nat × Vin) :=
  (vins.enumFrom i).filter (fun p => scanAddressFunc p.2.Addr = (k, true))

/-- The vouts of a list whose address is watched under source key `k`. -/
def watchedVouts (scanAddressFunc : String → String × Bool) (k : String)
    (vouts : List Vout) : List Vout :=
  vouts.filter (fun v => scanAddressFunc v.Addr = (k, true))

/-- The sum of a list of amounts as `extractTxInput` and `extractTxOutput`
accumulate it: `totalAmount = totalAmount.Add(dAmount)` from `decimal.Zero`. -/
def sumAmounts (amounts : List String) : Decimal :=
  amounts.foldl (fun t a => t.Add (Decimal.ofAmount a)) Decimal.Zero

/-- The summary record that `extractTransaction` synthesizes for every bucket,
from the `from` and `to` lists and the two totals. -/
def coinSummary (env : Env) (trx : Transaction) (froms tos : List String)
    (totalSpent totalReceived : Decimal) : openwallet.Transaction :=
  let tx0 : openwallet.Transaction :=
    { WxID := "", TxID := trx.TxID, From := froms, To := tos,
      Fees := (totalSpent.Sub totalReceived).StringFixed 8,
      Coin := { Symbol := env.Symbol, IsContract := false, ContractID := "",
                Contract := { ContractID := "", Address := "", Protocol := "",
                              Symbol := "" } },
      BlockHash := trx.BlockHash, BlockHeight := trx.BlockHeight,
      Decimal := 8, ConfirmTime := trx.Blocktime,
      Status := env.TxStatusSuccess }
  { tx0 with WxID := env.GenTransactionWxID tx0 }

/-- The transaction handed to the extractors by `ExtractTransaction`: the
fetched one, with height and hash replaced by the passed-in ones when
`blockHeight > 0 && trx.BlockHeight == 0`. -/
def effectiveTx (blockHeight : Nat) (blockHash : String) (trx : Transaction) : Transaction :=
  if blockHeight > 0 ∧ trx.BlockHeight = 0 then
    { trx with BlockHeight := blockHeight, BlockHash := blockHash }
  else trx

/-- The result `ExtractTransaction` starts from: no bucket yet. -/
def freshResult (blockHeight : Nat) (txid : String) : ExtractResult :=
  { BlockHeight := blockHeight, TxID := txid, extractData := [], extractContractData := [],
    Success := false }

/-- Scenario "two watched addresses of one account": transaction `T2` spends
outputs held by `W1` and `W2`, both watched for `acct1`, and an output held by
the unwatched `X`; it pays `W2` and `X`. -/
def twoAddrEnv : Env :=
  { emptyEnv with
    GetTransaction := fun txid =>
      if txid = "T2" then
        .ok { TxID := "T2", BlockHash := "", BlockHeight := 0, Confirmations := 0,
              Blocktime := 0, Isqrc20Transfer := false, TokenReceipts := [],
              Vins := [{ Coinbase := "", TxID := "P1", Vout := 0, N := 0, Addr := "W1",
                         Value := "1.5" },
                       { Coinbase := "", TxID := "P2", Vout := 3, N := 1, Addr := "X",
                         Value := "0.25" },
                       { Coinbase := "", TxID := "P3", Vout := 1, N := 2, Addr := "W2",
                         Value := "2" }],
              Vouts := [{ N := 0, Addr := "W2", Value := "3.00000000", ScriptPubKey := "" },
                        { N := 1, Addr := "X", Value := "0.74990000", ScriptPubKey := "" }] }
      else .error "[-5]No information available about transaction",
    ScanAddressFunc := fun addr =>
      if addr = "W1" ∨ addr = "W2" then ("acct1", true) else ("", false) }

/-- An amount string the node reports: plain decimal notation that
`decimal.NewFromString` accepts, with at most 8 fractional digits. -/
def validAmount (s : String) : Bool :=
  match Decimal.NewFromString s with
  | some d => decide (d.scale ≤ 8)
  | none => false

/-- The number of units of `10 ^ (-8)` in a decimal with at most 8 fractional
digits. -/
def Decimal.units8 (d : Decimal) : Int := d.value * 10 ^ (8 - d.scale)

/-- The value of an amount string in units of `10 ^ (-8)`. -/
def amountUnits (s : String) : Int := (Decimal.ofAmount s).units8

/-- Specification side of the fee format: a number of units of `10 ^ (-8)`
written with a sign, the integer part, a point and exactly 8 fractional
digits. -/
def renderFixed8 (n : Int) : String :=
  (if n < 0 then "-" else "") ++ toString (n.natAbs / 10 ^ 8) ++ "." ++
    padZeros 8 (toString (n.natAbs % 10 ^ 8))

/-- Scenario "token transfer": transaction `Tq` carries one QRC20 receipt
moving `250` of the token at contract `c0ffee` from the watched address `W`
(account `acct1`) to the watched address `V` (account `acct2`); the receipt
reports block 7 with hash `hr`. -/
def tokenEnv : Env :=
  { emptyEnv with
    GetTransaction := fun txid =>
      if txid = "Tq" then
        .ok { TxID := "Tq", BlockHash := "hq", BlockHeight := 7, Confirmations := 1,
              Blocktime := 0, Isqrc20Transfer := true,
              TokenReceipts := [{ TxHash := "Tq", ContractAddress := "c0ffee", From := "W",
                                  To := "V", Amount := "250", BlockHeight := 7,
                                  BlockHash := "hr" }],
              Vins := [], Vouts := [] }
      else .error "[-5]No information available about transaction",
    ScanAddressFunc := fun addr =>
      if addr = "W" then ("acct1", true)
      else if addr = "V" then ("acct2", true) else ("", false) }

/-- Whether some notification of a delivery returns an error. -/
def notifyFails (env : Env) (extractData : List (String × TxExtractData)) : Bool :=
  env.Observers.any (fun o =>
    extractData.any (fun kv => (env.BlockExtractDataNotify o kv.1 kv.2).isSome))

/-- The notifications of a delivery: one per observer and bucket. -/
def notifyEvents (env : Env) (extractData : List (String × TxExtractData)) : List Event :=
  env.Observers.flatMap (fun o =>
    extractData.map (fun kv => Event.BlockExtractDataNotify o kv.1 kv.2))

/-- Scenario "first observer fails": two observers, the first returns an error
for every notification, the second accepts. -/
def failingObserverEnv : Env :=
  { emptyEnv with
    Observers := [0, 1],
    BlockExtractDataNotify := fun o _ _ => if o = 0 then some "observer down" else none }

/-- The heights passed to `ScanBlock`, in order. -/
def scanBlockCalls (log : List Event) : List Nat :=
  log.filterMap (fun e => match e with
    | Event.ScanBlock height => some height
    | _ => none)

/-! ## Dispatcher and worker pool of the batch extraction -/

/-- The three cases of the `select` in the loop of `extractRuntime`. -/
inductive RuntimeEvent where
  | recv (pa : ExtractResult)
  | quit
  | send
deriving DecidableEq, Repr

/-- The loop state of `extractRuntime`: the pending queue `values` and whether
the loop has returned, together with two histories kept for the proofs: the
results received from `producer` and the results handed to `worker`, both in
order. -/
structure RuntimeState where
  values : List ExtractResult
  returned : Bool
  received : List ExtractResult
  handed : List ExtractResult
deriving DecidableEq, Repr

/-- The state in which `extractRuntime` enters its loop:
`values = make([]ExtractResult, 0)`. -/
def runtimeInit : RuntimeState :=
  { values := [], returned := false, received := [], handed := [] }

/-- One round of the loop of `extractRuntime`, `none` when the chosen case of
the `select` is not enabled: `case pa := <-producer` appends to the queue,
`case <-quit` returns, and `case activeWorker <- activeValue` hands over
`values[0]` and drops it from the queue; `activeWorker` is nil, which disables
the case, unless `len(values) > 0`. -/
def extractRuntimeStep (st : RuntimeState) : RuntimeEvent → Option RuntimeState
  | RuntimeEvent.recv pa =>
      if st.returned then none
      else some { st with values := st.values ++ [pa], received := st.received ++ [pa] }
  | RuntimeEvent.quit =>
      if st.returned then none else some { st with returned := true }
  | RuntimeEvent.send =>
      if st.returned then none
      else
        match st.values with
        | [] => none
        | activeValue :: rest =>
            some { st with values := rest, handed := st.handed ++ [activeValue] }

/-- A run of the loop of `extractRuntime` along a sequence of events. -/
def extractRuntimeRun (st : RuntimeState) : List RuntimeEvent → Option RuntimeState
  | [] => some st
  | e :: es =>
      match extractRuntimeStep st e with
      | none => none
      | some st1 => extractRuntimeRun st1 es

/-- Where a worker of `extractWork` stands: before its send on the producer
channel has completed (it is extracting or waiting to hand over), or past it
(about to take a token off `extractingCH`); `success` is the `Success` field of
the result handed over. -/
inductive WorkerPhase where
  | extracting
  | handedOver (success : Bool)
deriving DecidableEq, Repr

/-- The channel `extractingCH` and the workers of one scanner: the number of
tokens in the channel, the number of `extractWork` loops that have put their
token and not yet executed the `go` statement, and the workers started and not
yet finished. -/
structure ExtractPool where
  tokens : Nat
  starting : Nat
  workers : List WorkerPhase
deriving DecidableEq, Repr

/-- The steps of `extractWork` and of its workers. -/
inductive PoolEvent where
  | acquire
  | start
  | handOver (i : Nat) (success : Bool)
  | release (i : Nat)
deriving DecidableEq, Repr

/-- A scanner just created: `extractingCH = make(chan struct{}, maxExtractingSize)`,
no worker. -/
def poolInit : ExtractPool :=
  { tokens := 0, starting := 0, workers := [] }

/-- One step of the pool, `none` when the step is not enabled:
`bs.extractingCH <- struct{}{}` needs room in the channel of capacity
`maxExtractingSize`; the `go` statement starts the worker; the worker at
position `i` completes `mProducer <- bs.ExtractTransaction(...)`; the worker at
position `i` completes `<-end`, which needs a token in the channel, and
finishes. -/
def poolStep (p : ExtractPool) : PoolEvent → Option ExtractPool
  | PoolEvent.acquire =>
      if p.tokens < maxExtractingSize then
        some { p with tokens := p.tokens + 1, starting := p.starting + 1 }
      else none
  | PoolEvent.start =>
      if 0 < p.starting then
        some { p with starting := p.starting - 1,
                      workers := p.workers ++ [WorkerPhase.extracting] }
      else none
  | PoolEvent.handOver i success =>
      match p.workers.get? i with
      | some WorkerPhase.extracting =>
          some { p with workers := p.workers.set i (WorkerPhase.handedOver success) }
      | _ => none
  | PoolEvent.release i =>
      match p.workers.get? i with
      | some (WorkerPhase.handedOver _) =>
          if 0 < p.tokens then
            some { p with tokens := p.tokens - 1, workers := p.workers.eraseIdx i }
          else none
      | _ => none

/-- A run of the pool along a sequence of steps. -/
def poolRun (p : ExtractPool) : List PoolEvent → Option ExtractPool
  | [] => some p
  | e :: es =>
      match poolStep p e with
      | none => none
      | some p1 => poolRun p1 es

/-! ## Acts of a rescan round on the ledger -/

/-- What one round of the rescan loop does to the ledger at its height `h`:
nothing, the insertion of a block-level record `(h, "", reason)`, or the
deletion of all records of the height. -/
inductive LedgerAct where
  | keep
  | upsert (reason : String)
  | delete
deriving DecidableEq, Repr

/-- The ledger after an act at height `h`. -/
def LedgerAct.run (h : Nat) : LedgerAct → List UnscanRecord → List UnscanRecord
  | LedgerAct.keep, l => l
  | LedgerAct.upsert reason, l => insertUnscan (NewUnscanRecord h "" reason) l
  | LedgerAct.delete, l => l.filter (fun r => ¬ r.BlockHeight = h)

/-- The acts of the save round: no deletion, and the reason written is one of
the two the scanner writes, `""` and `"ExtractData Notify failed."`. -/
def LedgerAct.isSave : LedgerAct → Prop
  | LedgerAct.keep => True
  | LedgerAct.upsert reason => reason = "" ∨ reason = "ExtractData Notify failed."
  | LedgerAct.delete => False

/-- The acts of a rescan round: those of the save round, and the deletion. -/
def LedgerAct.isRescan : LedgerAct → Prop
  | LedgerAct.delete => True
  | a => a.isSave

/-- Scenario "record of a transaction that is not found": the ledger holds, at
height 7, a record that names transaction `Tz` and carries the not-found
reason. -/
def notFoundAt7State : State :=
  { emptyState with
    unscan := [NewUnscanRecord 7 "Tz" "[-5]No information available about transaction"] }

/-- The coin that `extractTokenTransfer` attaches to the records of a token
receipt. -/
def tokenCoin (env : Env) (tokenReceipt : TokenReceipt) : Coin :=
  { Symbol := env.Symbol, IsContract := true,
    ContractID := env.GenContractID env.Symbol tokenReceipt.ContractAddress,
    Contract := { ContractID := env.GenContractID env.Symbol tokenReceipt.ContractAddress,
                  Address := tokenReceipt.ContractAddress,
                  Protocol := "qrc20", Symbol := env.Symbol } }

/-- The `TxInput` record that `extractTokenTransfer` builds for a receipt whose
sender is watched. -/
def tokenTxInput (env : Env) (trx : Transaction) (createAt : Nat)
    (tokenReceipt : TokenReceipt) : TxInput :=
  { SourceTxID := "", SourceIndex := 0, TxID := trx.TxID, Address := tokenReceipt.From,
    Amount := tokenReceipt.Amount, Coin := tokenCoin env tokenReceipt, Index := 0,
    Sid := env.GenTxInputSID tokenReceipt.TxHash env.Symbol
      (env.GenContractID env.Symbol tokenReceipt.ContractAddress) 0,
    CreateAt := createAt,
    BlockHeight := tokenReceipt.BlockHeight, BlockHash := tokenReceipt.BlockHash }

/-- The `TxOutPut` record that `extractTokenTransfer` builds for a receipt whose
recipient is watched. -/
def tokenTxOutPut (env : Env) (trx : Transaction) (createAt : Nat)
    (tokenReceipt : TokenReceipt) : TxOutPut :=
  { TxID := trx.TxID, Address := tokenReceipt.To, Amount := tokenReceipt.Amount,
    Coin := tokenCoin env tokenReceipt, Index := 0,
    Sid := env.GenTxOutPutSID tokenReceipt.TxHash env.Symbol
      (env.GenContractID env.Symbol tokenReceipt.ContractAddress) 0,
    ExtParam := [], CreateAt := createAt,
    BlockHeight := tokenReceipt.BlockHeight, BlockHash := tokenReceipt.BlockHash,
    Confirm := 0 }

/-- The summary record that `extractTokenTransfer` synthesizes from a receipt
and writes to every bucket of `extractContractData`. -/
def tokenSummary (env : Env) (trx : Transaction) (tokenReceipt : TokenReceipt) :
    openwallet.Transaction :=
  let tx0 : openwallet.Transaction :=
    { WxID := "", TxID := tokenReceipt.TxHash,
      From := [tokenReceipt.From ++ ":" ++ tokenReceipt.Amount],
      To := [tokenReceipt.To ++ ":" ++ tokenReceipt.Amount],
      Fees := "0", Coin := tokenCoin env tokenReceipt,
      BlockHash := tokenReceipt.BlockHash, BlockHeight := tokenReceipt.BlockHeight,
      Decimal := 0, ConfirmTime := trx.Blocktime, Status := env.TxStatusSuccess }
  { tx0 with WxID := env.GenTransactionWxID tx0 }

/-- Scenario "two token receipts": transaction `Tq2` carries two QRC20
receipts of the same contract and transaction hash: the first moves `250` from
the watched `W` (account `acct1`) to the unwatched `X`, the second moves `40`
from the watched `U` (account `acct3`) to the watched `V` (account `acct2`). -/
def twoReceiptEnv : Env :=
  { emptyEnv with
    GetTransaction := fun txid =>
      if txid = "Tq2" then
        .ok { TxID := "Tq2", BlockHash := "hq", BlockHeight := 7, Confirmations := 1,
              Blocktime := 0, Isqrc20Transfer := true,
              TokenReceipts := [{ TxHash := "Tq2", ContractAddress := "c0ffee", From := "W",
                                  To := "X", Amount := "250", BlockHeight := 7,
                                  BlockHash := "hq" },
                                { TxHash := "Tq2", ContractAddress := "c0ffee", From := "U",
                                  To := "V", Amount := "40", BlockHeight := 7,
                                  BlockHash := "hq" }],
              Vins := [], Vouts := [] }
      else .error "[-5]No information available about transaction",
    ScanAddressFunc := fun addr =>
      if addr = "W" then ("acct1", true)
      else if addr = "V" then ("acct2", true)
      else if addr = "U" then ("acct3", true) else ("", false) }

/-- The update of the bucket of a scanned address when the address is watched:
`sourceKey, ok := scanAddressFunc(addr); if ok { ... }`. -/
def bucketModifyIf (sk : String × Bool) (f : TxExtractData → TxExtractData)
    (m : List (String × TxExtractData)) : List (String × TxExtractData) :=
  if sk.2 then bucketModify m sk.1 f else m

/-- One round of the receipt loop of `extractTokenTransfer`, as a step on the
map `extractContractData`. -/
def tokenStep (env : Env) (trx : Transaction) (scanAddressFunc : String → String × Bool)
    (createAt : Nat) (m : List (String × TxExtractData)) (tokenReceipt : TokenReceipt) :
    List (String × TxExtractData) :=
  (bucketModifyIf (scanAddressFunc tokenReceipt.To)
    (fun ed => { ed with
      TxOutputs := ed.TxOutputs ++ [tokenTxOutPut env trx createAt tokenReceipt] })
    (bucketModifyIf (scanAddressFunc tokenReceipt.From)
      (fun ed => { ed with
        TxInputs := ed.TxInputs ++ [tokenTxInput env trx createAt tokenReceipt] })
      m)).map
    (fun kv => (kv.1, { kv.2 with Transaction := some (tokenSummary env trx tokenReceipt) }))

/-- The assignment `extractData.Transaction = tx` on one bucket. -/
def withSummary (tx : openwallet.Transaction) (ed : TxExtractData) : TxExtractData :=
  { ed with Transaction := some tx }

/-- The batch extractions one round of the rescan loop invokes for the group
`g`: none for height 0 and when the block of a group without explicit txids
cannot be fetched, otherwise one, with the empty block hash. -/
def rescanCalls (env : Env) (g : Nat × List String) : List (Nat × String × List String) :=
  if g.1 = 0 then []
  else
    match specRescanTxs env g.1 g.2 with
    | some t => [(g.1, "", t)]
    | none => []

/-- The heights whose hash one round of the rescan loop fetches for the group
`g`: the height of the group when it is not 0 and the group has no explicit
txid. -/
def rescanFetches (g : Nat × List String) : List Nat :=
  if g.1 ≠ 0 ∧ g.2.length = 0 then [g.1] else []

/-- Scenario "rescan of a block paying a watched address": block 7 (`h7`) holds
`Tw`, which reports height 0 and pays the watched address `W`; one observer
accepts every notification. -/
def rescanWatchedEnv : Env :=
  { emptyEnv with
    GetBlockHash := fun h => if h = 7 then .ok "h7" else .error "out of range",
    GetBlock := fun hash =>
      if hash = "h7" then
        .ok { Hash := "h7", Previousblockhash := "h6", Height := 7, Time := 0, tx := ["Tw"] }
      else .error "not found",
    GetTransaction := fun txid =>
      if txid = "Tw" then
        .ok { TxID := "Tw", BlockHash := "", BlockHeight := 0, Confirmations := 0,
              Blocktime := 0, Isqrc20Transfer := false, TokenReceipts := [],
              Vins := [],
              Vouts := [{ N := 0, Addr := "W", Value := "1.00000000", ScriptPubKey := "" }] }
      else .error "[-5]No information available about transaction",
    ScanAddressFunc := fun addr => if addr = "W" then ("acct1", true) else ("", false),
    Observers := [1] }

/-- A ledger whose only record is a block-level record at height 7. -/
def blockRecordAt7State : State :=
  { emptyState with unscan := [NewUnscanRecord 7 "" "timeout"] }

/-- A ledger holding at height 7 a block-level record and a record that names
transaction `Tw`. -/
def mixedAt7State : State :=
  { emptyState with
    unscan := [NewUnscanRecord 7 "" "timeout", NewUnscanRecord 7 "Tw" "timeout"] }

/-- A ledger whose only record is a block-level record at height 7 that
carries the not-found reason. -/
def notFoundBlockAt7State : State :=
  { emptyState with
    unscan := [NewUnscanRecord 7 "" "[-5]No information available about transaction"] }

/-! ## Theorems -/

/-- The extractor reports success whenever the transaction itself was fetched,
whatever happened while its vins were resolved. -/
theorem ExtractTransaction_success_of_fetched (env : Env) (blockHeight : Nat)
    (blockHash txid : String) (scanAddressFunc : String → String × Bool) (trx : Transaction)
    (h : env.GetTransaction txid = .ok trx) :
    (ExtractTransaction env blockHeight blockHash txid scanAddressFunc).1.Success = true := by
  simp [ExtractTransaction, h, extractTokenTransfer]

/-- The extractor reports failure exactly when the transaction itself cannot
be fetched. -/
theorem ExtractTransaction_success_iff (env : Env) (blockHeight : Nat)
    (blockHash txid : String) (scanAddressFunc : String → String × Bool) :
    (ExtractTransaction env blockHeight blockHash txid scanAddressFunc).1.Success = true ↔
      ∃ trx, env.GetTransaction txid = .ok trx := by
  cases h : env.GetTransaction txid with
  | error e => simp [ExtractTransaction, h]
  | ok trx => simp [ExtractTransaction, h, extractTokenTransfer]

/-- C1 (evaluated at the failing input): for `T3`, whose only vin has an empty
address and references `P`, with `GetTransaction("P")` failing, the walk over
the vins ends with `success = false` and `P` fetched, yet `ExtractTransaction`
returns `Success = true` with no extracted data. -/
theorem C1_deref_failure_reports_success :
    (resolveVins derefFailEnv true
        [{ Coinbase := "", TxID := "P", Vout := 0, N := 0, Addr := "", Value := "" }]).2
      = (false, ["P"]) ∧
    (ExtractTransaction derefFailEnv 7 "h7" "T3" derefFailEnv.ScanAddressFunc).1.Success
      = true ∧
    (ExtractTransaction derefFailEnv 7 "h7" "T3" derefFailEnv.ScanAddressFunc).1.extractData
      = [] ∧
    (ExtractTransaction derefFailEnv 7 "h7" "T3" derefFailEnv.ScanAddressFunc).2
      = ["T3", "P"] := by
  decide

/-- A record just inserted is in the ledger. -/
theorem mem_insertUnscan (r : UnscanRecord) (l : List UnscanRecord) :
    r ∈ insertUnscan r l := by
  induction l with
  | nil => simp [insertUnscan]
  | cons x xs ih =>
      unfold insertUnscan
      split
      · simp
      · simp [ih]

/-- C2 (counterexample): with cursor `(5, "h5")` and tip 10, a failing hash
fetch leaves the loop (`break`) without any record inserted, and a failing
block fetch continues with the in-memory height at 6, so that the next round
targets height 7 and not 6 again. -/
theorem C2_counterexample :
    (scanIteration hashFailEnv { currentHeight := 5, currentHash := "h5" } stateAt5).1
      = Flow.stop ∧
    (scanIteration hashFailEnv { currentHeight := 5, currentHash := "h5" } stateAt5).2.2.unscan
      = [] ∧
    (scanIteration blockFailEnv { currentHeight := 5, currentHash := "h5" } stateAt5).2.1
      = { currentHeight := 6, currentHash := "h5" } ∧
    hashFetches
      (scanIteration blockFailEnv { currentHeight := 6, currentHash := "h5" } stateAt5).2.2.log
      = [7] := by
  decide

/-- C2 (amended): in a round of the scan loop with target height
`t = currentHeight + 1` below or at the tip: if the hash of `t` cannot be
fetched the loop is left, no record is inserted and the persisted cursor is
unchanged; if the hash is fetched and the block cannot be fetched with error
`err`, the record `UnscanRecord(t, "", err)` is saved, the loop continues and
the persisted cursor is unchanged. -/
theorem C2_fetch_failure (env : Env) (v : LoopVars) (s : State) (tip : Nat)
    (hScan : env.Scanning = true) (hTip : env.GetBlockHeight = .ok tip)
    (hlt : v.currentHeight < tip) :
    (∀ err, env.GetBlockHash (v.currentHeight + 1) = .error err →
      (scanIteration env v s).1 = Flow.stop ∧
      (scanIteration env v s).2.2.unscan = s.unscan ∧
      GetLocalNewBlock (scanIteration env v s).2.2 = GetLocalNewBlock s) ∧
    (∀ hash err, env.GetBlockHash (v.currentHeight + 1) = .ok hash →
      env.GetBlock hash = .error err →
      (scanIteration env v s).1 = Flow.next ∧
      NewUnscanRecord (v.currentHeight + 1) "" err ∈ (scanIteration env v s).2.2.unscan ∧
      (scanIteration env v s).2.2.unscan
        = insertUnscan (NewUnscanRecord (v.currentHeight + 1) "" err) s.unscan ∧
      GetLocalNewBlock (scanIteration env v s).2.2 = GetLocalNewBlock s) := by
  have hnot : ¬ v.currentHeight ≥ tip := Nat.not_le.mpr hlt
  refine ⟨?_, ?_⟩
  · intro err hh
    simp [scanIteration, hScan, hTip, hnot, hh, State.emit, GetLocalNewBlock]
  · intro hash err hh hb
    simp [scanIteration, hScan, hTip, hnot, hh, hb, State.emit, GetLocalNewBlock,
      SaveUnscanRecord, NewUnscanRecord, mem_insertUnscan]

/-- C2 (witness): the block-fetch failure at cursor `(5, "h5")`, tip 10. -/
theorem C2_fetch_failure_witness :
    (scanIteration blockFailEnv { currentHeight := 5, currentHash := "h5" } stateAt5).1
      = Flow.next ∧
    NewUnscanRecord 6 "" "timeout" ∈
      (scanIteration blockFailEnv { currentHeight := 5, currentHash := "h5" } stateAt5).2.2.unscan ∧
    (scanIteration blockFailEnv { currentHeight := 5, currentHash := "h5" } stateAt5).2.2.unscan
      = insertUnscan (NewUnscanRecord 6 "" "timeout") stateAt5.unscan ∧
    GetLocalNewBlock
      (scanIteration blockFailEnv { currentHeight := 5, currentHash := "h5" } stateAt5).2.2
      = GetLocalNewBlock stateAt5 :=
  (C2_fetch_failure blockFailEnv { currentHeight := 5, currentHash := "h5" } stateAt5 10
    (by decide) rfl (by decide)).2 "h6" "timeout" rfl rfl


theorem DataStep.refl (s : State) : DataStep s s :=
  ⟨rfl, rfl, rfl, [], by simp, by simp⟩

theorem DataStep.trans {s t u : State} (h1 : DataStep s t) (h2 : DataStep t u) :
    DataStep s u := by
  obtain ⟨a1, b1, c1, e1, l1, d1⟩ := h1
  obtain ⟨a2, b2, c2, e2, l2, d2⟩ := h2
  refine ⟨a2.trans a1, b2.trans b1, c2.trans c1, e1 ++ e2, ?_, ?_⟩
  · rw [l2, l1, List.append_assoc]
  · intro e he
    rcases List.mem_append.mp he with h | h
    · exact d1 e h
    · exact d2 e h

theorem DataStep.emit (s : State) (e : Event) (he : e.isData = true) :
    DataStep s (s.emit e) :=
  ⟨rfl, rfl, rfl, [e], rfl, by simpa using he⟩

theorem DataStep.saveUnscan (r : UnscanRecord) (s : State) :
    DataStep s (SaveUnscanRecord r s) := by
  unfold SaveUnscanRecord
  split
  · exact DataStep.refl s
  · exact ⟨rfl, rfl, rfl, [], by simp, by simp⟩

theorem DataStep.foldl {α : Type} (f : State → α → State)
    (hf : ∀ s x, DataStep s (f s x)) (l : List α) (s : State) :
    DataStep s (l.foldl f s) := by
  induction l generalizing s with
  | nil => exact DataStep.refl s
  | cons x xs ih => exact (hf s x).trans (ih (f s x))

theorem DataStep.notifyOne (env : Env) (height o : Nat) (s : State)
    (kv : String × TxExtractData) : DataStep s (notifyOne env height o s kv) := by
  unfold qtum.notifyOne
  have h1 := DataStep.emit s (Event.BlockExtractDataNotify o kv.1 kv.2) rfl
  cases env.BlockExtractDataNotify o kv.1 kv.2 with
  | none => exact h1
  | some e => exact h1.trans (DataStep.saveUnscan _ _)

theorem DataStep.newExtractDataNotify (env : Env) (height : Nat)
    (extractData : List (String × TxExtractData)) (s : State) :
    DataStep s (newExtractDataNotify env height extractData s).2 := by
  unfold qtum.newExtractDataNotify
  exact DataStep.foldl _ (fun s o => DataStep.foldl _ (DataStep.notifyOne env height o) _ s) _ s

theorem DataStep.saveWork (env : Env) (height : Nat) (acc : State × Nat)
    (gets : ExtractResult) : DataStep acc.1 (saveWork env height acc gets).1 := by
  unfold qtum.saveWork
  split
  · exact (DataStep.newExtractDataNotify env height _ _).trans
      (DataStep.newExtractDataNotify env height _ _)
  · exact DataStep.saveUnscan _ _

theorem DataStep.extractAndSave (env : Env) (blockHeight : Nat) (blockHash : String)
    (acc : State × Nat) (txid : String) :
    DataStep acc.1 (extractAndSave env blockHeight blockHash acc txid).1 := by
  unfold qtum.extractAndSave
  refine DataStep.trans ?_ (DataStep.saveWork env blockHeight _ _)
  refine ⟨rfl, rfl, rfl, _, rfl, ?_⟩
  intro e he
  obtain ⟨t, _, rfl⟩ := List.mem_map.mp he
  rfl

theorem DataStep.foldlPair {α : Type} (f : State × Nat → α → State × Nat)
    (hf : ∀ a x, DataStep a.1 (f a x).1) (l : List α) (a : State × Nat) :
    DataStep a.1 (l.foldl f a).1 := by
  induction l generalizing a with
  | nil => exact DataStep.refl _
  | cons x xs ih => exact (hf a x).trans (ih (f a x))

/-- What a batch extraction does to the state outside the ledger: cursor and
blocks are untouched, and the log grows by the call itself followed by
transaction fetches and extract-data notifications only. -/
theorem BatchExtractTransaction_frame (env : Env) (blockHeight : Nat) (blockHash : String)
    (txs : List String) (s : State) :
    DataStep (s.emit (Event.BatchExtractTransaction blockHeight blockHash txs))
      (BatchExtractTransaction env blockHeight blockHash txs s).2 := by
  unfold BatchExtractTransaction
  simp only
  split
  · exact DataStep.refl _
  · have h := DataStep.foldlPair (extractAndSave env blockHeight blockHash)
      (DataStep.extractAndSave env blockHeight blockHash) (env.arrival txs)
      (s.emit (Event.BatchExtractTransaction blockHeight blockHash txs), 0)
    split
    · exact h
    · exact h

theorem blockNotifs_append (l1 l2 : List Event) :
    blockNotifs (l1 ++ l2) = blockNotifs l1 ++ blockNotifs l2 := by
  simp [blockNotifs, List.filterMap_append]

theorem batchCalls_append (l1 l2 : List Event) :
    batchCalls (l1 ++ l2) = batchCalls l1 ++ batchCalls l2 := by
  simp [batchCalls, List.filterMap_append]

theorem hashFetches_append (l1 l2 : List Event) :
    hashFetches (l1 ++ l2) = hashFetches l1 ++ hashFetches l2 := by
  simp [hashFetches, List.filterMap_append]

theorem blockNotifs_data (evs : List Event) (h : ∀ e ∈ evs, e.isData = true) :
    blockNotifs evs = [] := by
  induction evs with
  | nil => rfl
  | cons e es ih =>
      have he := h e (by simp)
      have hes := ih (fun x hx => h x (by simp [hx]))
      cases e <;> simp_all [blockNotifs, Event.isData]

theorem batchCalls_data (evs : List Event) (h : ∀ e ∈ evs, e.isData = true) :
    batchCalls evs = [] := by
  induction evs with
  | nil => rfl
  | cons e es ih =>
      have he := h e (by simp)
      have hes := ih (fun x hx => h x (by simp [hx]))
      cases e <;> simp_all [batchCalls, Event.isData]

theorem hashFetches_data (evs : List Event) (h : ∀ e ∈ evs, e.isData = true) :
    hashFetches evs = [] := by
  induction evs with
  | nil => rfl
  | cons e es ih =>
      have he := h e (by simp)
      have hes := ih (fun x hx => h x (by simp [hx]))
      cases e <;> simp_all [hashFetches, Event.isData]

theorem DataStep.blockNotifs {s t : State} (h : DataStep s t) :
    qtum.blockNotifs t.log = qtum.blockNotifs s.log := by
  obtain ⟨evs, hl, hd⟩ := h.log
  rw [hl, blockNotifs_append, blockNotifs_data evs hd, List.append_nil]

theorem DataStep.batchCalls {s t : State} (h : DataStep s t) :
    qtum.batchCalls t.log = qtum.batchCalls s.log := by
  obtain ⟨evs, hl, hd⟩ := h.log
  rw [hl, batchCalls_append, batchCalls_data evs hd, List.append_nil]

theorem DataStep.hashFetches {s t : State} (h : DataStep s t) :
    qtum.hashFetches t.log = qtum.hashFetches s.log := by
  obtain ⟨evs, hl, hd⟩ := h.log
  rw [hl, hashFetches_append, hashFetches_data evs hd, List.append_nil]

theorem rewindHeight_of_pos (c : Nat) (h1 : 1 ≤ c) (h2 : c < U64) :
    rewindHeight (c + 1) = max 1 (c - 1) := by
  unfold rewindHeight
  have e : (c + 1 + U64 - 2) % U64 = c - 1 := by
    have : c + 1 + U64 - 2 = (c - 1) + U64 := by omega
    rw [this, Nat.add_mod_right, Nat.mod_eq_of_lt (by omega)]
  simp only [e]
  rcases Nat.eq_or_lt_of_le h1 with h | h
  · subst h; simp
  · have : ¬ c - 1 ≤ 0 := by omega
    simp [this]; omega

/-- The fork branch when the block at the rewind height is obtained, from the
local store or by the remote refetch. -/
theorem forkBranch_obtained (env : Env) (currentHeight : Nat) (currentHash : String)
    (s : State) (localBlock : Block)
    (hrew : GetLocalBlock (rewindHeight currentHeight) s = some localBlock ∨
      (GetLocalBlock (rewindHeight currentHeight) s = none ∧
        ∃ prevHash, env.GetBlockHash (rewindHeight currentHeight) = .ok prevHash ∧
          env.GetBlock prevHash = .ok localBlock)) :
    (forkBranch env currentHeight currentHash s).1 = Flow.next ∧
    (forkBranch env currentHeight currentHash s).2.1
      = { currentHeight := rewindHeight currentHeight, currentHash := localBlock.Hash } ∧
    GetLocalNewBlock (forkBranch env currentHeight currentHash s).2.2
      = (localBlock.Height, localBlock.Hash) ∧
    batchCalls (forkBranch env currentHeight currentHash s).2.2.log = batchCalls s.log ∧
    blockNotifs (forkBranch env currentHeight currentHash s).2.2.log
      = blockNotifs s.log ++
        (match GetLocalBlock (currentHeight - 1) s with
         | some fb => [{ fb.BlockHeader with Fork := true }]
         | none => []) := by
  have hblocks : ∀ h, GetLocalBlock h (DeleteUnscanRecord (currentHeight - 1) s)
      = GetLocalBlock h s := fun h => rfl
  have hlog : (DeleteUnscanRecord (currentHeight - 1) s).log = s.log := rfl
  rcases hrew with h | ⟨h, prevHash, hh, hb⟩
  · simp only [forkBranch, hblocks, h, forkFinish]
    cases hf : GetLocalBlock (currentHeight - 1) s <;>
      simp [SaveLocalNewBlock, GetLocalNewBlock, hlog, newBlockNotify, State.emit,
        batchCalls_append, blockNotifs_append, batchCalls, blockNotifs]
  · simp only [forkBranch, hblocks, h, hh, hb, forkFinish]
    cases hf : GetLocalBlock (currentHeight - 1) s <;>
      simp [SaveLocalNewBlock, GetLocalNewBlock, hlog, newBlockNotify, State.emit,
        batchCalls_append, blockNotifs_append] <;>
      simp [batchCalls, blockNotifs]

/-- One round of the scan loop that reaches the fork check. -/
theorem scanIteration_fetched (env : Env) (v : LoopVars) (s : State) (tip : Nat)
    (hash : String) (block : Block)
    (hScan : env.Scanning = true) (hTip : env.GetBlockHeight = .ok tip)
    (hlt : v.currentHeight < tip)
    (hh : env.GetBlockHash (v.currentHeight + 1) = .ok hash)
    (hb : env.GetBlock hash = .ok block) :
    scanIteration env v s =
      if v.currentHash ≠ block.Previousblockhash then
        forkBranch env (v.currentHeight + 1) v.currentHash
          (((s.emit Event.GetBlockHeight).emit (Event.GetBlockHash (v.currentHeight + 1))).emit
            (Event.GetBlock hash))
      else
        normalBranch env (v.currentHeight + 1) hash block
          (((s.emit Event.GetBlockHeight).emit (Event.GetBlockHash (v.currentHeight + 1))).emit
            (Event.GetBlock hash)) := by
  have hnot : ¬ v.currentHeight ≥ tip := Nat.not_le.mpr hlt
  simp [scanIteration, hScan, hTip, hnot, hh, hb]

/-- The local block found at a height has that height. -/
theorem GetLocalBlock_height (height : Nat) (s : State) (b : Block)
    (h : GetLocalBlock height s = some b) : b.Height = height := by
  unfold GetLocalBlock at h
  have := List.find?_some h
  simpa using this

/-- Fork rewind for a cursor height `c ≥ 1`: when the fetched block at `c + 1`
names another parent than the cursor hash and the block at height
`max 1 (c - 1)` is obtained, the round runs no batch extraction and persists
the cursor `(Height, Hash)` of the obtained block. -/
theorem fork_rewind_of_pos (env : Env) (v : LoopVars) (s : State) (tip : Nat)
    (hash : String) (block localBlock : Block)
    (hScan : env.Scanning = true) (hTip : env.GetBlockHeight = .ok tip)
    (hlt : v.currentHeight < tip)
    (hh : env.GetBlockHash (v.currentHeight + 1) = .ok hash)
    (hb : env.GetBlock hash = .ok block)
    (hfork : v.currentHash ≠ block.Previousblockhash)
    (hpos : 1 ≤ v.currentHeight) (hu : v.currentHeight < U64)
    (hrew : GetLocalBlock (max 1 (v.currentHeight - 1)) s = some localBlock ∨
      (GetLocalBlock (max 1 (v.currentHeight - 1)) s = none ∧
        ∃ prevHash, env.GetBlockHash (max 1 (v.currentHeight - 1)) = .ok prevHash ∧
          env.GetBlock prevHash = .ok localBlock)) :
    batchCalls (scanIteration env v s).2.2.log = batchCalls s.log ∧
    (scanIteration env v s).2.1.currentHeight = max 1 (v.currentHeight - 1) ∧
    GetLocalNewBlock (scanIteration env v s).2.2 = (localBlock.Height, localBlock.Hash) := by
  rw [scanIteration_fetched env v s tip hash block hScan hTip hlt hh hb, if_pos hfork]
  have hr := rewindHeight_of_pos v.currentHeight hpos hu
  have hrew2 : GetLocalBlock (rewindHeight (v.currentHeight + 1))
        (((s.emit Event.GetBlockHeight).emit (Event.GetBlockHash (v.currentHeight + 1))).emit
            (Event.GetBlock hash)) = some localBlock ∨
      (GetLocalBlock (rewindHeight (v.currentHeight + 1))
        (((s.emit Event.GetBlockHeight).emit (Event.GetBlockHash (v.currentHeight + 1))).emit
            (Event.GetBlock hash)) = none ∧
        ∃ prevHash, env.GetBlockHash (rewindHeight (v.currentHeight + 1)) = .ok prevHash ∧
          env.GetBlock prevHash = .ok localBlock) := by
    rw [hr]; exact hrew
  obtain ⟨_, h2, h3, h4, _⟩ := forkBranch_obtained env (v.currentHeight + 1) v.currentHash _
    localBlock hrew2
  refine ⟨?_, ?_, h3⟩
  · rw [h4]; simp [State.emit, batchCalls_append]; simp [batchCalls]
  · rw [h2, hr]

/-- C3 (evaluated at the failing input): cursor `(0, "g")`, tip 5, the block
at height 1 names another parent than `g` and can be fetched, the remote node
has nothing at height `2^64 - 1`.  The rewind `1 - 2` wraps to `2^64 - 1`, the
guard `currentHeight <= 0` does not fire, the loop is left after the failed
hash fetch at `2^64 - 1`, and the persisted cursor is not `(1, hash(1))`. -/
theorem C3_fork_at_height_zero :
    rewindHeight 1 = 18446744073709551615 ∧
    (scanIteration forkAtZeroEnv { currentHeight := 0, currentHash := "g" } emptyState).1
      = Flow.stop ∧
    (scanIteration forkAtZeroEnv { currentHeight := 0, currentHash := "g" } emptyState).2.1
      = { currentHeight := 18446744073709551615, currentHash := "g" } ∧
    hashFetches
      (scanIteration forkAtZeroEnv { currentHeight := 0, currentHash := "g" } emptyState).2.2.log
      = [1, 18446744073709551615] ∧
    GetLocalNewBlock
      (scanIteration forkAtZeroEnv { currentHeight := 0, currentHash := "g" } emptyState).2.2
      = (0, "") ∧
    forkAtZeroEnv.GetBlockHash (max 1 (0 - 1)) = .ok "h1" := by
  refine ⟨by decide, by decide, by decide, by decide, by decide, rfl⟩

/-- C4 (counterexample): cursor `(200, "hashX")`, block 201 names parent
`hashY`, the store holds no block of height 200, block 199 is refetched.  The
round rewinds the cursor to `(199, "h199")`, delivers no `NewBlockNotify`, and
fetches no hash at height 200. -/
theorem C4_counterexample :
    (scanIteration forkAtTipEnv { currentHeight := 200, currentHash := "hashX" }
        stateAt200).1 = Flow.next ∧
    GetLocalNewBlock
      (scanIteration forkAtTipEnv { currentHeight := 200, currentHash := "hashX" }
        stateAt200).2.2 = (199, "h199") ∧
    blockNotifs
      (scanIteration forkAtTipEnv { currentHeight := 200, currentHash := "hashX" }
        stateAt200).2.2.log = [] ∧
    hashFetches
      (scanIteration forkAtTipEnv { currentHeight := 200, currentHash := "hashX" }
        stateAt200).2.2.log = [201, 199] := by
  refine ⟨by decide, by decide, by decide, by decide⟩

/-- C4 (amended): at a fork detection (fetched block at height `c + 1` names
another parent than the cursor hash) in which the block at the rewind height
is obtained: if the store holds a block `fb` of height `c`, observers receive
exactly one `NewBlockNotify`, the header of `fb` with `Fork = true`; if the
store holds none, no `NewBlockNotify` is delivered. -/
theorem C4_fork_notify (env : Env) (v : LoopVars) (s : State) (tip : Nat)
    (hash : String) (block localBlock : Block)
    (hScan : env.Scanning = true) (hTip : env.GetBlockHeight = .ok tip)
    (hlt : v.currentHeight < tip)
    (hh : env.GetBlockHash (v.currentHeight + 1) = .ok hash)
    (hb : env.GetBlock hash = .ok block)
    (hfork : v.currentHash ≠ block.Previousblockhash)
    (hrew : GetLocalBlock (rewindHeight (v.currentHeight + 1)) s = some localBlock ∨
      (GetLocalBlock (rewindHeight (v.currentHeight + 1)) s = none ∧
        ∃ prevHash, env.GetBlockHash (rewindHeight (v.currentHeight + 1)) = .ok prevHash ∧
          env.GetBlock prevHash = .ok localBlock)) :
    (∀ fb, GetLocalBlock v.currentHeight s = some fb →
      fb.Height = v.currentHeight ∧
      blockNotifs (scanIteration env v s).2.2.log
        = blockNotifs s.log ++ [{ fb.BlockHeader with Fork := true }]) ∧
    (GetLocalBlock v.currentHeight s = none →
      blockNotifs (scanIteration env v s).2.2.log = blockNotifs s.log) := by
  rw [scanIteration_fetched env v s tip hash block hScan hTip hlt hh hb, if_pos hfork]
  obtain ⟨_, _, _, _, h5⟩ := forkBranch_obtained env (v.currentHeight + 1) v.currentHash
    (((s.emit Event.GetBlockHeight).emit (Event.GetBlockHash (v.currentHeight + 1))).emit
      (Event.GetBlock hash)) localBlock hrew
  have hbase : blockNotifs
      (((s.emit Event.GetBlockHeight).emit (Event.GetBlockHash (v.currentHeight + 1))).emit
        (Event.GetBlock hash)).log = blockNotifs s.log := by
    simp [State.emit, blockNotifs_append]; simp [blockNotifs]
  have hget : GetLocalBlock (v.currentHeight + 1 - 1)
      (((s.emit Event.GetBlockHeight).emit (Event.GetBlockHash (v.currentHeight + 1))).emit
        (Event.GetBlock hash)) = GetLocalBlock v.currentHeight s := by
    simp [GetLocalBlock, State.emit]
  rw [h5, hbase, hget]
  refine ⟨?_, ?_⟩
  · intro fb hfb
    exact ⟨GetLocalBlock_height _ _ _ hfb, by rw [hfb]⟩
  · intro hnone
    rw [hnone]; simp

/-- C4 (witness): the same fork with the block of height 200 in the store. -/
theorem C4_fork_notify_witness :
    block200.Height = 200 ∧
    blockNotifs
      (scanIteration forkAtTipEnv { currentHeight := 200, currentHash := "hashX" }
        stateAt200Stored).2.2.log
      = blockNotifs stateAt200Stored.log ++ [{ block200.BlockHeader with Fork := true }] :=
  (C4_fork_notify forkAtTipEnv { currentHeight := 200, currentHash := "hashX" }
    stateAt200Stored 201 "h201"
    { Hash := "h201", Previousblockhash := "hashY", Height := 201, Time := 0, tx := ["T"] }
    { Hash := "h199", Previousblockhash := "h198", Height := 199, Time := 0, tx := [] }
    (by decide) rfl (by decide) rfl rfl (by decide)
    (Or.inr ⟨by decide, "h199", rfl, rfl⟩)).1 block200 (by decide)

/-- The normal branch: whatever the batch extraction returns, the cursor is
persisted at `(currentHeight, hash)`, the block is stored, and one
`NewBlockNotify` with `Fork = false` is delivered. -/
theorem normalBranch_spec (env : Env) (currentHeight : Nat) (hash : String) (block : Block)
    (s : State) :
    (normalBranch env currentHeight hash block s).1 = Flow.next ∧
    (normalBranch env currentHeight hash block s).2.1
      = { currentHeight := currentHeight, currentHash := hash } ∧
    GetLocalNewBlock (normalBranch env currentHeight hash block s).2.2
      = (currentHeight, hash) ∧
    GetLocalBlock block.Height (normalBranch env currentHeight hash block s).2.2
      = some block ∧
    blockNotifs (normalBranch env currentHeight hash block s).2.2.log
      = blockNotifs s.log ++ [{ block.BlockHeader with Fork := false }] ∧
    batchCalls (normalBranch env currentHeight hash block s).2.2.log
      = batchCalls s.log ++ [(block.Height, block.Hash, block.tx)] := by
  have hf := BatchExtractTransaction_frame env block.Height block.Hash block.tx s
  have hn := hf.blockNotifs
  have hc := hf.batchCalls
  refine ⟨rfl, rfl, rfl, ?_, ?_, ?_⟩
  · simp [normalBranch, GetLocalBlock, newBlockNotify, State.emit, SaveLocalBlock,
      SaveLocalNewBlock]
  · simp only [normalBranch, newBlockNotify, State.emit, SaveLocalBlock, SaveLocalNewBlock,
      blockNotifs_append, hn]
    simp [blockNotifs]
  · simp only [normalBranch, newBlockNotify, State.emit, SaveLocalBlock, SaveLocalNewBlock,
      batchCalls_append, hc]
    simp [batchCalls]

/-- A round of the scan loop whose target block (height
`t = currentHeight + 1`) is fetched and names the cursor hash as its parent,
whatever `BatchExtractTransaction` returns: the loop continues with
`(t, hash(t))`, the persisted cursor is `(t, hash(t))`, the block is stored by
height, exactly one `NewBlockNotify` is delivered, for that block with
`Fork = false`, and the batch extraction was called once, on the block. -/
theorem scanIteration_normal (env : Env) (v : LoopVars) (s : State) (tip : Nat)
    (hash : String) (block : Block)
    (hScan : env.Scanning = true) (hTip : env.GetBlockHeight = .ok tip)
    (hlt : v.currentHeight < tip)
    (hh : env.GetBlockHash (v.currentHeight + 1) = .ok hash)
    (hb : env.GetBlock hash = .ok block)
    (hprev : v.currentHash = block.Previousblockhash) :
    (scanIteration env v s).1 = Flow.next ∧
    (scanIteration env v s).2.1
      = { currentHeight := v.currentHeight + 1, currentHash := hash } ∧
    GetLocalNewBlock (scanIteration env v s).2.2 = (v.currentHeight + 1, hash) ∧
    GetLocalBlock block.Height (scanIteration env v s).2.2 = some block ∧
    blockNotifs (scanIteration env v s).2.2.log
      = blockNotifs s.log ++ [{ block.BlockHeader with Fork := false }] ∧
    batchCalls (scanIteration env v s).2.2.log
      = batchCalls s.log ++ [(block.Height, block.Hash, block.tx)] := by
  rw [scanIteration_fetched env v s tip hash block hScan hTip hlt hh hb,
    if_neg (not_not.mpr hprev)]
  obtain ⟨h1, h2, h3, h4, h5, h6⟩ := normalBranch_spec env (v.currentHeight + 1) hash block
    (((s.emit Event.GetBlockHeight).emit (Event.GetBlockHash (v.currentHeight + 1))).emit
      (Event.GetBlock hash))
  refine ⟨h1, h2, h3, h4, ?_, ?_⟩
  · rw [h5]; simp [State.emit, blockNotifs_append]; simp [blockNotifs]
  · rw [h6]; simp [State.emit, batchCalls_append]; simp [batchCalls]

/-- C5: in a round of the scan loop whose target block (height
`t = currentHeight + 1`) is fetched and names the cursor hash as its parent,
whatever `BatchExtractTransaction` returns: the loop continues with
`(t, hash(t))`, the persisted cursor is `(t, hash(t))`, the block is stored by
height, exactly one `NewBlockNotify` is delivered, for that block with
`Fork = false`, and the batch extraction was called once, on the block. -/
theorem C5_normal_path (env : Env) (v : LoopVars) (s : State) (tip : Nat)
    (hash : String) (block : Block)
    (hScan : env.Scanning = true) (hTip : env.GetBlockHeight = .ok tip)
    (hlt : v.currentHeight < tip)
    (hh : env.GetBlockHash (v.currentHeight + 1) = .ok hash)
    (hb : env.GetBlock hash = .ok block)
    (hprev : v.currentHash = block.Previousblockhash) :
    (scanIteration env v s).1 = Flow.next ∧
    (scanIteration env v s).2.1
      = { currentHeight := v.currentHeight + 1, currentHash := hash } ∧
    GetLocalNewBlock (scanIteration env v s).2.2 = (v.currentHeight + 1, hash) ∧
    GetLocalBlock block.Height (scanIteration env v s).2.2 = some block ∧
    blockNotifs (scanIteration env v s).2.2.log
      = blockNotifs s.log ++ [{ block.BlockHeader with Fork := false }] ∧
    batchCalls (scanIteration env v s).2.2.log
      = batchCalls s.log ++ [(block.Height, block.Hash, block.tx)] :=
  scanIteration_normal env v s tip hash block hScan hTip hlt hh hb hprev

/-- C5 (witness): cursor `(100, "hashA")`, block 101 follows `hashA`; its only
transaction cannot be fetched, so the batch extraction returns an error, and
the cursor advances all the same. -/
theorem C5_normal_path_witness :
    (BatchExtractTransaction advanceEnv 101 "h101" ["T1"] emptyState).1
      = some "block scanner saveWork failed" ∧
    (scanIteration advanceEnv { currentHeight := 100, currentHash := "hashA" } emptyState).1
      = Flow.next ∧
    (scanIteration advanceEnv { currentHeight := 100, currentHash := "hashA" } emptyState).2.1
      = { currentHeight := 100 + 1, currentHash := "h101" } ∧
    GetLocalNewBlock
      (scanIteration advanceEnv { currentHeight := 100, currentHash := "hashA" } emptyState).2.2
      = (100 + 1, "h101") ∧
    GetLocalBlock 101
      (scanIteration advanceEnv { currentHeight := 100, currentHash := "hashA" } emptyState).2.2
      = some { Hash := "h101", Previousblockhash := "hashA", Height := 101, Time := 0,
               tx := ["T1"] } ∧
    blockNotifs
      (scanIteration advanceEnv { currentHeight := 100, currentHash := "hashA" } emptyState).2.2.log
      = blockNotifs emptyState.log ++
        [{ Hash := "h101", Previousblockhash := "hashA", Height := 101, Time := 0,
           Fork := false }] ∧
    batchCalls
      (scanIteration advanceEnv { currentHeight := 100, currentHash := "hashA" } emptyState).2.2.log
      = batchCalls emptyState.log ++ [(101, "h101", ["T1"])] :=
  ⟨by decide,
   C5_normal_path advanceEnv { currentHeight := 100, currentHash := "hashA" } emptyState 101
    "h101"
    { Hash := "h101", Previousblockhash := "hashA", Height := 101, Time := 0, tx := ["T1"] }
    (by decide) rfl (by decide) rfl rfl rfl⟩

theorem QuietStep.qrefl (s : State) : QuietStep s s :=
  ⟨rfl, rfl, rfl, rfl⟩

theorem QuietStep.qtrans {s t u : State} (h1 : QuietStep s t) (h2 : QuietStep t u) :
    QuietStep s u :=
  ⟨h2.blockHeight.trans h1.blockHeight, h2.blockHash.trans h1.blockHash,
    h2.blocks.trans h1.blocks, h2.notifs.trans h1.notifs⟩

theorem QuietStep.ofData {s t : State} (h : DataStep s t) : QuietStep s t :=
  ⟨h.blockHeight, h.blockHash, h.blocks, h.blockNotifs⟩

theorem QuietStep.qemit (s : State) (e : Event) (he : blockNotifs [e] = []) :
    QuietStep s (s.emit e) :=
  ⟨rfl, rfl, rfl, by simp [State.emit, blockNotifs_append, he]⟩

theorem QuietStep.qfoldl {α : Type} (f : State → α → State)
    (hf : ∀ s x, QuietStep s (f s x)) (l : List α) (s : State) :
    QuietStep s (l.foldl f s) := by
  induction l generalizing s with
  | nil => exact QuietStep.qrefl s
  | cons x xs ih => exact (hf s x).qtrans (ih (f s x))

theorem QuietStep.batch (env : Env) (blockHeight : Nat) (blockHash : String)
    (txs : List String) (s : State) :
    QuietStep s (BatchExtractTransaction env blockHeight blockHash txs s).2 :=
  (QuietStep.qemit s (Event.BatchExtractTransaction blockHeight blockHash txs) rfl).qtrans
    (QuietStep.ofData (BatchExtractTransaction_frame env blockHeight blockHash txs s))

theorem QuietStep.deleteUnscan (height : Nat) (s : State) :
    QuietStep s (DeleteUnscanRecord height s) :=
  ⟨rfl, rfl, rfl, rfl⟩

theorem QuietStep.rescanExtract (env : Env) (height : Nat) (txs : List String) (s : State) :
    QuietStep s (rescanExtract env height txs s) := by
  unfold qtum.rescanExtract
  simp only
  split
  · exact QuietStep.batch env height "" txs s
  · exact (QuietStep.batch env height "" txs s).qtrans (QuietStep.deleteUnscan _ _)

theorem QuietStep.rescanGroup (env : Env) (s : State) (g : Nat × List String) :
    QuietStep s (rescanGroup env s g) := by
  unfold qtum.rescanGroup
  simp only
  split
  · exact QuietStep.qrefl s
  · split
    · have h1 := QuietStep.qemit s (Event.GetBlockHash g.1) rfl
      split
      · exact h1
      · rename_i hash _
        have h2 := h1.qtrans (QuietStep.qemit _ (Event.GetBlock hash) rfl)
        split
        · exact h2
        · exact h2.qtrans (QuietStep.rescanExtract env _ _ _)
    · exact QuietStep.rescanExtract env _ _ _

theorem QuietStep.RescanFailedRecord (env : Env) (s : State) :
    QuietStep s (RescanFailedRecord env s) := by
  unfold qtum.RescanFailedRecord rescanLoop
  exact (QuietStep.qfoldl _ (QuietStep.rescanGroup env) _ s).qtrans ⟨rfl, rfl, rfl, rfl⟩

theorem QuietStep.ScanTxMemPool (env : Env) (s : State) :
    QuietStep s (ScanTxMemPool env s) := by
  unfold qtum.ScanTxMemPool
  have h1 := QuietStep.qemit s Event.GetTxIDsInMemPool rfl
  simp only
  split
  · exact h1
  · split
    · exact h1
    · exact h1.qtrans (QuietStep.batch env _ _ _ _)

/-- The rest of `ScanBlockTask` after its main loop, when
`RescanLastBlockCount` is 0 and the scan height is a `uint64`: cursor and
block notifications are as the main loop left them. -/
theorem afterLoop_quiet (env : Env) (currentHeight : Nat) (s : State)
    (hR : env.RescanLastBlockCount = 0) (hu : currentHeight < U64) :
    QuietStep s
      (RescanFailedRecord env
        (if env.IsScanMemPool then ScanTxMemPool env (tailRescan env currentHeight s)
         else tailRescan env currentHeight s)) := by
  have ht : tailRescan env currentHeight s = s := by
    unfold tailRescan
    have : (currentHeight + U64 - env.RescanLastBlockCount) % U64 = currentHeight := by
      rw [hR, Nat.sub_zero, Nat.add_mod_right, Nat.mod_eq_of_lt hu]
    simp [this]
  rw [ht]
  split
  · exact (QuietStep.ScanTxMemPool env s).qtrans (QuietStep.RescanFailedRecord env _)
  · exact QuietStep.RescanFailedRecord env _

/-- C6 (counterexample): cold start with an empty store against a tip that
stays at 100 on a consistent chain.  After the tick the persisted cursor is
`(100, "h100")`, not `(99, "h99")`, and one `NewBlockNotify` (block 100) was
delivered. -/
theorem C6_counterexample :
    (ScanBlockTask coldStartEnv 3 emptyState).map GetLocalNewBlock = some (100, "h100") ∧
    (ScanBlockTask coldStartEnv 3 emptyState).map (fun t => blockNotifs t.log)
      = some [{ Hash := "h100", Previousblockhash := "h99", Height := 100, Time := 0,
                Fork := false }] := by
  refine ⟨by decide, by decide⟩

/-- C6 (amended): cold start.  For one scan tick started with an empty
persisted cursor, the `Scanning` flag set, `RescanLastBlockCount = 0`, and a
remote node whose tip stays at height 100 with a consistent chain (block 100
names `hash(99)` as its parent): the tick ends (two rounds of the main loop
suffice), the persisted cursor is `(100, hash(100))`, and exactly one
`NewBlockNotify` was delivered, for block 100 with `Fork = false`. -/
theorem C6_cold_start (env : Env) (s : State) (hash99 hash100 : String) (block : Block)
    (fuel : Nat)
    (hScan : env.Scanning = true) (hTip : env.GetBlockHeight = .ok 100)
    (h99 : env.GetBlockHash 99 = .ok hash99) (h100 : env.GetBlockHash 100 = .ok hash100)
    (hb : env.GetBlock hash100 = .ok block) (hprev : block.Previousblockhash = hash99)
    (hR : env.RescanLastBlockCount = 0) (hempty : s.blockHeight = 0) (hfuel : 2 ≤ fuel) :
    ∃ t, ScanBlockTask env fuel s = some t ∧
      GetLocalNewBlock t = (100, hash100) ∧
      blockNotifs t.log = blockNotifs s.log ++ [{ block.BlockHeader with Fork := false }] := by
  obtain ⟨n, rfl⟩ : ∃ n, fuel = n + 2 := ⟨fuel - 2, by omega⟩
  have hw : (100 + U64 - 1) % U64 = 99 := by decide
  have hw2 : 99 % U64 = 99 := by decide
  have hhead : GetCurrentBlockHeader env s
      = (.ok (99, hash99), (s.emit Event.GetBlockHeight).emit (Event.GetBlockHash 99)) := by
    simp [GetCurrentBlockHeader, GetLocalNewBlock, hempty, hTip, hw, hw2, h99]
  obtain ⟨k1, k2, k3, _, k5, _⟩ := scanIteration_normal env
    { currentHeight := 99, currentHash := hash99 }
    ((s.emit Event.GetBlockHeight).emit (Event.GetBlockHash 99)) 100 hash100 block
    hScan hTip (Nat.lt_succ_self 99) h100 hb hprev.symm
  generalize hit : scanIteration env { currentHeight := 99, currentHash := hash99 }
    ((s.emit Event.GetBlockHeight).emit (Event.GetBlockHash 99)) = r at k1 k2 k3 k5
  obtain ⟨f, v1, s1⟩ := r
  simp only at k1 k2 k3 k5
  subst k1 k2
  have hstop : scanIteration env { currentHeight := 99 + 1, currentHash := hash100 } s1
      = (Flow.stop, { currentHeight := 99 + 1, currentHash := hash100 },
          s1.emit Event.GetBlockHeight) := by
    simp [scanIteration, hScan, hTip]
  have hloop : scanLoop env (n + 2) { currentHeight := 99, currentHash := hash99 }
      ((s.emit Event.GetBlockHeight).emit (Event.GetBlockHash 99))
      = some (Flow.stop, { currentHeight := 99 + 1, currentHash := hash100 },
          s1.emit Event.GetBlockHeight) := by
    simp [scanLoop, hit, hstop]
  have hq := afterLoop_quiet env (99 + 1) (s1.emit Event.GetBlockHeight) hR (by decide)
  have htask : ScanBlockTask env (n + 2) s
      = some (RescanFailedRecord env
          (if env.IsScanMemPool then
            ScanTxMemPool env (tailRescan env (99 + 1) (s1.emit Event.GetBlockHeight))
           else tailRescan env (99 + 1) (s1.emit Event.GetBlockHeight))) := by
    simp only [ScanBlockTask, hhead, hloop]
  refine ⟨_, htask, ?_, ?_⟩
  · have e1 := hq.blockHeight
    have e2 := hq.blockHash
    simp only [GetLocalNewBlock] at k3 ⊢
    rw [e1, e2]
    simpa [State.emit] using k3
  · rw [hq.notifs]
    simp only [State.emit, blockNotifs_append] at k5 ⊢
    rw [k5]
    simp [blockNotifs]

/-- C6 (witness): the cold start scenario with fuel 2. -/
theorem C6_cold_start_witness :
    ∃ t, ScanBlockTask coldStartEnv 2 emptyState = some t ∧
      GetLocalNewBlock t = (100, "h100") ∧
      blockNotifs t.log = blockNotifs emptyState.log ++
        [{ (Block.BlockHeader { Hash := "h100", Previousblockhash := "h99", Height := 100,
                                Time := 0, tx := [] }) with Fork := false }] :=
  C6_cold_start coldStartEnv emptyState "h99" "h100"
    { Hash := "h100", Previousblockhash := "h99", Height := 100, Time := 0, tx := [] } 2
    (by decide) rfl rfl rfl rfl rfl rfl rfl (by decide)

/-- When the hash lookup at `2^64 - 1` fails, `SetRescanBlockHeight(0)` returns
that error and leaves the cursor alone; the error comes from the remote node,
not from the guard `height < 0`. -/
theorem SetRescanBlockHeight_zero_of_error (env : Env) (s : State) (err : String)
    (h : env.GetBlockHash 18446744073709551615 = .error err) :
    (SetRescanBlockHeight env 0 s).1 = some err ∧
    GetLocalNewBlock (SetRescanBlockHeight env 0 s).2 = GetLocalNewBlock s := by
  have hw : (0 + U64 - 1) % U64 = 18446744073709551615 := by decide
  simp only [SetRescanBlockHeight, hw, h]
  simp [GetLocalNewBlock, State.emit]

/-- C7 (evaluated at the failing input): `SetRescanBlockHeight(0)` on a store
with cursor `(5, "h5")`, the remote node answering the hash lookup at height
`2^64 - 1` with `hmax`: the decrement wraps, the guard `height < 0` cannot
fire, no error is returned and the cursor becomes `(2^64 - 1, "hmax")`. -/
theorem C7_rescan_height_zero :
    (SetRescanBlockHeight rescanZeroEnv 0 stateAt5).1 = none ∧
    GetLocalNewBlock (SetRescanBlockHeight rescanZeroEnv 0 stateAt5).2
      = (18446744073709551615, "hmax") ∧
    GetLocalNewBlock stateAt5 = (5, "h5") := by
  refine ⟨by decide, by decide, by decide⟩

theorem HasBlockRecord_save (height : Nat) (reason : String) (s : State)
    (hpos : 0 < height) (hr : reason = "" ∨ reason = "ExtractData Notify failed.") :
    HasBlockRecord height (SaveUnscanRecord (NewUnscanRecord height "" reason) s).unscan := by
  have hne : ¬ height = 0 := by omega
  refine ⟨NewUnscanRecord height "" reason, ?_, rfl, rfl, hr⟩
  simp [SaveUnscanRecord, NewUnscanRecord, hne]
  exact mem_insertUnscan _ _

theorem HasBlockRecord_save_pres (height : Nat) (reason : String) (s : State)
    (hr : reason = "" ∨ reason = "ExtractData Notify failed.")
    (h : HasBlockRecord height s.unscan) :
    HasBlockRecord height (SaveUnscanRecord (NewUnscanRecord height "" reason) s).unscan := by
  rcases Nat.eq_zero_or_pos height with h0 | hpos
  · subst h0
    simpa [SaveUnscanRecord, NewUnscanRecord] using h
  · exact HasBlockRecord_save height reason s hpos hr

theorem HasBlockRecord_notifyOne (env : Env) (height o : Nat) (s : State)
    (kv : String × TxExtractData) (h : HasBlockRecord height s.unscan) :
    HasBlockRecord height (notifyOne env height o s kv).unscan := by
  unfold notifyOne
  simp only
  split
  · exact HasBlockRecord_save_pres height _ _ (Or.inr rfl) h
  · exact h

theorem HasBlockRecord_foldl {α : Type} (height : Nat) (f : State → α → State)
    (hf : ∀ s x, HasBlockRecord height s.unscan → HasBlockRecord height (f s x).unscan)
    (l : List α) (s : State) (h : HasBlockRecord height s.unscan) :
    HasBlockRecord height (l.foldl f s).unscan := by
  induction l generalizing s with
  | nil => exact h
  | cons x xs ih => exact ih (f s x) (hf s x h)

theorem HasBlockRecord_notify (env : Env) (height : Nat)
    (extractData : List (String × TxExtractData)) (s : State)
    (h : HasBlockRecord height s.unscan) :
    HasBlockRecord height (newExtractDataNotify env height extractData s).2.unscan := by
  unfold newExtractDataNotify
  exact HasBlockRecord_foldl height _
    (fun s o hs => HasBlockRecord_foldl height _
      (fun s kv hs => HasBlockRecord_notifyOne env height o s kv hs) _ s hs) _ s h

theorem HasBlockRecord_saveWork (env : Env) (height : Nat) (acc : State × Nat)
    (gets : ExtractResult) (h : HasBlockRecord height acc.1.unscan) :
    HasBlockRecord height (saveWork env height acc gets).1.unscan := by
  unfold saveWork
  split
  · exact HasBlockRecord_notify env height _ _ (HasBlockRecord_notify env height _ _ h)
  · exact HasBlockRecord_save_pres height _ _ (Or.inl rfl) h

theorem HasBlockRecord_extractAndSave (env : Env) (height : Nat) (hash : String)
    (acc : State × Nat) (txid : String) (h : HasBlockRecord height acc.1.unscan) :
    HasBlockRecord height (extractAndSave env height hash acc txid).1.unscan := by
  unfold extractAndSave
  exact HasBlockRecord_saveWork env height _ _ h

theorem HasBlockRecord_extractAndSave_failed (env : Env) (height : Nat) (hash : String)
    (acc : State × Nat) (txid : String) (hpos : 0 < height)
    (hfail : (ExtractTransaction env height hash txid env.ScanAddressFunc).1.Success = false) :
    HasBlockRecord height (extractAndSave env height hash acc txid).1.unscan := by
  unfold extractAndSave saveWork
  simp only [hfail]
  exact HasBlockRecord_save height "" _ hpos (Or.inl rfl)

theorem HasBlockRecord_batchFold (env : Env) (height : Nat) (hash : String)
    (l : List String) (acc : State × Nat) (h : HasBlockRecord height acc.1.unscan) :
    HasBlockRecord height (l.foldl (extractAndSave env height hash) acc).1.unscan := by
  induction l generalizing acc with
  | nil => exact h
  | cons x xs ih => exact ih _ (HasBlockRecord_extractAndSave env height hash acc x h)

theorem HasBlockRecord_batchFold_failed (env : Env) (height : Nat) (hash : String)
    (l : List String) (acc : State × Nat) (txid : String) (hpos : 0 < height)
    (hmem : txid ∈ l)
    (hfail : (ExtractTransaction env height hash txid env.ScanAddressFunc).1.Success = false) :
    HasBlockRecord height (l.foldl (extractAndSave env height hash) acc).1.unscan := by
  induction l generalizing acc with
  | nil => simp at hmem
  | cons x xs ih =>
      rcases List.mem_cons.mp hmem with hx | hx
      · subst hx
        exact HasBlockRecord_batchFold env height hash xs _
          (HasBlockRecord_extractAndSave_failed env height hash acc txid hpos hfail)
      · exact ih _ hx

/-- At height 0 the save round and the notifications write no record. -/
theorem extractAndSave_unscan_zero (env : Env) (hash : String) (acc : State × Nat)
    (txid : String) :
    (extractAndSave env 0 hash acc txid).1.unscan = acc.1.unscan := by
  have hn : ∀ (o : Nat) (s : State) (kv : String × TxExtractData),
      (notifyOne env 0 o s kv).unscan = s.unscan := by
    intro o s kv
    unfold notifyOne
    simp only
    split <;> simp [SaveUnscanRecord, NewUnscanRecord, State.emit]
  have hf : ∀ (o : Nat) (l : List (String × TxExtractData)) (s : State),
      (l.foldl (notifyOne env 0 o) s).unscan = s.unscan := by
    intro o l
    induction l with
    | nil => intro s; rfl
    | cons x xs ih => intro s; simp only [List.foldl_cons]; rw [ih, hn]
  have hN : ∀ (ed : List (String × TxExtractData)) (s : State),
      (newExtractDataNotify env 0 ed s).2.unscan = s.unscan := by
    intro ed s
    unfold newExtractDataNotify
    simp only
    generalize env.Observers = os
    induction os generalizing s with
    | nil => rfl
    | cons o os ih => simp only [List.foldl_cons]; rw [ih, hf]
  unfold extractAndSave saveWork
  simp only
  split
  · rw [hN, hN]
  · simp [SaveUnscanRecord, NewUnscanRecord]

theorem batchFold_unscan_zero (env : Env) (hash : String) (l : List String)
    (acc : State × Nat) :
    (l.foldl (extractAndSave env 0 hash) acc).1.unscan = acc.1.unscan := by
  induction l generalizing acc with
  | nil => rfl
  | cons x xs ih => simp only [List.foldl_cons]; rw [ih, extractAndSave_unscan_zero]

/-- C8 (counterexample): at height 0 a batch whose only transaction fails to
extract returns an error and writes no record; at height 5 the record
`(5, "", "")` written for the failed `Tbad` is replaced, when the notification
for `Tok` fails later in the same batch, by `(5, "", "ExtractData Notify
failed.")`. -/
theorem C8_counterexample :
    (ExtractTransaction emptyEnv 0 "" "T" emptyEnv.ScanAddressFunc).1.Success = false ∧
    (BatchExtractTransaction emptyEnv 0 "" ["T"] emptyState).1
      = some "block scanner saveWork failed" ∧
    (BatchExtractTransaction emptyEnv 0 "" ["T"] emptyState).2.unscan = [] ∧
    (ExtractTransaction observerDownEnv 5 "h5" "Tbad"
      observerDownEnv.ScanAddressFunc).1.Success = false ∧
    (BatchExtractTransaction observerDownEnv 5 "h5" ["Tbad", "Tok"] emptyState).2.unscan
      = [NewUnscanRecord 5 "" "ExtractData Notify failed."] := by
  refine ⟨by decide, by decide, by decide, by decide, by decide⟩

/-- C8 (amended): for every `BatchExtract(height, hash, txIds)` whose results
arrive in some order of `txIds`: at height 0 no record is written; at a height
above 0, for each transaction of `txIds` whose `ExtractResult` has
`Success == false`, the ledger holds, when `BatchExtract` returns, a record
with height `height` and empty txid, its reason being `""` or, when a
notification failed in the same batch, `"ExtractData Notify failed."`. -/
theorem C8_failed_tx_recorded (env : Env) (height : Nat) (hash : String)
    (txs : List String) (s : State) (hperm : (env.arrival txs).Perm txs) :
    (height = 0 →
      (BatchExtractTransaction env height hash txs s).2.unscan = s.unscan) ∧
    (0 < height → ∀ txid ∈ txs,
      (ExtractTransaction env height hash txid env.ScanAddressFunc).1.Success = false →
      ∃ r ∈ (BatchExtractTransaction env height hash txs s).2.unscan,
        r.BlockHeight = height ∧ r.TxID = "" ∧
        (r.Reason = "" ∨ r.Reason = "ExtractData Notify failed.")) := by
  refine ⟨?_, ?_⟩
  · intro h0
    subst h0
    unfold BatchExtractTransaction
    simp only
    split
    · rfl
    · split <;> exact batchFold_unscan_zero env hash _ _
  · intro hpos txid hmem hfail
    have hne : ¬ txs.length = 0 := by
      intro h
      have := List.length_eq_zero.mp h
      subst this
      simp at hmem
    have hmem2 : txid ∈ env.arrival txs := hperm.mem_iff.mpr hmem
    unfold BatchExtractTransaction
    simp only [if_neg hne]
    split <;>
      exact HasBlockRecord_batchFold_failed env height hash _ _ txid hpos hmem2 hfail

/-- C8 (witness): the batch `["Tbad", "Tok"]` at height 5 with the observer
down. -/
theorem C8_failed_tx_recorded_witness :
    ∃ r ∈ (BatchExtractTransaction observerDownEnv 5 "h5" ["Tbad", "Tok"] emptyState).2.unscan,
      r.BlockHeight = 5 ∧ r.TxID = "" ∧
      (r.Reason = "" ∨ r.Reason = "ExtractData Notify failed.") :=
  (C8_failed_tx_recorded observerDownEnv 5 "h5" ["Tbad", "Tok"] emptyState
    (List.Perm.refl _)).2 (by decide) "Tbad" (by decide) (by decide)

/-- The counter `failed` after one worker: it grows exactly when the result
has `Success == false`. -/
theorem extractAndSave_failed (env : Env) (h : Nat) (hash : String) (acc : State × Nat)
    (txid : String) :
    (extractAndSave env h hash acc txid).2
      = acc.2 + (if (ExtractTransaction env h hash txid env.ScanAddressFunc).1.Success
                 then 0 else 1) := by
  unfold extractAndSave saveWork
  simp only
  split <;> simp [newExtractDataNotify]

theorem batchFold_failed_indep (env : Env) (h : Nat) (hash : String) (l : List String)
    (a b : State × Nat) (hab : a.2 = b.2) :
    (l.foldl (extractAndSave env h hash) a).2 = (l.foldl (extractAndSave env h hash) b).2 := by
  induction l generalizing a b with
  | nil => exact hab
  | cons x xs ih =>
      simp only [List.foldl_cons]
      apply ih
      rw [extractAndSave_failed, extractAndSave_failed, hab]

/-- The error result of a batch extraction does not depend on the store. -/
theorem BatchExtractTransaction_result_indep (env : Env) (h : Nat) (hash : String)
    (txs : List String) (s t : State) :
    (BatchExtractTransaction env h hash txs s).1
      = (BatchExtractTransaction env h hash txs t).1 := by
  unfold BatchExtractTransaction
  simp only
  split
  · rfl
  · have e := batchFold_failed_indep env h hash (env.arrival txs)
      (s.emit (Event.BatchExtractTransaction h hash txs), 0)
      (t.emit (Event.BatchExtractTransaction h hash txs), 0) rfl
    rw [e]
    split <;> rfl

theorem atHeight_insertUnscan_ne (h : Nat) (r : UnscanRecord) (l : List UnscanRecord)
    (hne : r.BlockHeight ≠ h) : atHeight h (insertUnscan r l) = atHeight h l := by
  induction l with
  | nil => simp [insertUnscan, atHeight, hne]
  | cons x xs ih =>
      unfold insertUnscan
      split
      · rename_i hx
        have hxh : x.BlockHeight ≠ h := by rw [hx.1]; exact hne
        simp [atHeight, hne, hxh]
      · simp only [atHeight] at ih ⊢
        simp [List.filter_cons, ih]

/-- A step that leaves the records of height `h` alone. -/
theorem atHeight_save_ne (h h2 : Nat) (txid reason : String) (s : State) (hne : h2 ≠ h) :
    atHeight h (SaveUnscanRecord (NewUnscanRecord h2 txid reason) s).unscan
      = atHeight h s.unscan := by
  unfold SaveUnscanRecord
  split
  · rfl
  · exact atHeight_insertUnscan_ne h _ _ hne

theorem atHeight_extractAndSave_ne (env : Env) (h h2 : Nat) (hash : String)
    (acc : State × Nat) (txid : String) (hne : h2 ≠ h) :
    atHeight h (extractAndSave env h2 hash acc txid).1.unscan = atHeight h acc.1.unscan := by
  have hn : ∀ (o : Nat) (s : State) (kv : String × TxExtractData),
      atHeight h (notifyOne env h2 o s kv).unscan = atHeight h s.unscan := by
    intro o s kv
    unfold notifyOne
    simp only
    split
    · rw [atHeight_save_ne h h2 _ _ _ hne]; rfl
    · rfl
  have hf : ∀ (o : Nat) (l : List (String × TxExtractData)) (s : State),
      atHeight h (l.foldl (notifyOne env h2 o) s).unscan = atHeight h s.unscan := by
    intro o l
    induction l with
    | nil => intro s; rfl
    | cons x xs ih => intro s; simp only [List.foldl_cons]; rw [ih, hn]
  have hN : ∀ (ed : List (String × TxExtractData)) (s : State),
      atHeight h (newExtractDataNotify env h2 ed s).2.unscan = atHeight h s.unscan := by
    intro ed s
    unfold newExtractDataNotify
    simp only
    generalize env.Observers = os
    induction os generalizing s with
    | nil => rfl
    | cons o os ih => simp only [List.foldl_cons]; rw [ih, hf]
  unfold extractAndSave saveWork
  simp only
  split
  · rw [hN, hN]
  · rw [atHeight_save_ne h h2 _ _ _ hne]

/-- A batch extraction at another height leaves the records of height `h`
alone. -/
theorem atHeight_batch_ne (env : Env) (h h2 : Nat) (hash : String) (txs : List String)
    (s : State) (hne : h2 ≠ h) :
    atHeight h (BatchExtractTransaction env h2 hash txs s).2.unscan = atHeight h s.unscan := by
  have hfold : ∀ (l : List String) (acc : State × Nat),
      atHeight h (l.foldl (extractAndSave env h2 hash) acc).1.unscan
        = atHeight h acc.1.unscan := by
    intro l
    induction l with
    | nil => intro acc; rfl
    | cons x xs ih =>
        intro acc
        simp only [List.foldl_cons]
        rw [ih, atHeight_extractAndSave_ne env h h2 hash acc x hne]
  unfold BatchExtractTransaction
  simp only
  split
  · rfl
  · split <;> exact hfold _ _

/-- The calls logged by a batch extraction: the call itself. -/
theorem batchCalls_batch (env : Env) (h : Nat) (hash : String) (txs : List String)
    (s : State) :
    batchCalls (BatchExtractTransaction env h hash txs s).2.log
      = batchCalls s.log ++ [(h, hash, txs)] := by
  rw [(BatchExtractTransaction_frame env h hash txs s).batchCalls]
  simp [State.emit, batchCalls_append]
  simp [batchCalls]

theorem batchCallsAt_append (h : Nat) (l1 l2 : List Event) :
    batchCallsAt h (l1 ++ l2) = batchCallsAt h l1 ++ batchCallsAt h l2 := by
  simp [batchCallsAt, batchCalls_append]

/-- Identity `(height, txid)` of a record is kept by an insertion. -/
theorem insertUnscan_keeps (x : UnscanRecord) (l : List UnscanRecord) (r : UnscanRecord)
    (hr : r ∈ l) :
    ∃ r2 ∈ insertUnscan x l, r2.BlockHeight = r.BlockHeight ∧ r2.TxID = r.TxID := by
  induction l with
  | nil => simp at hr
  | cons y ys ih =>
      unfold insertUnscan
      split
      · rename_i hy
        rcases List.mem_cons.mp hr with h | h
        · subst h
          exact ⟨x, by simp, hy.1.symm, hy.2.symm⟩
        · exact ⟨r, by simp [h], rfl, rfl⟩
      · rcases List.mem_cons.mp hr with h | h
        · subst h
          exact ⟨r, by simp, rfl, rfl⟩
        · obtain ⟨r2, h2, e1, e2⟩ := ih h
          exact ⟨r2, by simp [h2], e1, e2⟩

theorem keepsIds_refl (l : List UnscanRecord) : KeepsIds l l :=
  fun r hr => ⟨r, hr, rfl, rfl⟩

theorem keepsIds_trans {l1 l2 l3 : List UnscanRecord} (h1 : KeepsIds l1 l2)
    (h2 : KeepsIds l2 l3) : KeepsIds l1 l3 := by
  intro r hr
  obtain ⟨r2, m2, a2, b2⟩ := h1 r hr
  obtain ⟨r3, m3, a3, b3⟩ := h2 r2 m2
  exact ⟨r3, m3, a3.trans a2, b3.trans b2⟩

theorem keepsIds_save (x : UnscanRecord) (s : State) :
    KeepsIds s.unscan (SaveUnscanRecord x s).unscan := by
  unfold SaveUnscanRecord
  split
  · exact keepsIds_refl _
  · exact fun r hr => insertUnscan_keeps x s.unscan r hr

theorem keepsIds_foldl {α : Type} (f : State → α → State)
    (hf : ∀ s x, KeepsIds s.unscan (f s x).unscan) (l : List α) (s : State) :
    KeepsIds s.unscan (l.foldl f s).unscan := by
  induction l generalizing s with
  | nil => exact keepsIds_refl _
  | cons x xs ih => exact keepsIds_trans (hf s x) (ih (f s x))

theorem keepsIds_notifyOne (env : Env) (height o : Nat) (s : State)
    (kv : String × TxExtractData) : KeepsIds s.unscan (notifyOne env height o s kv).unscan := by
  unfold notifyOne
  simp only
  split
  · exact keepsIds_save _ (s.emit _)
  · exact keepsIds_refl _

theorem keepsIds_notify (env : Env) (height : Nat)
    (extractData : List (String × TxExtractData)) (s : State) :
    KeepsIds s.unscan (newExtractDataNotify env height extractData s).2.unscan := by
  unfold newExtractDataNotify
  exact keepsIds_foldl _
    (fun s o => keepsIds_foldl _ (fun s kv => keepsIds_notifyOne env height o s kv) _ s) _ s

theorem keepsIds_saveWork (env : Env) (height : Nat) (acc : State × Nat)
    (gets : ExtractResult) : KeepsIds acc.1.unscan (saveWork env height acc gets).1.unscan := by
  unfold saveWork
  split
  · exact keepsIds_trans (keepsIds_notify env height _ _) (keepsIds_notify env height _ _)
  · exact keepsIds_save _ _

theorem keepsIds_extractAndSave (env : Env) (height : Nat) (hash : String)
    (acc : State × Nat) (txid : String) :
    KeepsIds acc.1.unscan (extractAndSave env height hash acc txid).1.unscan := by
  exact keepsIds_saveWork env height
    ({ acc.1 with log := acc.1.log ++
        (ExtractTransaction env height hash txid env.ScanAddressFunc).2.map Event.GetTransaction },
      acc.2)
    (ExtractTransaction env height hash txid env.ScanAddressFunc).1

/-- A batch extraction removes no record identity from the ledger. -/
theorem keepsIds_batch (env : Env) (height : Nat) (hash : String) (txs : List String)
    (s : State) :
    KeepsIds s.unscan (BatchExtractTransaction env height hash txs s).2.unscan := by
  have hfold : ∀ (l : List String) (acc : State × Nat),
      KeepsIds acc.1.unscan (l.foldl (extractAndSave env height hash) acc).1.unscan := by
    intro l
    induction l with
    | nil => intro acc; exact keepsIds_refl _
    | cons x xs ih =>
        intro acc
        exact keepsIds_trans (keepsIds_extractAndSave env height hash acc x) (ih _)
  unfold BatchExtractTransaction
  simp only
  split
  · exact keepsIds_refl _
  · split <;>
      exact hfold (env.arrival txs) (s.emit (Event.BatchExtractTransaction height hash txs), 0)

theorem atHeight_delete_ne (h h2 : Nat) (s : State) (hne : h2 ≠ h) :
    atHeight h (DeleteUnscanRecord h2 s).unscan = atHeight h s.unscan := by
  simp only [atHeight, DeleteUnscanRecord, List.filter_filter]
  apply List.filter_congr
  intro r _
  by_cases hr : r.BlockHeight = h
  · have : ¬ h = h2 := fun e => hne e.symm
    simp [hr, this]
  · simp [hr]

theorem atHeight_delete_self (h : Nat) (s : State) :
    atHeight h (DeleteUnscanRecord h s).unscan = [] := by
  simp only [atHeight, DeleteUnscanRecord, List.filter_filter]
  apply List.filter_eq_nil_iff.mpr
  intro r _
  by_cases hr : r.BlockHeight = h <;> simp [hr]

/-- The end of a rescan round at another height: height `h` is not touched. -/
theorem rescanExtract_ne (env : Env) (h h2 : Nat) (txs : List String) (s : State)
    (hne : h2 ≠ h) :
    atHeight h (rescanExtract env h2 txs s).unscan = atHeight h s.unscan ∧
    batchCallsAt h (rescanExtract env h2 txs s).log = batchCallsAt h s.log := by
  have hc := batchCalls_batch env h2 "" txs s
  have hu := atHeight_batch_ne env h h2 "" txs s hne
  have hcA : batchCallsAt h (BatchExtractTransaction env h2 "" txs s).2.log
      = batchCallsAt h s.log := by
    simp [batchCallsAt, hc, hne]
  unfold rescanExtract
  simp only
  split
  · exact ⟨hu, hcA⟩
  · exact ⟨by rw [atHeight_delete_ne h h2 _ hne, hu], hcA⟩

/-- The end of a rescan round at height `h` itself. -/
theorem rescanExtract_self (env : Env) (h : Nat) (txs : List String) (s : State) :
    batchCallsAt h (rescanExtract env h txs s).log = batchCallsAt h s.log ++ [(h, "", txs)] ∧
    ((BatchExtractTransaction env h "" txs s).1 = none →
      atHeight h (rescanExtract env h txs s).unscan = []) ∧
    ((BatchExtractTransaction env h "" txs s).1 ≠ none →
      KeepsIds s.unscan (rescanExtract env h txs s).unscan) ∧
    s.log <+: (rescanExtract env h txs s).log := by
  have hc := batchCalls_batch env h "" txs s
  have hcA : batchCallsAt h (BatchExtractTransaction env h "" txs s).2.log
      = batchCallsAt h s.log ++ [(h, "", txs)] := by
    simp [batchCallsAt, hc]
  have hpre : s.log <+: (BatchExtractTransaction env h "" txs s).2.log := by
    obtain ⟨evs, hl, _⟩ := (BatchExtractTransaction_frame env h "" txs s).log
    rw [hl]
    exact ⟨[Event.BatchExtractTransaction h "" txs] ++ evs, by simp [State.emit]⟩
  unfold rescanExtract
  simp only
  cases hres : (BatchExtractTransaction env h "" txs s).1 with
  | some e =>
      simp only
      exact ⟨hcA, by simp, fun _ => keepsIds_batch env h "" txs s, hpre⟩
  | none =>
      simp only
      exact ⟨hcA, fun _ => atHeight_delete_self h _, by simp, hpre⟩

theorem batchCallsAt_emit (h : Nat) (s : State) (e : Event) (he : batchCalls [e] = []) :
    batchCallsAt h (s.emit e).log = batchCallsAt h s.log := by
  simp [State.emit, batchCallsAt, batchCalls_append, he]

theorem log_prefix_emit (s : State) (e : Event) : s.log <+: (s.emit e).log :=
  ⟨[e], rfl⟩

/-- A rescan round only adds to the log. -/
theorem rescanGroup_logGrows (env : Env) (s : State) (g : Nat × List String) :
    s.log <+: (rescanGroup env s g).log := by
  unfold rescanGroup
  simp only
  split
  · exact List.prefix_refl _
  · split
    · have h1 := log_prefix_emit s (Event.GetBlockHash g.1)
      split
      · exact h1
      · rename_i hash _
        have h2 := h1.trans (log_prefix_emit _ (Event.GetBlock hash))
        split
        · exact h2
        · exact h2.trans (rescanExtract_self env _ _ _).2.2.2
    · exact (rescanExtract_self env _ _ _).2.2.2

/-- A rescan round of another height leaves height `h` alone. -/
theorem rescanGroup_ne (env : Env) (h : Nat) (s : State) (g : Nat × List String)
    (hne : g.1 ≠ h) :
    atHeight h (rescanGroup env s g).unscan = atHeight h s.unscan ∧
    batchCallsAt h (rescanGroup env s g).log = batchCallsAt h s.log := by
  unfold rescanGroup
  simp only
  split
  · exact ⟨rfl, rfl⟩
  · split
    · have h1 : batchCallsAt h (s.emit (Event.GetBlockHash g.1)).log = batchCallsAt h s.log :=
        batchCallsAt_emit h s _ rfl
      split
      · exact ⟨rfl, h1⟩
      · rename_i hash _
        have h2 : batchCallsAt h
            ((s.emit (Event.GetBlockHash g.1)).emit (Event.GetBlock hash)).log
            = batchCallsAt h s.log := by
          rw [batchCallsAt_emit h _ (Event.GetBlock hash) rfl, h1]
        split
        · exact ⟨rfl, h2⟩
        · rename_i block _
          obtain ⟨a, b⟩ := rescanExtract_ne env h g.1 block.tx
            ((s.emit (Event.GetBlockHash g.1)).emit (Event.GetBlock hash)) hne
          exact ⟨by rw [a]; rfl, by rw [b, h2]⟩
    · exact rescanExtract_ne env h g.1 g.2 s hne

/-- The rescan round of height `h > 0` itself, for the group `(h, txs)`. -/
theorem rescanGroup_self (env : Env) (h : Nat) (txs : List String) (s : State)
    (hpos : 0 < h) :
    batchCallsAt h (rescanGroup env s (h, txs)).log
      = batchCallsAt h s.log ++
        (match specRescanTxs env h txs with
         | some t => [(h, "", t)]
         | none => []) ∧
    (∀ t, specRescanTxs env h txs = some t →
      (BatchExtractTransaction env h "" t s).1 = none →
      atHeight h (rescanGroup env s (h, txs)).unscan = []) ∧
    ((∀ t, specRescanTxs env h txs = some t →
        (BatchExtractTransaction env h "" t s).1 ≠ none) →
      KeepsIds s.unscan (rescanGroup env s (h, txs)).unscan) ∧
    (txs = [] → h ∈ hashFetches (rescanGroup env s (h, txs)).log) := by
  have hne0 : ¬ h = 0 := by omega
  unfold rescanGroup specRescanTxs
  simp only [hne0, if_false]
  by_cases htx : txs = []
  · subst htx
    simp only [List.length_nil, if_true]
    have hf1 : h ∈ hashFetches (s.emit (Event.GetBlockHash h)).log := by
      simp [State.emit, hashFetches_append, hashFetches]
    have hb1 : batchCallsAt h (s.emit (Event.GetBlockHash h)).log = batchCallsAt h s.log :=
      batchCallsAt_emit h s _ rfl
    cases hh : env.GetBlockHash h with
    | error e =>
        simp only
        exact ⟨by rw [hb1]; simp, by simp, fun _ => keepsIds_refl _, fun _ => hf1⟩
    | ok hash =>
        simp only
        have hf2 : h ∈ hashFetches
            ((s.emit (Event.GetBlockHash h)).emit (Event.GetBlock hash)).log := by
          simp [State.emit, hashFetches_append, hashFetches]
        have hb2 : batchCallsAt h
            ((s.emit (Event.GetBlockHash h)).emit (Event.GetBlock hash)).log
            = batchCallsAt h s.log := by
          rw [batchCallsAt_emit h _ (Event.GetBlock hash) rfl, hb1]
        cases hb : env.GetBlock hash with
        | error e =>
            simp only
            exact ⟨by rw [hb2]; simp, by simp, fun _ => keepsIds_refl _, fun _ => hf2⟩
        | ok block =>
            simp only
            obtain ⟨a, b, c, d⟩ := rescanExtract_self env h block.tx
              ((s.emit (Event.GetBlockHash h)).emit (Event.GetBlock hash))
            have hind := BatchExtractTransaction_result_indep env h "" block.tx
              ((s.emit (Event.GetBlockHash h)).emit (Event.GetBlock hash)) s
            refine ⟨by rw [a, hb2], ?_, ?_, ?_⟩
            · intro t ht hok
              cases ht
              exact b (hind.trans hok)
            · intro hall
              exact c (by rw [hind]; exact hall block.tx rfl)
            · intro _
              obtain ⟨evs, hevs⟩ := d
              rw [← hevs, hashFetches_append]
              exact List.mem_append_left _ hf2
  · have hlen : ¬ txs.length = 0 := fun e => htx (List.length_eq_zero.mp e)
    simp only [hlen, htx, if_false]
    obtain ⟨a, b, c, _⟩ := rescanExtract_self env h txs s
    refine ⟨a, ?_, ?_, fun e => by simp at e⟩
    · intro t ht hok
      cases ht
      exact b hok
    · intro hall
      exact c (hall txs rfl)

theorem rescanFold_logGrows (env : Env) (gs : List (Nat × List String)) (s : State) :
    s.log <+: (gs.foldl (rescanGroup env) s).log := by
  induction gs generalizing s with
  | nil => exact List.prefix_refl _
  | cons g rest ih => exact (rescanGroup_logGrows env s g).trans (ih _)

theorem rescanFold_ne (env : Env) (h : Nat) (gs : List (Nat × List String)) (s : State)
    (hne : ∀ g ∈ gs, g.1 ≠ h) :
    atHeight h (gs.foldl (rescanGroup env) s).unscan = atHeight h s.unscan ∧
    batchCallsAt h (gs.foldl (rescanGroup env) s).log = batchCallsAt h s.log := by
  induction gs generalizing s with
  | nil => exact ⟨rfl, rfl⟩
  | cons g rest ih =>
      obtain ⟨a, b⟩ := rescanGroup_ne env h s g (hne g (by simp))
      obtain ⟨c, d⟩ := ih (rescanGroup env s g) (fun x hx => hne x (by simp [hx]))
      exact ⟨c.trans a, d.trans b⟩

/-- The rescan loop never touches height 0. -/
theorem rescanFold_zero (env : Env) (gs : List (Nat × List String)) (s : State) :
    atHeight 0 (gs.foldl (rescanGroup env) s).unscan = atHeight 0 s.unscan ∧
    batchCallsAt 0 (gs.foldl (rescanGroup env) s).log = batchCallsAt 0 s.log := by
  induction gs generalizing s with
  | nil => exact ⟨rfl, rfl⟩
  | cons g rest ih =>
      obtain ⟨c, d⟩ := ih (rescanGroup env s g)
      simp only [List.foldl_cons]
      by_cases hg : g.1 = 0
      · have e : rescanGroup env s g = s := by simp [rescanGroup, hg]
        rw [e] at c d ⊢
        exact ⟨c, d⟩
      · obtain ⟨a, b⟩ := rescanGroup_ne env 0 s g hg
        exact ⟨c.trans a, d.trans b⟩

/-- The rescan loop over groups of distinct heights, seen at the height
`h > 0` of one of its groups `(h, txs)`. -/
theorem rescanFold_self (env : Env) (h : Nat) (txs : List String)
    (gs : List (Nat × List String)) (s : State)
    (hnd : (gs.map Prod.fst).Nodup) (hmem : (h, txs) ∈ gs) (hpos : 0 < h) :
    batchCallsAt h (gs.foldl (rescanGroup env) s).log
      = batchCallsAt h s.log ++
        (match specRescanTxs env h txs with
         | some t => [(h, "", t)]
         | none => []) ∧
    (∀ t, specRescanTxs env h txs = some t →
      (BatchExtractTransaction env h "" t s).1 = none →
      atHeight h (gs.foldl (rescanGroup env) s).unscan = []) ∧
    ((∀ t, specRescanTxs env h txs = some t →
        (BatchExtractTransaction env h "" t s).1 ≠ none) →
      ∀ r ∈ s.unscan, r.BlockHeight = h →
        ∃ r2 ∈ (gs.foldl (rescanGroup env) s).unscan,
          r2.BlockHeight = h ∧ r2.TxID = r.TxID) ∧
    (txs = [] → h ∈ hashFetches (gs.foldl (rescanGroup env) s).log) := by
  induction gs generalizing s with
  | nil => simp at hmem
  | cons g rest ih =>
      simp only [List.map_cons, List.nodup_cons] at hnd
      obtain ⟨hg, hrest⟩ := hnd
      simp only [List.foldl_cons]
      rcases List.mem_cons.mp hmem with hx | hx
      · subst hx
        have hne : ∀ x ∈ rest, x.1 ≠ h := by
          intro x hx e
          exact hg (List.mem_map.mpr ⟨x, hx, e⟩)
        obtain ⟨a, b⟩ := rescanFold_ne env h rest (rescanGroup env s (h, txs)) hne
        obtain ⟨p1, p2, p3, p4⟩ := rescanGroup_self env h txs s hpos
        refine ⟨b.trans p1, fun t ht hok => a.trans (p2 t ht hok), ?_, ?_⟩
        · intro hall r hr hrh
          obtain ⟨r2, m2, e1, e2⟩ := p3 hall r hr
          have m3 : r2 ∈ atHeight h (rescanGroup env s (h, txs)).unscan := by
            simp [atHeight, m2, e1, hrh]
          rw [← a] at m3
          exact ⟨r2, (List.mem_filter.mp m3).1, e1.trans hrh, e2⟩
        · intro htx
          obtain ⟨evs, hevs⟩ := rescanFold_logGrows env rest (rescanGroup env s (h, txs))
          rw [← hevs, hashFetches_append]
          exact List.mem_append_left _ (p4 htx)
      · have hgne : g.1 ≠ h := by
          intro e
          exact hg (List.mem_map.mpr ⟨(h, txs), hx, e.symm⟩)
        obtain ⟨a, b⟩ := rescanGroup_ne env h s g hgne
        obtain ⟨q1, q2, q3, q4⟩ := ih (rescanGroup env s g) hrest hx
        have hind : ∀ t, (BatchExtractTransaction env h "" t (rescanGroup env s g)).1
            = (BatchExtractTransaction env h "" t s).1 :=
          fun t => BatchExtractTransaction_result_indep env h "" t _ _
        refine ⟨by rw [q1, b], fun t ht hok => q2 t ht ((hind t).trans hok), ?_, q4⟩
        intro hall r hr hrh
        have m1 : r ∈ atHeight h s.unscan := by simp [atHeight, hr, hrh]
        rw [← a] at m1
        exact q3 (fun t ht => by rw [hind t]; exact hall t ht) r (List.mem_filter.mp m1).1 hrh

theorem explicitTxids_append (k : Nat) (l1 l2 : List UnscanRecord) :
    explicitTxids k (l1 ++ l2) = explicitTxids k l1 ++ explicitTxids k l2 := by
  simp [explicitTxids]

theorem explicitTxids_of_not_mem (k : Nat) (l : List UnscanRecord)
    (h : k ∉ l.map (fun r => r.BlockHeight)) : explicitTxids k l = [] := by
  simp only [explicitTxids, List.map_eq_nil_iff, List.filter_eq_nil_iff]
  intro r hr
  have : r.BlockHeight ≠ k := fun e => h (List.mem_map.mpr ⟨r, hr, e⟩)
  simp [this]

/-- The grouping loop: the keys are the distinct heights of the ledger, and
the value at a height lists the explicit txids recorded there. -/
theorem buildBlockMap_spec (l : List UnscanRecord) :
    ((buildBlockMap l).map Prod.fst).Nodup ∧
    (∀ k, k ∈ (buildBlockMap l).map Prod.fst ↔ k ∈ l.map (fun r => r.BlockHeight)) ∧
    (∀ k t, (k, t) ∈ buildBlockMap l → t = explicitTxids k l) := by
  induction l using List.reverseRecOn with
  | nil => simp [buildBlockMap]
  | append_singleton pre r ih =>
      obtain ⟨hnd, hkeys, hval⟩ := ih
      have hstep : buildBlockMap (pre ++ [r]) = blockMapAdd (buildBlockMap pre) r := by
        simp [buildBlockMap, List.foldl_append]
      rw [hstep]
      generalize buildBlockMap pre = m at hnd hkeys hval
      -- first half of the round
      have hany : (m.any (fun kv => decide (kv.1 = r.BlockHeight))) = true
          ↔ r.BlockHeight ∈ m.map Prod.fst := by
        simp [List.any_eq_true]
      have e1nd : ((blockMapEnsure m r.BlockHeight).map Prod.fst).Nodup := by
        unfold blockMapEnsure
        split
        · exact hnd
        · rename_i hn
          have : r.BlockHeight ∉ m.map Prod.fst := fun hc => hn (hany.mpr hc)
          simp only [List.map_append, List.map_cons, List.map_nil]
          exact List.Nodup.append hnd (by simp) (by simpa using this)
      have e1keys : ∀ k, k ∈ (blockMapEnsure m r.BlockHeight).map Prod.fst
          ↔ k ∈ (pre ++ [r]).map (fun r => r.BlockHeight) := by
        intro k
        unfold blockMapEnsure
        split
        · rename_i hy
          have hin := (hkeys r.BlockHeight).mp (hany.mp hy)
          rw [hkeys k]
          simp only [List.map_append, List.map_cons, List.map_nil, List.mem_append,
            List.mem_singleton]
          constructor
          · exact Or.inl
          · rintro (h | h)
            · exact h
            · rw [h]; exact hin
        · simp only [List.map_append, List.map_cons, List.map_nil, List.mem_append,
            List.mem_singleton]
          rw [hkeys k]
      have e1val : ∀ k t, (k, t) ∈ blockMapEnsure m r.BlockHeight → t = explicitTxids k pre := by
        intro k t hkt
        unfold blockMapEnsure at hkt
        split at hkt
        · exact hval k t hkt
        · rename_i hn
          rcases List.mem_append.mp hkt with h | h
          · exact hval k t h
          · simp only [List.mem_singleton, Prod.mk.injEq] at h
            obtain ⟨hk, ht⟩ := h
            subst hk ht
            have : r.BlockHeight ∉ pre.map (fun r => r.BlockHeight) :=
              fun hc => hn (hany.mpr ((hkeys _).mpr hc))
            exact (explicitTxids_of_not_mem _ _ this).symm
      unfold blockMapAdd
      simp only
      generalize blockMapEnsure m r.BlockHeight = m1 at e1nd e1keys e1val ⊢
      have hsingle : ∀ k, explicitTxids k [r]
          = if r.BlockHeight = k ∧ r.TxID.length > 0 then [r.TxID] else [] := by
        intro k
        simp only [explicitTxids, List.filter_cons, List.filter_nil]
        split <;> simp_all
      split
      · rename_i hlen
        have hk2 : (blockMapAppend m1 r.BlockHeight r.TxID).map Prod.fst = m1.map Prod.fst := by
          simp only [blockMapAppend, List.map_map]
          apply List.map_congr_left
          intro kv _
          simp only [Function.comp]
          split <;> rfl
        refine ⟨by rw [hk2]; exact e1nd, fun k => by rw [hk2]; exact e1keys k, ?_⟩
        intro k t hkt
        simp only [blockMapAppend, List.mem_map] at hkt
        obtain ⟨⟨k0, t0⟩, hkv, he⟩ := hkt
        rw [explicitTxids_append, hsingle]
        have hv := e1val k0 t0 hkv
        by_cases hc : k0 = r.BlockHeight
        · simp only [hc, if_true, Prod.mk.injEq] at he
          obtain ⟨ek, et⟩ := he
          subst ek
          rw [← et, hv, hc]
          simp [hlen]
        · simp only [hc, if_false, Prod.mk.injEq] at he
          obtain ⟨ek, et⟩ := he
          subst ek et
          have : ¬ r.BlockHeight = k0 := fun e => hc e.symm
          rw [hv]
          simp [this]
      · rename_i hlen
        refine ⟨e1nd, e1keys, ?_⟩
        intro k t hkt
        rw [explicitTxids_append, hsingle, e1val k t hkt]
        simp [hlen]

/-- The rescan loop seen at a height `h > 0` of the ledger, whatever the order
in which the groups are visited. -/
theorem rescanLoop_self (env : Env) (s : State) (h : Nat)
    (hperm : (env.mapOrder (buildBlockMap s.unscan)).Perm (buildBlockMap s.unscan))
    (hmem : h ∈ s.unscan.map (fun r => r.BlockHeight)) (hpos : 0 < h) :
    batchCallsAt h (rescanLoop env s).log
      = batchCallsAt h s.log ++
        (match specRescanTxs env h (explicitTxids h s.unscan) with
         | some t => [(h, "", t)]
         | none => []) ∧
    (∀ t, specRescanTxs env h (explicitTxids h s.unscan) = some t →
      (BatchExtractTransaction env h "" t s).1 = none →
      atHeight h (rescanLoop env s).unscan = []) ∧
    ((∀ t, specRescanTxs env h (explicitTxids h s.unscan) = some t →
        (BatchExtractTransaction env h "" t s).1 ≠ none) →
      ∀ r ∈ s.unscan, r.BlockHeight = h →
        ∃ r2 ∈ (rescanLoop env s).unscan, r2.BlockHeight = h ∧ r2.TxID = r.TxID) ∧
    (explicitTxids h s.unscan = [] → h ∈ hashFetches (rescanLoop env s).log) := by
  obtain ⟨hnd, hkeys, hval⟩ := buildBlockMap_spec s.unscan
  have hk : h ∈ (buildBlockMap s.unscan).map Prod.fst := (hkeys h).mpr hmem
  obtain ⟨⟨k, t⟩, hkt, hkh⟩ := List.mem_map.mp hk
  simp only at hkh
  subst hkh
  have ht := hval k t hkt
  subst ht
  have hnd2 : ((env.mapOrder (buildBlockMap s.unscan)).map Prod.fst).Nodup :=
    ((hperm.map Prod.fst).nodup_iff).mpr hnd
  have hmem2 : (k, explicitTxids k s.unscan) ∈ env.mapOrder (buildBlockMap s.unscan) :=
    hperm.mem_iff.mpr hkt
  exact rescanFold_self env k (explicitTxids k s.unscan) _ s hnd2 hmem2 hpos

theorem explicitTxids_eq (h : Nat) (l : List UnscanRecord) :
    explicitTxids h l
      = ((atHeight h l).filter (fun r => 0 < r.TxID.length)).map (fun r => r.TxID) := by
  simp only [explicitTxids, atHeight, List.filter_filter]
  congr 1
  apply List.filter_congr
  intro r _
  by_cases h1 : r.BlockHeight = h <;> by_cases h2 : 0 < r.TxID.length <;> simp [h1, h2]

/-- C9 (counterexample): the ledger holds one record, at height 5, with the
not-found reason, and no hash can be fetched.  `RescanFailedRecord` invokes no
batch extraction, and yet the record at height 5 is not kept; and a failed
batch extraction at height 7 rewrites the reason of the block-level record. -/
theorem C9_counterexample :
    batchCalls (RescanFailedRecord emptyEnv notFoundState).log = [] ∧
    hashFetches (RescanFailedRecord emptyEnv notFoundState).log = [5] ∧
    (RescanFailedRecord emptyEnv notFoundState).unscan = [] ∧
    (BatchExtractTransaction rescanFailEnv 7 "" ["Tz"] emptyState).1
      = some "block scanner saveWork failed" ∧
    (RescanFailedRecord rescanFailEnv rescanState).unscan
      = [NewUnscanRecord 7 "" ""] := by
  refine ⟨by decide, by decide, by decide, by decide, by decide⟩

/-- C9 (amended): `RescanFailedRecord`, for every height `h` present in the
ledger, whatever the order in which the groups are visited.  If `h = 0` it
invokes no batch extraction for `h` and its loop leaves the records at `h` as
they are.  If `h > 0` it invokes the batch extraction for `h` exactly when the
rescan has transaction ids to extract (the explicit txids recorded at `h` when
there are any, otherwise the txids of the block fetched at `h`), once, with the
empty block hash, on exactly these ids; its loop leaves no record at `h`
if and only if that batch extraction returned nil; otherwise the loop keeps
every record at `h` under its identity `(height, txid)`.  After the loop the
records whose reason starts with the not-found reason are purged. -/
theorem C9_rescan_per_height (env : Env) (s : State) (h : Nat)
    (hperm : (env.mapOrder (buildBlockMap s.unscan)).Perm (buildBlockMap s.unscan))
    (hmem : h ∈ s.unscan.map (fun r => r.BlockHeight)) :
    (h = 0 →
      batchCallsAt 0 (RescanFailedRecord env s).log = batchCallsAt 0 s.log ∧
      atHeight 0 (rescanLoop env s).unscan = atHeight 0 s.unscan) ∧
    (0 < h →
      batchCallsAt h (RescanFailedRecord env s).log
        = batchCallsAt h s.log ++
          (match specRescanTxs env h (explicitTxids h s.unscan) with
           | some t => [(h, "", t)]
           | none => []) ∧
      (atHeight h (rescanLoop env s).unscan = [] ↔
        ∃ t, specRescanTxs env h (explicitTxids h s.unscan) = some t ∧
          (BatchExtractTransaction env h "" t s).1 = none) ∧
      ((¬ ∃ t, specRescanTxs env h (explicitTxids h s.unscan) = some t ∧
          (BatchExtractTransaction env h "" t s).1 = none) →
        ∀ r ∈ s.unscan, r.BlockHeight = h →
          ∃ r2 ∈ (rescanLoop env s).unscan, r2.BlockHeight = h ∧ r2.TxID = r.TxID)) ∧
    (RescanFailedRecord env s).unscan
      = (rescanLoop env s).unscan.filter (fun r => ¬ HasPrefix r.Reason notFindTXReason) := by
  have hlog : (RescanFailedRecord env s).log = (rescanLoop env s).log := rfl
  refine ⟨?_, ?_, rfl⟩
  · intro _
    rw [hlog]
    obtain ⟨a, b⟩ := rescanFold_zero env (env.mapOrder (buildBlockMap s.unscan)) s
    exact ⟨b, a⟩
  · intro hpos
    obtain ⟨p1, p2, p3, _⟩ := rescanLoop_self env s h hperm hmem hpos
    have hkept : (¬ ∃ t, specRescanTxs env h (explicitTxids h s.unscan) = some t ∧
          (BatchExtractTransaction env h "" t s).1 = none) →
        ∀ r ∈ s.unscan, r.BlockHeight = h →
          ∃ r2 ∈ (rescanLoop env s).unscan, r2.BlockHeight = h ∧ r2.TxID = r.TxID := by
      intro hno
      exact p3 (fun t ht hok => hno ⟨t, ht, hok⟩)
    refine ⟨by rw [hlog]; exact p1, ⟨?_, ?_⟩, hkept⟩
    · intro hnil
      by_contra hno
      obtain ⟨r, hr, hrh⟩ := List.mem_map.mp hmem
      obtain ⟨r2, m2, e1, _⟩ := hkept hno r hr hrh
      have : r2 ∈ atHeight h (rescanLoop env s).unscan := by simp [atHeight, m2, e1]
      rw [hnil] at this
      simp at this
    · rintro ⟨t, ht, hok⟩
      exact p2 t ht hok

/-- C9 (witness): the ledger with a block-level record at height 7 and the
record of `Tb` at height 8, seen at height 7. -/
theorem C9_rescan_per_height_witness :
    batchCallsAt 7 (RescanFailedRecord rescanEnv rescanState).log
      = batchCallsAt 7 rescanState.log ++
        (match specRescanTxs rescanEnv 7 (explicitTxids 7 rescanState.unscan) with
         | some t => [(7, "", t)]
         | none => []) :=
  ((C9_rescan_per_height rescanEnv rescanState 7 (List.Perm.refl _) (by decide)).2.1
    (by decide)).1

/-- C10 (counterexample): for a ledger whose only record, at height 5, carries
the not-found reason, `RescanFailedRecord` fetches the hash of height 5 when
the record has no txid, and runs a batch extraction on the txid when it has
one.  And for the ledger whose only record is the block-level record
`(7, "", not-found)`, with block 7 fetched and its transaction `Tz` not
extractable, the row `(7, "")` is still in the ledger when `RescanFailedRecord`
completes, its reason overwritten by `""`. -/
theorem C10_counterexample :
    hashFetches (RescanFailedRecord emptyEnv notFoundState).log = [5] ∧
    batchCalls (RescanFailedRecord emptyEnv notFoundTxState).log = [(5, "", ["Tx"])] ∧
    (RescanFailedRecord emptyEnv notFoundState).unscan = [] ∧
    batchCalls (RescanFailedRecord rescanFailEnv notFoundBlockAt7State).log
      = [(7, "", ["Tz"])] ∧
    (RescanFailedRecord rescanFailEnv notFoundBlockAt7State).unscan
      = [NewUnscanRecord 7 "" ""] := by
  refine ⟨by decide, by decide, by decide, by decide, by decide⟩

/-- C19 (evaluated at the failing input): transaction `T` whose vin at
position 0 spends output 1 of `P` from the watched address `W`.  The emitted
`TxInput` has `TxID = "T"`, `SourceTxID = "P"`, and its `Sid` is
`GenTxInputSID("P", symbol, "", 0)`, built from the id of the previous
transaction, not `GenTxInputSID("T", symbol, "", 0)`. -/
theorem C19_input_sid_uses_previous_txid :
    ((ExtractTransaction spendEnv 5 "hb" "T" spendEnv.ScanAddressFunc).1.extractData.map
        (fun kv => (kv.1, kv.2.TxInputs.map (fun i => (i.TxID, i.SourceTxID, i.Sid)))))
      = [("acct1", [("T", "P", spendEnv.GenTxInputSID "P" spendEnv.Symbol "" 0)])] ∧
    spendEnv.GenTxInputSID "P" spendEnv.Symbol "" 0
      ≠ spendEnv.GenTxInputSID "T" spendEnv.Symbol "" 0 := by
  refine ⟨by decide, by decide⟩

theorem bucketGet_modify (m : List (String × TxExtractData)) (key k : String)
    (f : TxExtractData → TxExtractData) :
    bucketGet (bucketModify m key f) k
      = if k = key then some (f (bucketD m key)) else bucketGet m k := by
  induction m with
  | nil =>
      by_cases h : k = key
      · subst h; simp [bucketModify, bucketGet, bucketD]
      · have h2 : ¬ key = k := fun e => h e.symm
        simp [bucketModify, bucketGet, h, h2]
  | cons x xs ih =>
      obtain ⟨k0, ed0⟩ := x
      unfold bucketModify
      by_cases h0 : k0 = key
      · subst h0
        by_cases h : k = k0
        · subst h; simp [bucketGet, bucketD]
        · have h2 : ¬ k0 = k := fun e => h e.symm
          simp [bucketGet, h, h2]
      · by_cases h : k = key
        · subst h
          simp only [h0, if_false, bucketGet, if_true]
          rw [ih]
          simp [bucketD, bucketGet, h0]
        · simp only [h0, if_false, bucketGet]
          rw [ih]
          simp [h]

theorem bucketD_modify (m : List (String × TxExtractData)) (key k : String)
    (f : TxExtractData → TxExtractData) :
    bucketD (bucketModify m key f) k = if k = key then f (bucketD m key) else bucketD m k := by
  unfold bucketD
  rw [bucketGet_modify]
  split <;> rfl

theorem keys_bucketModify (m : List (String × TxExtractData)) (key : String)
    (f : TxExtractData → TxExtractData) :
    (bucketModify m key f).map Prod.fst
      = if key ∈ m.map Prod.fst then m.map Prod.fst else m.map Prod.fst ++ [key] := by
  induction m with
  | nil => simp [bucketModify]
  | cons x xs ih =>
      obtain ⟨k0, ed0⟩ := x
      unfold bucketModify
      by_cases h0 : k0 = key
      · subst h0; simp
      · have h2 : ¬ key = k0 := fun e => h0 e.symm
        simp only [h0, if_false, List.map_cons, ih, List.mem_cons, h2, false_or]
        split <;> simp

theorem nodup_bucketModify (m : List (String × TxExtractData)) (key : String)
    (f : TxExtractData → TxExtractData) (h : (m.map Prod.fst).Nodup) :
    ((bucketModify m key f).map Prod.fst).Nodup := by
  rw [keys_bucketModify]
  split
  · exact h
  · rename_i hn
    exact List.Nodup.append h (by simp) (by simpa using hn)

theorem mem_keys_bucketModify (m : List (String × TxExtractData)) (key k : String)
    (f : TxExtractData → TxExtractData) :
    k ∈ (bucketModify m key f).map Prod.fst ↔ k = key ∨ k ∈ m.map Prod.fst := by
  rw [keys_bucketModify]
  split
  · rename_i hin
    constructor
    · exact Or.inr
    · rintro (h | h)
      · rw [h]; exact hin
      · exact h
  · simp only [List.mem_append, List.mem_singleton]
    tauto

theorem bucketGet_of_mem (m : List (String × TxExtractData)) (k : String)
    (ed : TxExtractData) (hnd : (m.map Prod.fst).Nodup) (h : (k, ed) ∈ m) :
    bucketGet m k = some ed := by
  induction m with
  | nil => simp at h
  | cons x xs ih =>
      obtain ⟨k0, ed0⟩ := x
      simp only [List.map_cons, List.nodup_cons] at hnd
      rcases List.mem_cons.mp h with e | e
      · simp only [Prod.mk.injEq] at e
        obtain ⟨e1, e2⟩ := e
        subst e1 e2
        simp [bucketGet]
      · have hne : ¬ k0 = k := by
          intro e0
          subst e0
          exact hnd.1 (List.mem_map.mpr ⟨(k0, ed), e, rfl⟩)
        simp only [bucketGet, hne, if_false]
        exact ih hnd.2 e

theorem mem_of_bucketGet (m : List (String × TxExtractData)) (k : String)
    (ed : TxExtractData) (h : bucketGet m k = some ed) : (k, ed) ∈ m := by
  induction m with
  | nil => simp [bucketGet] at h
  | cons x xs ih =>
      obtain ⟨k0, ed0⟩ := x
      unfold bucketGet at h
      split at h
      · rename_i hk
        subst hk
        simp only [Option.some.injEq] at h
        subst h
        simp
      · exact List.mem_cons_of_mem _ (ih h)

theorem bucketD_of_mem (m : List (String × TxExtractData)) (k : String)
    (ed : TxExtractData) (hnd : (m.map Prod.fst).Nodup) (h : (k, ed) ∈ m) :
    bucketD m k = ed := by
  simp [bucketD, bucketGet_of_mem m k ed hnd h]

/-- One round of the loop of `extractTxInput`. -/
theorem extractTxInputLoop_cons (env : Env) (trx : Transaction)
    (scan : String → String × Bool) (createAt : Nat) (v : Vin) (rest : List Vin) (i : Nat)
    (res : ExtractResult) (froms : List String) (tot : Decimal) :
    extractTxInputLoop env trx scan createAt i (v :: rest) res froms tot
      = extractTxInputLoop env trx scan createAt (i + 1) rest
          (if (scan v.Addr).2 = true then
            { res with
              extractData :=
                bucketModify res.extractData ((scan v.Addr).1)
                  (fun ed => { ed with TxInputs := ed.TxInputs ++
                    [coinTxInput env trx res.TxID createAt i v] }) }
           else res)
          (froms ++ [v.Addr ++ ":" ++ v.Value]) (tot.Add (Decimal.ofAmount v.Value)) :=
  rfl

/-- The `from` list, the total and the untouched fields after the loop of
`extractTxInput`. -/
theorem extractTxInputLoop_lists (env : Env) (trx : Transaction)
    (scan : String → String × Bool) (createAt : Nat) (vins : List Vin) (i : Nat)
    (res : ExtractResult) (froms : List String) (tot : Decimal) :
    (extractTxInputLoop env trx scan createAt i vins res froms tot).2.1
      = froms ++ vins.map (fun v => v.Addr ++ ":" ++ v.Value) ∧
    (extractTxInputLoop env trx scan createAt i vins res froms tot).2.2
      = vins.foldl (fun t v => t.Add (Decimal.ofAmount v.Value)) tot ∧
    (extractTxInputLoop env trx scan createAt i vins res froms tot).1.TxID = res.TxID ∧
    (extractTxInputLoop env trx scan createAt i vins res froms tot).1.extractContractData
      = res.extractContractData := by
  induction vins generalizing i res froms tot with
  | nil => simp [extractTxInputLoop]
  | cons v rest ih =>
      rw [extractTxInputLoop_cons]
      obtain ⟨h1, h2, h3, h4⟩ := ih (i + 1)
        (if (scan v.Addr).2 = true then
          { res with
            extractData :=
              bucketModify res.extractData ((scan v.Addr).1)
                (fun ed => { ed with TxInputs := ed.TxInputs ++
                  [coinTxInput env trx res.TxID createAt i v] }) }
         else res)
        (froms ++ [v.Addr ++ ":" ++ v.Value]) (tot.Add (Decimal.ofAmount v.Value))
      refine ⟨?_, ?_, ?_, ?_⟩
      · exact h1.trans (by simp)
      · exact h2
      · rw [h3]; split <;> rfl
      · rw [h4]; split <;> rfl

/-- The buckets after the loop of `extractTxInput`: each key holds what it
held, followed by the inputs built for its watched vins, in vin order. -/
theorem extractTxInputLoop_buckets (env : Env) (trx : Transaction)
    (scan : String → String × Bool) (createAt : Nat) (vins : List Vin) (i : Nat)
    (res : ExtractResult) (froms : List String) (tot : Decimal) :
    ((res.extractData.map Prod.fst).Nodup →
      ((extractTxInputLoop env trx scan createAt i vins res froms tot).1.extractData.map
        Prod.fst).Nodup) ∧
    (∀ k, k ∈ (extractTxInputLoop env trx scan createAt i vins res froms tot).1.extractData.map
        Prod.fst ↔
      k ∈ res.extractData.map Prod.fst ∨ ∃ v ∈ vins, scan v.Addr = (k, true)) ∧
    (∀ k,
      (bucketD (extractTxInputLoop env trx scan createAt i vins res froms tot).1.extractData
          k).TxInputs
        = (bucketD res.extractData k).TxInputs ++
          (watchedVins scan k i vins).map
            (fun p => coinTxInput env trx res.TxID createAt p.1 p.2) ∧
      (bucketD (extractTxInputLoop env trx scan createAt i vins res froms tot).1.extractData
          k).TxOutputs = (bucketD res.extractData k).TxOutputs ∧
      (bucketD (extractTxInputLoop env trx scan createAt i vins res froms tot).1.extractData
          k).Transaction = (bucketD res.extractData k).Transaction) := by
  induction vins generalizing i res froms tot with
  | nil => simp [extractTxInputLoop, watchedVins]
  | cons v rest ih =>
      rw [extractTxInputLoop_cons]
      obtain ⟨h1, h2, h3⟩ := ih (i + 1)
        (if (scan v.Addr).2 = true then
          { res with
            extractData :=
              bucketModify res.extractData ((scan v.Addr).1)
                (fun ed => { ed with TxInputs := ed.TxInputs ++
                  [coinTxInput env trx res.TxID createAt i v] }) }
         else res)
        (froms ++ [v.Addr ++ ":" ++ v.Value]) (tot.Add (Decimal.ofAmount v.Value))
      by_cases hw : (scan v.Addr).2 = true
      · simp only [hw, if_true] at h1 h2 h3 ⊢
        refine ⟨fun hnd => h1 (nodup_bucketModify _ _ _ hnd), ?_, ?_⟩
        · intro k
          rw [h2 k, mem_keys_bucketModify]
          constructor
          · rintro ((e | e) | ⟨x, hx, e⟩)
            · exact Or.inr ⟨v, by simp, by rw [e, ← hw]⟩
            · exact Or.inl e
            · exact Or.inr ⟨x, by simp [hx], e⟩
          · rintro (e | ⟨x, hx, e⟩)
            · exact Or.inl (Or.inr e)
            · rcases List.mem_cons.mp hx with hv | hv
              · subst hv
                exact Or.inl (Or.inl (by rw [e]))
              · exact Or.inr ⟨x, hv, e⟩
        · intro k
          obtain ⟨a, b, c⟩ := h3 k
          rw [a, b, c, bucketD_modify]
          by_cases hk : k = (scan v.Addr).1
          · subst hk
            have hkv : scan v.Addr = ((scan v.Addr).1, true) := by rw [← hw]
            simp [watchedVins, List.enumFrom_cons, List.filter_cons, ← hkv]
          · have hkv : ¬ scan v.Addr = (k, true) := by
              intro e
              exact hk (by rw [e])
            simp [hk, watchedVins, List.enumFrom_cons, hkv]
      · simp only [hw, if_false] at h1 h2 h3 ⊢
        have hkv : ∀ k, ¬ scan v.Addr = (k, true) := by
          intro k e
          exact hw (by rw [e])
        refine ⟨h1, ?_, ?_⟩
        · intro k
          rw [h2 k]
          constructor
          · rintro (e | ⟨x, hx, e⟩)
            · exact Or.inl e
            · exact Or.inr ⟨x, by simp [hx], e⟩
          · rintro (e | ⟨x, hx, e⟩)
            · exact Or.inl e
            · rcases List.mem_cons.mp hx with hv | hv
              · subst hv
                exact absurd e (hkv k)
              · exact Or.inr ⟨x, hv, e⟩
        · intro k
          obtain ⟨a, b, c⟩ := h3 k
          rw [a, b, c]
          simp [watchedVins, List.enumFrom_cons, hkv k]

/-- One round of the loop of `extractTxOutput`. -/
theorem extractTxOutputLoop_cons (env : Env) (trx : Transaction)
    (scan : String → String × Bool) (createAt : Nat) (v : Vout) (rest : List Vout)
    (res : ExtractResult) (tos : List String) (tot : Decimal) :
    extractTxOutputLoop env trx scan createAt (v :: rest) res tos tot
      = extractTxOutputLoop env trx scan createAt rest
          (if (scan v.Addr).2 = true then
            { res with
              extractData :=
                bucketModify res.extractData ((scan v.Addr).1)
                  (fun ed => { ed with TxOutputs := ed.TxOutputs ++
                    [coinTxOutPut env trx createAt v] }) }
           else res)
          (tos ++ [v.Addr ++ ":" ++ v.Value]) (tot.Add (Decimal.ofAmount v.Value)) :=
  rfl

/-- The `to` list, the total and the untouched fields after the loop of
`extractTxOutput`. -/
theorem extractTxOutputLoop_lists (env : Env) (trx : Transaction)
    (scan : String → String × Bool) (createAt : Nat) (vouts : List Vout)
    (res : ExtractResult) (tos : List String) (tot : Decimal) :
    (extractTxOutputLoop env trx scan createAt vouts res tos tot).2.1
      = tos ++ vouts.map (fun v => v.Addr ++ ":" ++ v.Value) ∧
    (extractTxOutputLoop env trx scan createAt vouts res tos tot).2.2
      = vouts.foldl (fun t v => t.Add (Decimal.ofAmount v.Value)) tot ∧
    (extractTxOutputLoop env trx scan createAt vouts res tos tot).1.TxID = res.TxID ∧
    (extractTxOutputLoop env trx scan createAt vouts res tos tot).1.extractContractData
      = res.extractContractData := by
  induction vouts generalizing res tos tot with
  | nil => simp [extractTxOutputLoop]
  | cons v rest ih =>
      rw [extractTxOutputLoop_cons]
      obtain ⟨h1, h2, h3, h4⟩ := ih
        (if (scan v.Addr).2 = true then
          { res with
            extractData :=
              bucketModify res.extractData ((scan v.Addr).1)
                (fun ed => { ed with TxOutputs := ed.TxOutputs ++
                  [coinTxOutPut env trx createAt v] }) }
         else res)
        (tos ++ [v.Addr ++ ":" ++ v.Value]) (tot.Add (Decimal.ofAmount v.Value))
      refine ⟨?_, ?_, ?_, ?_⟩
      · exact h1.trans (by simp)
      · exact h2
      · rw [h3]; split <;> rfl
      · rw [h4]; split <;> rfl

/-- The buckets after the loop of `extractTxOutput`: each key holds what it
held, followed by the outputs built for its watched vouts, in vout order. -/
theorem extractTxOutputLoop_buckets (env : Env) (trx : Transaction)
    (scan : String → String × Bool) (createAt : Nat) (vouts : List Vout)
    (res : ExtractResult) (tos : List String) (tot : Decimal) :
    ((res.extractData.map Prod.fst).Nodup →
      ((extractTxOutputLoop env trx scan createAt vouts res tos tot).1.extractData.map
        Prod.fst).Nodup) ∧
    (∀ k, k ∈ (extractTxOutputLoop env trx scan createAt vouts res tos tot).1.extractData.map
        Prod.fst ↔
      k ∈ res.extractData.map Prod.fst ∨ ∃ v ∈ vouts, scan v.Addr = (k, true)) ∧
    (∀ k,
      (bucketD (extractTxOutputLoop env trx scan createAt vouts res tos tot).1.extractData
          k).TxOutputs
        = (bucketD res.extractData k).TxOutputs ++
          (watchedVouts scan k vouts).map (coinTxOutPut env trx createAt) ∧
      (bucketD (extractTxOutputLoop env trx scan createAt vouts res tos tot).1.extractData
          k).TxInputs = (bucketD res.extractData k).TxInputs ∧
      (bucketD (extractTxOutputLoop env trx scan createAt vouts res tos tot).1.extractData
          k).Transaction = (bucketD res.extractData k).Transaction) := by
  induction vouts generalizing res tos tot with
  | nil => simp [extractTxOutputLoop, watchedVouts]
  | cons v rest ih =>
      rw [extractTxOutputLoop_cons]
      obtain ⟨h1, h2, h3⟩ := ih
        (if (scan v.Addr).2 = true then
          { res with
            extractData :=
              bucketModify res.extractData ((scan v.Addr).1)
                (fun ed => { ed with TxOutputs := ed.TxOutputs ++
                  [coinTxOutPut env trx createAt v] }) }
         else res)
        (tos ++ [v.Addr ++ ":" ++ v.Value]) (tot.Add (Decimal.ofAmount v.Value))
      by_cases hw : (scan v.Addr).2 = true
      · simp only [hw, if_true] at h1 h2 h3 ⊢
        refine ⟨fun hnd => h1 (nodup_bucketModify _ _ _ hnd), ?_, ?_⟩
        · intro k
          rw [h2 k, mem_keys_bucketModify]
          constructor
          · rintro ((e | e) | ⟨x, hx, e⟩)
            · exact Or.inr ⟨v, by simp, by rw [e, ← hw]⟩
            · exact Or.inl e
            · exact Or.inr ⟨x, by simp [hx], e⟩
          · rintro (e | ⟨x, hx, e⟩)
            · exact Or.inl (Or.inr e)
            · rcases List.mem_cons.mp hx with hv | hv
              · subst hv
                exact Or.inl (Or.inl (by rw [e]))
              · exact Or.inr ⟨x, hv, e⟩
        · intro k
          obtain ⟨a, b, c⟩ := h3 k
          rw [a, b, c, bucketD_modify]
          by_cases hk : k = (scan v.Addr).1
          · subst hk
            have hkv : scan v.Addr = ((scan v.Addr).1, true) := by rw [← hw]
            simp [watchedVouts, List.filter_cons, ← hkv]
          · have hkv : ¬ scan v.Addr = (k, true) := by
              intro e
              exact hk (by rw [e])
            simp [hk, watchedVouts, List.filter_cons, hkv]
      · simp only [hw, if_false] at h1 h2 h3 ⊢
        have hkv : ∀ k, ¬ scan v.Addr = (k, true) := by
          intro k e
          exact hw (by rw [e])
        refine ⟨h1, ?_, ?_⟩
        · intro k
          rw [h2 k]
          constructor
          · rintro (e | ⟨x, hx, e⟩)
            · exact Or.inl e
            · exact Or.inr ⟨x, by simp [hx], e⟩
          · rintro (e | ⟨x, hx, e⟩)
            · exact Or.inl e
            · rcases List.mem_cons.mp hx with hv | hv
              · subst hv
                exact absurd e (hkv k)
              · exact Or.inr ⟨x, hv, e⟩
        · intro k
          obtain ⟨a, b, c⟩ := h3 k
          rw [a, b, c]
          simp [watchedVouts, List.filter_cons, hkv k]

/-- The main-coin extraction of a transaction whose vin walk ends with
`success = true`, into a result without buckets: the buckets have distinct
keys, the keys are those of the watched vins and vouts, and each bucket holds
the inputs of its watched vins, the outputs of its watched vouts and the
summary transaction. -/
theorem extractTransaction_main (env : Env) (trx : Transaction) (result : ExtractResult)
    (scan : String → String × Bool)
    (hempty : result.extractData = [])
    (hsucc : (resolveVins env true trx.Vins).2.1 = true) :
    (((extractTransaction env (some trx) result scan).1.extractData.map Prod.fst).Nodup) ∧
    (∀ k, k ∈ (extractTransaction env (some trx) result scan).1.extractData.map Prod.fst ↔
      (∃ v ∈ (resolveVins env true trx.Vins).1, scan v.Addr = (k, true)) ∨
      (∃ v ∈ trx.Vouts, scan v.Addr = (k, true))) ∧
    (∀ k ed, (k, ed) ∈ (extractTransaction env (some trx) result scan).1.extractData →
      ed.TxInputs = (watchedVins scan k 0 (resolveVins env true trx.Vins).1).map
          (fun p => coinTxInput env trx result.TxID env.now p.1 p.2) ∧
      ed.TxOutputs = (watchedVouts scan k trx.Vouts).map (coinTxOutPut env trx env.now) ∧
      ∃ tx, ed.Transaction = some tx ∧
        tx.From = (resolveVins env true trx.Vins).1.map (fun v => v.Addr ++ ":" ++ v.Value) ∧
        tx.To = trx.Vouts.map (fun v => v.Addr ++ ":" ++ v.Value) ∧
        tx.Fees = ((sumAmounts ((resolveVins env true trx.Vins).1.map (fun v => v.Value))).Sub
            (sumAmounts (trx.Vouts.map (fun v => v.Value)))).StringFixed 8 ∧
        tx.Decimal = 8 ∧ tx.Coin.IsContract = false ∧ tx.Coin.Symbol = env.Symbol ∧
        tx.TxID = trx.TxID ∧
        tx.BlockHeight = trx.BlockHeight ∧ tx.BlockHash = trx.BlockHash) := by
  generalize hr : resolveVins env true trx.Vins = r at hsucc
  obtain ⟨a1, a2, a3, _⟩ := extractTxInputLoop_lists env { trx with Vins := r.1 } scan env.now
    r.1 0 result [] Decimal.Zero
  obtain ⟨b1, b2, b3⟩ := extractTxInputLoop_buckets env { trx with Vins := r.1 } scan env.now
    r.1 0 result [] Decimal.Zero
  generalize hi : extractTxInputLoop env { trx with Vins := r.1 } scan env.now 0 r.1 result []
    Decimal.Zero = ri at a1 a2 a3 b1 b2 b3
  obtain ⟨c1, c2, _, _⟩ := extractTxOutputLoop_lists env { trx with Vins := r.1 } scan env.now
    trx.Vouts ri.1 [] Decimal.Zero
  obtain ⟨d1, d2, d3⟩ := extractTxOutputLoop_buckets env { trx with Vins := r.1 } scan env.now
    trx.Vouts ri.1 [] Decimal.Zero
  generalize ho : extractTxOutputLoop env { trx with Vins := r.1 } scan env.now trx.Vouts ri.1 []
    Decimal.Zero = ro at c1 c2 d1 d2 d3
  have hnd0 : (result.extractData.map Prod.fst).Nodup := by simp [hempty]
  have hndo : (ro.1.extractData.map Prod.fst).Nodup := d1 (b1 hnd0)
  obtain ⟨tx, htx⟩ : ∃ tx, tx = coinSummary env trx ri.2.1 ro.2.1 ri.2.2 ro.2.2 := ⟨_, rfl⟩
  have hout : (extractTransaction env (some trx) result scan).1.extractData
      = ro.1.extractData.map (fun kv => (kv.1, { kv.2 with Transaction := some tx })) := by
    simp only [extractTransaction, hr, hsucc, if_true, extractTxInput, extractTxOutput, hi, ho,
      htx, coinSummary]
  have hkeys : (extractTransaction env (some trx) result scan).1.extractData.map Prod.fst
      = ro.1.extractData.map Prod.fst := by
    rw [hout, List.map_map]
    rfl
  refine ⟨by rw [hkeys]; exact hndo, ?_, ?_⟩
  · intro k
    rw [hkeys, d2 k, b2 k, hempty]
    simp
  · intro k ed hmem
    rw [hout] at hmem
    obtain ⟨⟨k0, ed0⟩, hm0, he⟩ := List.mem_map.mp hmem
    simp only [Prod.mk.injEq] at he
    obtain ⟨hk, hed⟩ := he
    subst hk
    have hbd := bucketD_of_mem _ _ _ hndo hm0
    obtain ⟨e1, e2, _⟩ := d3 k0
    obtain ⟨f1, f2, _⟩ := b3 k0
    have hbase : bucketD result.extractData k0 = openwallet.NewBlockExtractData := by
      simp [hempty, bucketD, bucketGet]
    rw [hbd] at e1 e2
    rw [f2, hbase] at e1
    rw [f1, hbase] at e2
    subst hed htx
    refine ⟨?_, ?_, _, rfl, ?_, ?_, ?_, rfl, rfl, rfl, rfl, rfl, rfl⟩
    · simpa [openwallet.NewBlockExtractData] using e2
    · simpa [openwallet.NewBlockExtractData] using e1
    · simpa [coinSummary] using a1
    · simpa [coinSummary] using c1
    · simp only [coinSummary, a2, c2, sumAmounts, List.foldl_map]

theorem extractTokenReceipt_extractData (env : Env) (trx : Transaction)
    (scan : String → String × Bool) (createAt : Nat) (res : ExtractResult)
    (r : TokenReceipt) :
    (extractTokenReceipt env trx scan createAt res r).extractData = res.extractData := by
  unfold extractTokenReceipt
  simp only
  split <;> split <;> rfl

theorem extractTokenTransfer_extractData (env : Env) (trx : Option Transaction)
    (res : ExtractResult) (scan : String → String × Bool) :
    (extractTokenTransfer env trx res scan).extractData = res.extractData := by
  cases trx with
  | none => rfl
  | some t =>
      have hfold : ∀ (l : List TokenReceipt) (a : ExtractResult),
          (l.foldl (extractTokenReceipt env t scan env.now) a).extractData = a.extractData := by
        intro l
        induction l with
        | nil => intro a; rfl
        | cons x xs ih =>
            intro a
            simp only [List.foldl_cons]
            rw [ih, extractTokenReceipt_extractData]
      unfold extractTokenTransfer
      simp only
      split
      · exact hfold _ _
      · rfl

/-- What `ExtractTransaction` returns for a transaction that can be fetched:
the main-coin buckets are those of `extractTransaction` run on the effective
transaction from a fresh result. -/
theorem ExtractTransaction_extractData (env : Env) (blockHeight : Nat)
    (blockHash txid : String) (scan : String → String × Bool) (trx : Transaction)
    (hget : env.GetTransaction txid = .ok trx) :
    (ExtractTransaction env blockHeight blockHash txid scan).1.extractData
      = (extractTransaction env (some (effectiveTx blockHeight blockHash trx))
          (freshResult blockHeight txid) scan).1.extractData := by
  simp only [ExtractTransaction, hget]
  rw [extractTokenTransfer_extractData]
  rfl

theorem effectiveTx_vins (blockHeight : Nat) (blockHash : String) (trx : Transaction) :
    (effectiveTx blockHeight blockHash trx).Vins = trx.Vins ∧
    (effectiveTx blockHeight blockHash trx).Vouts = trx.Vouts ∧
    (effectiveTx blockHeight blockHash trx).TxID = trx.TxID := by
  unfold effectiveTx
  split <;> exact ⟨rfl, rfl, rfl⟩

theorem map_watchedVins {β : Type} (scan : String → String × Bool) (k : String) (i : Nat)
    (vins : List Vin) (g : Nat → Vin → β) (f : Vin → β) (hg : ∀ j v, g j v = f v) :
    (watchedVins scan k i vins).map (fun p => g p.1 p.2)
      = (vins.filter (fun v => scan v.Addr = (k, true))).map f := by
  have hfun : (fun p : Nat × Vin => g p.1 p.2) = fun p => f p.2 := by
    funext p
    exact hg _ _
  rw [hfun]
  induction vins generalizing i with
  | nil => simp [watchedVins]
  | cons v rest ih =>
      have ih2 := ih (i + 1)
      simp only [watchedVins] at ih2 ⊢
      simp only [List.enumFrom_cons, List.filter_cons]
      split
      · simp only [List.map_cons, ih2]
      · exact ih2

/-- C20: for every transaction that can be fetched and whose vin walk ends
with `success = true`, every scan function and every source key `k`: the
buckets of `extractData` have distinct keys (two watched addresses of the same
key share one bucket); a key has a bucket exactly when a watched vin or vout
maps to it; the bucket's `TxInputs` are, in vin order, exactly the (resolved)
vins whose address is watched under `k`, and its `TxOutputs` are, in vout
order, exactly the vouts whose address is watched under `k`. -/
theorem C20_buckets_by_source_key (env : Env) (blockHeight : Nat) (blockHash txid : String)
    (scan : String → String × Bool) (trx : Transaction)
    (hget : env.GetTransaction txid = .ok trx)
    (hres : (resolveVins env true trx.Vins).2.1 = true) :
    (((ExtractTransaction env blockHeight blockHash txid scan).1.extractData.map
        Prod.fst).Nodup) ∧
    (∀ k, k ∈ (ExtractTransaction env blockHeight blockHash txid scan).1.extractData.map
        Prod.fst ↔
      (∃ v ∈ (resolveVins env true trx.Vins).1, scan v.Addr = (k, true)) ∨
      (∃ v ∈ trx.Vouts, scan v.Addr = (k, true))) ∧
    (∀ k ed, (k, ed) ∈ (ExtractTransaction env blockHeight blockHash txid scan).1.extractData →
      ed.TxInputs.map (fun x => (x.SourceTxID, x.SourceIndex, x.Index, x.Address, x.Amount))
        = ((resolveVins env true trx.Vins).1.filter (fun v => scan v.Addr = (k, true))).map
            (fun v => (v.TxID, v.Vout, v.N, v.Addr, v.Value)) ∧
      ed.TxOutputs.map (fun x => (x.Index, x.Address, x.Amount))
        = (trx.Vouts.filter (fun v => scan v.Addr = (k, true))).map
            (fun v => (v.N, v.Addr, v.Value))) := by
  obtain ⟨ev, eo, _⟩ := effectiveTx_vins blockHeight blockHash trx
  have hres2 : (resolveVins env true (effectiveTx blockHeight blockHash trx).Vins).2.1 = true := by
    rw [ev]; exact hres
  obtain ⟨h1, h2, h3⟩ := extractTransaction_main env (effectiveTx blockHeight blockHash trx)
    (freshResult blockHeight txid) scan rfl hres2
  rw [ExtractTransaction_extractData env blockHeight blockHash txid scan trx hget]
  rw [ev, eo] at h2 h3
  refine ⟨h1, h2, ?_⟩
  intro k ed hmem
  obtain ⟨a, b, _⟩ := h3 k ed hmem
  rw [a, b, List.map_map, List.map_map]
  refine ⟨?_, ?_⟩
  · exact map_watchedVins scan k 0 (resolveVins env true trx.Vins).1
      (fun j v =>
        ((coinTxInput env (effectiveTx blockHeight blockHash trx)
            (freshResult blockHeight txid).TxID env.now j v).SourceTxID,
         (coinTxInput env (effectiveTx blockHeight blockHash trx)
            (freshResult blockHeight txid).TxID env.now j v).SourceIndex,
         (coinTxInput env (effectiveTx blockHeight blockHash trx)
            (freshResult blockHeight txid).TxID env.now j v).Index,
         (coinTxInput env (effectiveTx blockHeight blockHash trx)
            (freshResult blockHeight txid).TxID env.now j v).Address,
         (coinTxInput env (effectiveTx blockHeight blockHash trx)
            (freshResult blockHeight txid).TxID env.now j v).Amount))
      (fun v => (v.TxID, v.Vout, v.N, v.Addr, v.Value)) (fun j v => rfl)
  · simp [watchedVouts, coinTxOutPut, Function.comp]

/-- C20 (witness): `T2` spends from `W1`, `X` and `W2` and pays `W2` and `X`;
`W1` and `W2` are both watched for `acct1`. -/
theorem C20_buckets_by_source_key_witness :
    (ExtractTransaction twoAddrEnv 0 "" "T2" twoAddrEnv.ScanAddressFunc).1.extractData.map
      (fun kv => (kv.1,
        kv.2.TxInputs.map (fun x => (x.SourceTxID, x.Index, x.Address, x.Amount))))
      = [("acct1", [("P1", 0, "W1", "1.5"), ("P3", 2, "W2", "2")])] ∧
    (ExtractTransaction twoAddrEnv 0 "" "T2" twoAddrEnv.ScanAddressFunc).1.extractData.map
      (fun kv => (kv.1, kv.2.TxOutputs.map (fun x => (x.Index, x.Address, x.Amount))))
      = [("acct1", [(0, "W2", "3.00000000")])] ∧
    ((ExtractTransaction twoAddrEnv 0 "" "T2" twoAddrEnv.ScanAddressFunc).1.extractData.map
        Prod.fst).Nodup :=
  ⟨by decide, by decide,
   (C20_buckets_by_source_key twoAddrEnv 0 "" "T2" twoAddrEnv.ScanAddressFunc
    { TxID := "T2", BlockHash := "", BlockHeight := 0, Confirmations := 0,
      Blocktime := 0, Isqrc20Transfer := false, TokenReceipts := [],
      Vins := [{ Coinbase := "", TxID := "P1", Vout := 0, N := 0, Addr := "W1",
                 Value := "1.5" },
               { Coinbase := "", TxID := "P2", Vout := 3, N := 1, Addr := "X",
                 Value := "0.25" },
               { Coinbase := "", TxID := "P3", Vout := 1, N := 2, Addr := "W2",
                 Value := "2" }],
      Vouts := [{ N := 0, Addr := "W2", Value := "3.00000000", ScriptPubKey := "" },
                { N := 1, Addr := "X", Value := "0.74990000", ScriptPubKey := "" }] }
    rfl (by decide)).1⟩

theorem Decimal.Add_units8 (a b : Decimal) (ha : a.scale ≤ 8) (hb : b.scale ≤ 8) :
    (a.Add b).scale ≤ 8 ∧ (a.Add b).units8 = a.units8 + b.units8 := by
  have hk : max a.scale b.scale ≤ 8 := max_le ha hb
  have h1 : (10 : Int) ^ (max a.scale b.scale - a.scale) * 10 ^ (8 - max a.scale b.scale)
      = 10 ^ (8 - a.scale) := by
    rw [← pow_add]
    congr 1
    have := le_max_left a.scale b.scale
    omega
  have h2 : (10 : Int) ^ (max a.scale b.scale - b.scale) * 10 ^ (8 - max a.scale b.scale)
      = 10 ^ (8 - b.scale) := by
    rw [← pow_add]
    congr 1
    have := le_max_right a.scale b.scale
    omega
  refine ⟨hk, ?_⟩
  simp only [Decimal.Add, Decimal.units8]
  rw [add_mul, mul_assoc, mul_assoc, h1, h2]

theorem Decimal.Sub_units8 (a b : Decimal) (ha : a.scale ≤ 8) (hb : b.scale ≤ 8) :
    (a.Sub b).scale ≤ 8 ∧ (a.Sub b).units8 = a.units8 - b.units8 := by
  have hk : max a.scale b.scale ≤ 8 := max_le ha hb
  have h1 : (10 : Int) ^ (max a.scale b.scale - a.scale) * 10 ^ (8 - max a.scale b.scale)
      = 10 ^ (8 - a.scale) := by
    rw [← pow_add]
    congr 1
    have := le_max_left a.scale b.scale
    omega
  have h2 : (10 : Int) ^ (max a.scale b.scale - b.scale) * 10 ^ (8 - max a.scale b.scale)
      = 10 ^ (8 - b.scale) := by
    rw [← pow_add]
    congr 1
    have := le_max_right a.scale b.scale
    omega
  refine ⟨hk, ?_⟩
  simp only [Decimal.Sub, Decimal.units8]
  rw [sub_mul, mul_assoc, mul_assoc, h1, h2]

theorem ofAmount_scale (s : String) (h : validAmount s = true) :
    (Decimal.ofAmount s).scale ≤ 8 := by
  unfold validAmount at h
  unfold Decimal.ofAmount
  cases hp : Decimal.NewFromString s with
  | none => rw [hp] at h; simp at h
  | some d =>
      rw [hp] at h
      simpa using h

theorem sumAmounts_fold (l : List String) (tot : Decimal) (ht : tot.scale ≤ 8)
    (hl : ∀ a ∈ l, validAmount a = true) :
    (l.foldl (fun t a => t.Add (Decimal.ofAmount a)) tot).scale ≤ 8 ∧
    (l.foldl (fun t a => t.Add (Decimal.ofAmount a)) tot).units8
      = tot.units8 + (l.map amountUnits).sum := by
  induction l generalizing tot with
  | nil => simp [ht]
  | cons a rest ih =>
      have ha := ofAmount_scale a (hl a (List.mem_cons_self _ _))
      obtain ⟨h1, h2⟩ := Decimal.Add_units8 tot (Decimal.ofAmount a) ht ha
      obtain ⟨h3, h4⟩ := ih (tot.Add (Decimal.ofAmount a)) h1
        (fun x hx => hl x (List.mem_cons_of_mem _ hx))
      simp only [List.foldl_cons, List.map_cons, List.sum_cons]
      refine ⟨h3, ?_⟩
      rw [h4, h2]
      simp only [amountUnits]
      ring

theorem sumAmounts_units8 (l : List String) (hl : ∀ a ∈ l, validAmount a = true) :
    (sumAmounts l).scale ≤ 8 ∧ (sumAmounts l).units8 = (l.map amountUnits).sum := by
  obtain ⟨h1, h2⟩ := sumAmounts_fold l Decimal.Zero (by decide) hl
  refine ⟨h1, ?_⟩
  unfold sumAmounts
  rw [h2]
  simp [Decimal.units8, Decimal.Zero]

theorem round_half_tdiv (n : Int) :
    Int.tdiv (if n * 10 < 0 then n * 10 - 5 else n * 10 + 5) 10 = n := by
  by_cases h : n * 10 < 0
  · rw [if_pos h]
    have e : n * 10 - 5 = -((-n) * 10 + 5) := by ring
    rw [e, Int.neg_tdiv, Int.tdiv_eq_ediv (by omega) (by decide)]
    omega
  · rw [if_neg h, Int.tdiv_eq_ediv (by omega) (by decide)]
    omega

theorem StringFixed_eq_renderFixed8 (d : Decimal) (hd : d.scale ≤ 8) :
    d.StringFixed 8 = renderFixed8 d.units8 := by
  have hr : (d.Round 8).value = d.units8 := by
    have ht : (d.rescale (8 + 1)).value = d.units8 * 10 := by
      unfold Decimal.rescale
      rw [if_pos (by omega)]
      simp only [Decimal.units8]
      have e : 8 + 1 - d.scale = (8 - d.scale) + 1 := by omega
      rw [e, pow_succ, mul_assoc]
    simp only [Decimal.Round]
    rw [ht]
    exact round_half_tdiv _
  unfold Decimal.StringFixed renderFixed8
  simp only [hr]

/-- C12: for every transaction that can be fetched, whose vin walk ends with
`success = true` and whose (resolved) vin amounts and vout amounts are valid
decimal strings with at most 8 fractional digits, every bucket of
`extractData` carries a synthesized transaction with `From` the list
`addr:amount` over all vins in vin order, `To` the list `addr:amount` over all
vouts in vout order, `Decimal = 8`, `Coin.IsContract = false`, and `Fees` the
difference (sum of vin amounts minus sum of vout amounts) rendered with exactly
8 decimal places, which is `"0.00000000"` when the two sums are equal. -/
theorem C12_summary_and_fees (env : Env) (blockHeight : Nat) (blockHash txid : String)
    (scan : String → String × Bool) (trx : Transaction)
    (hget : env.GetTransaction txid = .ok trx)
    (hres : (resolveVins env true trx.Vins).2.1 = true)
    (hvin : ∀ v ∈ (resolveVins env true trx.Vins).1, validAmount v.Value = true)
    (hvout : ∀ v ∈ trx.Vouts, validAmount v.Value = true) :
    ∀ k ed, (k, ed) ∈ (ExtractTransaction env blockHeight blockHash txid scan).1.extractData →
      ∃ tx, ed.Transaction = some tx ∧
        tx.From = (resolveVins env true trx.Vins).1.map (fun v => v.Addr ++ ":" ++ v.Value) ∧
        tx.To = trx.Vouts.map (fun v => v.Addr ++ ":" ++ v.Value) ∧
        tx.Decimal = 8 ∧ tx.Coin.IsContract = false ∧
        tx.Fees = renderFixed8
          (((resolveVins env true trx.Vins).1.map (fun v => amountUnits v.Value)).sum
            - (trx.Vouts.map (fun v => amountUnits v.Value)).sum) ∧
        (((resolveVins env true trx.Vins).1.map (fun v => amountUnits v.Value)).sum
            = (trx.Vouts.map (fun v => amountUnits v.Value)).sum →
          tx.Fees = "0.00000000") := by
  obtain ⟨ev, eo, _⟩ := effectiveTx_vins blockHeight blockHash trx
  have hres2 : (resolveVins env true (effectiveTx blockHeight blockHash trx).Vins).2.1 = true := by
    rw [ev]; exact hres
  obtain ⟨_, _, h3⟩ := extractTransaction_main env (effectiveTx blockHeight blockHash trx)
    (freshResult blockHeight txid) scan rfl hres2
  rw [ExtractTransaction_extractData env blockHeight blockHash txid scan trx hget]
  rw [ev, eo] at h3
  obtain ⟨i1, i2⟩ := sumAmounts_units8 ((resolveVins env true trx.Vins).1.map (fun v => v.Value))
    (by
      intro a ha
      obtain ⟨v, hv, rfl⟩ := List.mem_map.1 ha
      exact hvin v hv)
  obtain ⟨o1, o2⟩ := sumAmounts_units8 (trx.Vouts.map (fun v => v.Value))
    (by
      intro a ha
      obtain ⟨v, hv, rfl⟩ := List.mem_map.1 ha
      exact hvout v hv)
  obtain ⟨s1, s2⟩ := Decimal.Sub_units8 _ _ i1 o1
  have hfee := StringFixed_eq_renderFixed8 _ s1
  rw [s2, i2, o2, List.map_map, List.map_map] at hfee
  intro k ed hmem
  obtain ⟨_, _, tx, t1, t2, t3, t4, t5, t6, _⟩ := h3 k ed hmem
  have hf : tx.Fees = renderFixed8
      (((resolveVins env true trx.Vins).1.map (fun v => amountUnits v.Value)).sum
        - (trx.Vouts.map (fun v => amountUnits v.Value)).sum) := by
    rw [t4]
    exact hfee
  refine ⟨tx, t1, t2, t3, t5, t6, hf, ?_⟩
  intro heq
  rw [hf, heq, sub_self]
  decide

/-- C12 (witness): `T2` spends `1.5 + 0.25 + 2` and pays
`3.00000000 + 0.74990000`; the fee of the `acct1` bucket is `"0.00010000"`. -/
theorem C12_summary_and_fees_witness :
    (ExtractTransaction twoAddrEnv 0 "" "T2" twoAddrEnv.ScanAddressFunc).1.extractData.map
      (fun kv => (kv.1, kv.2.Transaction.map (fun tx => (tx.From, tx.To, tx.Fees))))
      = [("acct1", some (["W1:1.5", "X:0.25", "W2:2"], ["W2:3.00000000", "X:0.74990000"],
          "0.00010000"))] ∧
    ∀ k ed, (k, ed) ∈
        (ExtractTransaction twoAddrEnv 0 "" "T2" twoAddrEnv.ScanAddressFunc).1.extractData →
      ∃ tx, ed.Transaction = some tx ∧ tx.Decimal = 8 ∧ tx.Coin.IsContract = false :=
  ⟨by decide, fun k ed hmem =>
    (C12_summary_and_fees twoAddrEnv 0 "" "T2" twoAddrEnv.ScanAddressFunc
      { TxID := "T2", BlockHash := "", BlockHeight := 0, Confirmations := 0,
        Blocktime := 0, Isqrc20Transfer := false, TokenReceipts := [],
        Vins := [{ Coinbase := "", TxID := "P1", Vout := 0, N := 0, Addr := "W1",
                   Value := "1.5" },
                 { Coinbase := "", TxID := "P2", Vout := 3, N := 1, Addr := "X",
                   Value := "0.25" },
                 { Coinbase := "", TxID := "P3", Vout := 1, N := 2, Addr := "W2",
                   Value := "2" }],
        Vouts := [{ N := 0, Addr := "W2", Value := "3.00000000", ScriptPubKey := "" },
                  { N := 1, Addr := "X", Value := "0.74990000", ScriptPubKey := "" }] }
      rfl (by decide) (by decide) (by decide) k ed hmem).elim
      (fun tx h => ⟨tx, h.1, h.2.2.2.1, h.2.2.2.2.1⟩)⟩

theorem extractTransaction_extractContractData (env : Env) (trx : Option Transaction)
    (result : ExtractResult) (scan : String → String × Bool) :
    (extractTransaction env trx result scan).1.extractContractData
      = result.extractContractData := by
  cases trx with
  | none => rfl
  | some t =>
      obtain ⟨_, _, _, a4⟩ := extractTxInputLoop_lists env
        { t with Vins := (resolveVins env true t.Vins).1 } scan env.now
        (resolveVins env true t.Vins).1 0 result [] Decimal.Zero
      obtain ⟨_, _, _, c4⟩ := extractTxOutputLoop_lists env
        { t with Vins := (resolveVins env true t.Vins).1 } scan env.now t.Vouts
        (extractTxInputLoop env { t with Vins := (resolveVins env true t.Vins).1 } scan env.now 0
          (resolveVins env true t.Vins).1 result [] Decimal.Zero).1 [] Decimal.Zero
      simp only [extractTransaction, extractTxInput, extractTxOutput]
      split
      · simp only [c4, a4]
      · rfl

/-- What `ExtractTransaction` returns for a transaction that can be fetched:
the token buckets are those of `extractTokenTransfer` run on the effective
transaction from a result without token buckets. -/
theorem ExtractTransaction_extractContractData (env : Env) (blockHeight : Nat)
    (blockHash txid : String) (scan : String → String × Bool) (trx : Transaction)
    (hget : env.GetTransaction txid = .ok trx) :
    ∃ res : ExtractResult, res.extractContractData = [] ∧
      (ExtractTransaction env blockHeight blockHash txid scan).1.extractContractData
        = (extractTokenTransfer env (some (effectiveTx blockHeight blockHash trx))
            res scan).extractContractData := by
  refine ⟨(extractTransaction env (some (effectiveTx blockHeight blockHash trx))
    (freshResult blockHeight txid) scan).1, ?_, ?_⟩
  · rw [extractTransaction_extractContractData]
    rfl
  · simp only [ExtractTransaction, hget]
    rfl

theorem effectiveTx_token (blockHeight : Nat) (blockHash : String) (trx : Transaction) :
    (effectiveTx blockHeight blockHash trx).Isqrc20Transfer = trx.Isqrc20Transfer ∧
    (effectiveTx blockHeight blockHash trx).TokenReceipts = trx.TokenReceipts := by
  unfold effectiveTx
  split <;> exact ⟨rfl, rfl⟩

/-- The token buckets after one receipt, from a result without token buckets. -/
theorem extractTokenReceipt_single (env : Env) (trx : Transaction)
    (scan : String → String × Bool) (createAt : Nat) (res : ExtractResult) (r : TokenReceipt)
    (hempty : res.extractContractData = []) :
    (((extractTokenReceipt env trx scan createAt res r).extractContractData.map Prod.fst).Nodup) ∧
    (∀ k, k ∈ (extractTokenReceipt env trx scan createAt res r).extractContractData.map Prod.fst ↔
      scan r.From = (k, true) ∨ scan r.To = (k, true)) ∧
    (∀ k ed, (k, ed) ∈ (extractTokenReceipt env trx scan createAt res r).extractContractData →
      ed.TxInputs.length = (if scan r.From = (k, true) then 1 else 0) ∧
      ed.TxOutputs.length = (if scan r.To = (k, true) then 1 else 0) ∧
      (∀ x ∈ ed.TxInputs, x.Address = r.From ∧ x.Amount = r.Amount ∧
        x.Coin.IsContract = true ∧
        x.Coin.ContractID = env.GenContractID env.Symbol r.ContractAddress ∧
        x.Coin.Contract.Protocol = "qrc20") ∧
      (∀ x ∈ ed.TxOutputs, x.Address = r.To ∧ x.Amount = r.Amount ∧
        x.Coin.IsContract = true ∧
        x.Coin.ContractID = env.GenContractID env.Symbol r.ContractAddress ∧
        x.Coin.Contract.Protocol = "qrc20") ∧
      ∃ tx, ed.Transaction = some tx ∧ tx.Decimal = 0 ∧ tx.Fees = "0" ∧
        tx.Coin.IsContract = true ∧
        tx.Coin.ContractID = env.GenContractID env.Symbol r.ContractAddress ∧
        tx.Coin.Contract.Protocol = "qrc20") := by
  rcases ha : scan r.From with ⟨ka, _ | _⟩ <;> rcases hb : scan r.To with ⟨kb, _ | _⟩
  · simp [extractTokenReceipt, ha, hb, hempty]
  · simp [extractTokenReceipt, ha, hb, hempty, bucketModify, openwallet.NewBlockExtractData]
    exact fun k => eq_comm
  · simp [extractTokenReceipt, ha, hb, hempty, bucketModify, openwallet.NewBlockExtractData]
    exact fun k => eq_comm
  · by_cases hkk : ka = kb
    · subst hkk
      simp [extractTokenReceipt, ha, hb, hempty, bucketModify, openwallet.NewBlockExtractData]
      exact fun k => eq_comm
    · simp [extractTokenReceipt, ha, hb, hempty, bucketModify, openwallet.NewBlockExtractData,
        hkk]
      refine ⟨?_, ?_⟩
      · intro k
        constructor
        · rintro (h | h)
          · exact Or.inl h.symm
          · exact Or.inr h.symm
        · rintro (h | h)
          · exact Or.inl h.symm
          · exact Or.inr h.symm
      · intro k ed hmem
        rcases hmem with ⟨hk, hed⟩ | ⟨hk, hed⟩
        · subst hk hed
          have hkk2 : ¬ kb = k := fun h => hkk h.symm
          simp [hkk2]
        · subst hk hed
          simp [hkk]

/-- C13: for every transaction that can be fetched: when `isQRC20 = true` and
there is exactly one token receipt `r`, the buckets of `extractContractData`
have distinct keys, a key has a bucket exactly when `r.from` or `r.to` is
watched under it, the bucket of a key holds one `TxInput` iff `r.from` is
watched under that key (none otherwise) and one `TxOutput` iff `r.to` is
watched under it (none otherwise), each with amount the string `r.amount`
unchanged, `coin.isContract = true`, contract id
`GenContractID(symbol, r.contractAddress)` and protocol `"qrc20"`, and every
bucket's synthesized transaction has `decimal = 0` and `fees = "0"`; when
`isQRC20 = false`, `extractContractData` is empty. -/
theorem C13_token_receipt (env : Env) (blockHeight : Nat) (blockHash txid : String)
    (scan : String → String × Bool) (trx : Transaction)
    (hget : env.GetTransaction txid = .ok trx) :
    (∀ r, trx.Isqrc20Transfer = true → trx.TokenReceipts = [r] →
      (((ExtractTransaction env blockHeight blockHash txid scan).1.extractContractData.map
          Prod.fst).Nodup) ∧
      (∀ k, k ∈ (ExtractTransaction env blockHeight blockHash txid scan).1.extractContractData.map
          Prod.fst ↔ scan r.From = (k, true) ∨ scan r.To = (k, true)) ∧
      (∀ k ed,
        (k, ed) ∈ (ExtractTransaction env blockHeight blockHash txid scan).1.extractContractData →
        ed.TxInputs.length = (if scan r.From = (k, true) then 1 else 0) ∧
        ed.TxOutputs.length = (if scan r.To = (k, true) then 1 else 0) ∧
        (∀ x ∈ ed.TxInputs, x.Address = r.From ∧ x.Amount = r.Amount ∧
          x.Coin.IsContract = true ∧
          x.Coin.ContractID = env.GenContractID env.Symbol r.ContractAddress ∧
          x.Coin.Contract.Protocol = "qrc20") ∧
        (∀ x ∈ ed.TxOutputs, x.Address = r.To ∧ x.Amount = r.Amount ∧
          x.Coin.IsContract = true ∧
          x.Coin.ContractID = env.GenContractID env.Symbol r.ContractAddress ∧
          x.Coin.Contract.Protocol = "qrc20") ∧
        ∃ tx, ed.Transaction = some tx ∧ tx.Decimal = 0 ∧ tx.Fees = "0" ∧
          tx.Coin.IsContract = true ∧
          tx.Coin.ContractID = env.GenContractID env.Symbol r.ContractAddress ∧
          tx.Coin.Contract.Protocol = "qrc20")) ∧
    (trx.Isqrc20Transfer = false →
      (ExtractTransaction env blockHeight blockHash txid scan).1.extractContractData = []) := by
  obtain ⟨res, hres, heq⟩ :=
    ExtractTransaction_extractContractData env blockHeight blockHash txid scan trx hget
  obtain ⟨eq1, eq2⟩ := effectiveTx_token blockHeight blockHash trx
  rw [heq]
  refine ⟨?_, ?_⟩
  · intro r hq hr
    have hone : (extractTokenTransfer env (some (effectiveTx blockHeight blockHash trx)) res
        scan).extractContractData
        = (extractTokenReceipt env (effectiveTx blockHeight blockHash trx) scan env.now res
            r).extractContractData := by
      simp only [extractTokenTransfer, eq1, eq2, hq, hr, if_true, List.foldl]
    rw [hone]
    exact extractTokenReceipt_single env _ scan env.now res r hres
  · intro hq
    simp only [extractTokenTransfer, eq1, hq]
    exact hres

/-- C13 (witness): `Tq` carries one receipt from `W` (account `acct1`) to `V`
(account `acct2`); the `acct1` bucket holds the input, the `acct2` bucket the
output, both with amount `"250"`. -/
theorem C13_token_receipt_witness :
    (ExtractTransaction tokenEnv 7 "hq" "Tq" tokenEnv.ScanAddressFunc).1.extractContractData.map
      (fun kv => (kv.1, kv.2.TxInputs.map (fun x => (x.Address, x.Amount)),
        kv.2.TxOutputs.map (fun x => (x.Address, x.Amount))))
      = [("acct1", [("W", "250")], []), ("acct2", [], [("V", "250")])] ∧
    ((ExtractTransaction tokenEnv 7 "hq" "Tq" tokenEnv.ScanAddressFunc).1.extractContractData.map
        Prod.fst).Nodup :=
  ⟨by decide,
   ((C13_token_receipt tokenEnv 7 "hq" "Tq" tokenEnv.ScanAddressFunc
      { TxID := "Tq", BlockHash := "hq", BlockHeight := 7, Confirmations := 1,
        Blocktime := 0, Isqrc20Transfer := true,
        TokenReceipts := [{ TxHash := "Tq", ContractAddress := "c0ffee", From := "W",
                            To := "V", Amount := "250", BlockHeight := 7,
                            BlockHash := "hr" }],
        Vins := [], Vouts := [] } rfl).1
      { TxHash := "Tq", ContractAddress := "c0ffee", From := "W",
        To := "V", Amount := "250", BlockHeight := 7, BlockHash := "hr" } rfl rfl).1⟩

theorem extractTransaction_not_success (env : Env) (trx : Transaction) (result : ExtractResult)
    (scan : String → String × Bool)
    (hfail : (resolveVins env true trx.Vins).2.1 = false) :
    (extractTransaction env (some trx) result scan).1.extractData = result.extractData := by
  simp [extractTransaction, hfail]

/-- Every main-coin record that `ExtractTransaction` emits carries the height
and hash of the effective transaction. -/
theorem ExtractTransaction_record_heights (env : Env) (blockHeight : Nat)
    (blockHash txid : String) (scan : String → String × Bool) (trx : Transaction)
    (hget : env.GetTransaction txid = .ok trx) :
    ∀ k ed, (k, ed) ∈ (ExtractTransaction env blockHeight blockHash txid scan).1.extractData →
      (∀ x ∈ ed.TxInputs,
        x.BlockHeight = (effectiveTx blockHeight blockHash trx).BlockHeight ∧
        x.BlockHash = (effectiveTx blockHeight blockHash trx).BlockHash) ∧
      (∀ x ∈ ed.TxOutputs,
        x.BlockHeight = (effectiveTx blockHeight blockHash trx).BlockHeight ∧
        x.BlockHash = (effectiveTx blockHeight blockHash trx).BlockHash) ∧
      (∀ tx, ed.Transaction = some tx →
        tx.BlockHeight = (effectiveTx blockHeight blockHash trx).BlockHeight ∧
        tx.BlockHash = (effectiveTx blockHeight blockHash trx).BlockHash) := by
  rw [ExtractTransaction_extractData env blockHeight blockHash txid scan trx hget]
  intro k ed hmem
  cases hs : (resolveVins env true (effectiveTx blockHeight blockHash trx).Vins).2.1 with
  | false =>
      rw [extractTransaction_not_success env _ _ scan hs] at hmem
      simp [freshResult] at hmem
  | true =>
      obtain ⟨_, _, h3⟩ := extractTransaction_main env (effectiveTx blockHeight blockHash trx)
        (freshResult blockHeight txid) scan rfl hs
      obtain ⟨a, b, tx, t1, _, _, _, _, _, _, _, t8, t9⟩ := h3 k ed hmem
      refine ⟨?_, ?_, ?_⟩
      · intro x hx
        rw [a] at hx
        obtain ⟨p, _, rfl⟩ := List.mem_map.1 hx
        exact ⟨rfl, rfl⟩
      · intro x hx
        rw [b] at hx
        obtain ⟨p, _, rfl⟩ := List.mem_map.1 hx
        exact ⟨rfl, rfl⟩
      · intro tx2 h2
        rw [t1] at h2
        cases h2
        exact ⟨t8, t9⟩

/-- C14 (counterexample): the mempool call `ExtractTransaction(0, "", "T")` on a
transaction that itself reports height 5 and hash `hb` emits a `TxInput` and a
synthesized transaction carrying height 5 and hash `hb`, not the passed-in
`0` and `""`; and the token records of `Tq`, extracted at passed-in height 9
with hash `h9`, carry the height 7 and hash `hr` of their receipt. -/
theorem C14_counterexample :
    (ExtractTransaction spendEnv 0 "" "T" spendEnv.ScanAddressFunc).1.extractData.map
      (fun kv => (kv.2.TxInputs.map (fun x => (x.BlockHeight, x.BlockHash)),
        kv.2.Transaction.map (fun tx => (tx.BlockHeight, tx.BlockHash))))
      = [([(5, "hb")], some (5, "hb"))] ∧
    (ExtractTransaction tokenEnv 9 "h9" "Tq" tokenEnv.ScanAddressFunc).1.extractContractData.map
      (fun kv => (kv.2.TxInputs.map (fun x => (x.BlockHeight, x.BlockHash)),
        kv.2.TxOutputs.map (fun x => (x.BlockHeight, x.BlockHash))))
      = [([(7, "hr")], []), ([], [(7, "hr")])] := by
  refine ⟨by decide, by decide⟩

/-- C14 (amended): for every transaction that can be fetched, every main-coin
record of `extractData` (each `TxInput`, `TxOutput` and synthesized
transaction) carries the passed-in block height and hash when
`blockHeight > 0` and the fetched transaction itself reports height 0; and for
`blockHeight = 0` (the mempool call) it carries the height and hash the fetched
transaction reports. -/
theorem C14_height_priority (env : Env) (blockHeight : Nat) (blockHash txid : String)
    (scan : String → String × Bool) (trx : Transaction)
    (hget : env.GetTransaction txid = .ok trx)
    (hcase : (0 < blockHeight ∧ trx.BlockHeight = 0) ∨ blockHeight = 0) :
    ∀ k ed, (k, ed) ∈ (ExtractTransaction env blockHeight blockHash txid scan).1.extractData →
      (∀ x ∈ ed.TxInputs,
        (x.BlockHeight, x.BlockHash)
          = if 0 < blockHeight then (blockHeight, blockHash)
            else (trx.BlockHeight, trx.BlockHash)) ∧
      (∀ x ∈ ed.TxOutputs,
        (x.BlockHeight, x.BlockHash)
          = if 0 < blockHeight then (blockHeight, blockHash)
            else (trx.BlockHeight, trx.BlockHash)) ∧
      (∀ tx, ed.Transaction = some tx →
        (tx.BlockHeight, tx.BlockHash)
          = if 0 < blockHeight then (blockHeight, blockHash)
            else (trx.BlockHeight, trx.BlockHash)) := by
  have heff : ((effectiveTx blockHeight blockHash trx).BlockHeight,
      (effectiveTx blockHeight blockHash trx).BlockHash)
      = if 0 < blockHeight then (blockHeight, blockHash)
        else (trx.BlockHeight, trx.BlockHash) := by
    rcases hcase with ⟨h1, h2⟩ | h0
    · simp [effectiveTx, h1, h2]
    · subst h0
      simp [effectiveTx]
  intro k ed hmem
  obtain ⟨a, b, c⟩ :=
    ExtractTransaction_record_heights env blockHeight blockHash txid scan trx hget k ed hmem
  rw [← heff]
  refine ⟨?_, ?_, ?_⟩
  · intro x hx
    rw [(a x hx).1, (a x hx).2]
  · intro x hx
    rw [(b x hx).1, (b x hx).2]
  · intro tx htx
    rw [(c tx htx).1, (c tx htx).2]

/-- C14 (witness): `T2` reports height 0; extracted for block 6 with hash `h6`,
its records carry height 6 and hash `h6`. -/
theorem C14_height_priority_witness :
    (ExtractTransaction twoAddrEnv 6 "h6" "T2" twoAddrEnv.ScanAddressFunc).1.extractData.map
      (fun kv => (kv.2.TxInputs.map (fun x => (x.BlockHeight, x.BlockHash)),
        kv.2.TxOutputs.map (fun x => (x.BlockHeight, x.BlockHash)),
        kv.2.Transaction.map (fun tx => (tx.BlockHeight, tx.BlockHash))))
      = [([(6, "h6"), (6, "h6")], [(6, "h6")], some (6, "h6"))] ∧
    ∀ k ed, (k, ed) ∈
        (ExtractTransaction twoAddrEnv 6 "h6" "T2" twoAddrEnv.ScanAddressFunc).1.extractData →
      ∀ x ∈ ed.TxInputs, (x.BlockHeight, x.BlockHash) = (6, "h6") :=
  ⟨by decide, fun k ed hmem =>
    (C14_height_priority twoAddrEnv 6 "h6" "T2" twoAddrEnv.ScanAddressFunc
      { TxID := "T2", BlockHash := "", BlockHeight := 0, Confirmations := 0,
        Blocktime := 0, Isqrc20Transfer := false, TokenReceipts := [],
        Vins := [{ Coinbase := "", TxID := "P1", Vout := 0, N := 0, Addr := "W1",
                   Value := "1.5" },
                 { Coinbase := "", TxID := "P2", Vout := 3, N := 1, Addr := "X",
                   Value := "0.25" },
                 { Coinbase := "", TxID := "P3", Vout := 1, N := 2, Addr := "W2",
                   Value := "2" }],
        Vouts := [{ N := 0, Addr := "W2", Value := "3.00000000", ScriptPubKey := "" },
                  { N := 1, Addr := "X", Value := "0.74990000", ScriptPubKey := "" }] }
      rfl (Or.inl ⟨by decide, rfl⟩) k ed hmem).1⟩

/-- An insertion overwrites an earlier insertion of the same identity. -/
theorem insertUnscan_insertUnscan (r1 r2 : UnscanRecord) (l : List UnscanRecord)
    (hh : r1.BlockHeight = r2.BlockHeight) (ht : r1.TxID = r2.TxID) :
    insertUnscan r2 (insertUnscan r1 l) = insertUnscan r2 l := by
  induction l with
  | nil => simp [insertUnscan, hh, ht]
  | cons x xs ih =>
      by_cases hx : x.BlockHeight = r1.BlockHeight ∧ x.TxID = r1.TxID
      · have hx2 : x.BlockHeight = r2.BlockHeight ∧ x.TxID = r2.TxID :=
          ⟨hx.1.trans hh, hx.2.trans ht⟩
        simp [insertUnscan, hx, hx2, hh, ht]
      · have hx2 : ¬ (x.BlockHeight = r2.BlockHeight ∧ x.TxID = r2.TxID) := by
          rw [← hh, ← ht]
          exact hx
        simp only [insertUnscan, if_neg hx, if_neg hx2, ih]

/-- The inner loop of `newExtractDataNotify` for one observer. -/
theorem notifyOne_foldl (env : Env) (h : Nat) (hpos : h ≠ 0) (o : Nat)
    (ed : List (String × TxExtractData)) (s : State) :
    ed.foldl (notifyOne env h o) s
      = { s with
          log := s.log ++ ed.map (fun kv => Event.BlockExtractDataNotify o kv.1 kv.2),
          unscan :=
            if ed.any (fun kv => (env.BlockExtractDataNotify o kv.1 kv.2).isSome) then
              insertUnscan (NewUnscanRecord h "" "ExtractData Notify failed.") s.unscan
            else s.unscan } := by
  induction ed generalizing s with
  | nil => simp
  | cons kv rest ih =>
      rw [List.foldl_cons, ih]
      cases hn : env.BlockExtractDataNotify o kv.1 kv.2 with
      | none =>
          simp only [List.any_cons, List.map_cons, hn, Option.isSome_none, Bool.false_or]
          simp [notifyOne, hn, State.emit]
      | some e =>
          have hh : (NewUnscanRecord h "" "ExtractData Notify failed.").BlockHeight ≠ 0 := hpos
          simp only [List.any_cons, List.map_cons, hn, Option.isSome_some, Bool.true_or]
          simp [notifyOne, hn, State.emit, SaveUnscanRecord, hh, insertUnscan_insertUnscan]

/-- The state after `newExtractDataNotify` at a height other than 0: the
notifications are appended to the log, and the ledger gains the record of the
failed delivery exactly when some notification returned an error. -/
theorem newExtractDataNotify_state (env : Env) (h : Nat) (hpos : h ≠ 0)
    (ed : List (String × TxExtractData)) (s : State) :
    (newExtractDataNotify env h ed s).2
      = { s with
          log := s.log ++ notifyEvents env ed,
          unscan :=
            if notifyFails env ed then
              insertUnscan (NewUnscanRecord h "" "ExtractData Notify failed.") s.unscan
            else s.unscan } := by
  unfold newExtractDataNotify notifyEvents notifyFails
  simp only
  generalize env.Observers = obs
  induction obs generalizing s with
  | nil => simp
  | cons o rest ih =>
      rw [List.foldl_cons, notifyOne_foldl env h hpos, ih]
      by_cases hb : (ed.any (fun kv => (env.BlockExtractDataNotify o kv.1 kv.2).isSome)) = true
      · by_cases hc : (rest.any (fun o =>
            ed.any (fun kv => (env.BlockExtractDataNotify o kv.1 kv.2).isSome))) = true
        · simp [hb, hc, insertUnscan_insertUnscan, List.append_assoc]
        · simp [hb, hc, List.append_assoc]
      · by_cases hc : (rest.any (fun o =>
            ed.any (fun kv => (env.BlockExtractDataNotify o kv.1 kv.2).isSome))) = true
        · simp [hb, hc, List.append_assoc]
        · simp [hb, hc, List.append_assoc]

theorem notifyEvents_nodup (env : Env) (ed : List (String × TxExtractData))
    (hobs : env.Observers.Nodup) (hkeys : (ed.map Prod.fst).Nodup) :
    (notifyEvents env ed).Nodup := by
  unfold notifyEvents
  rw [List.nodup_flatMap]
  refine ⟨?_, ?_⟩
  · intro o _
    refine List.Nodup.map ?_ (List.Nodup.of_map _ hkeys)
    intro a b hab
    simp only [Event.BlockExtractDataNotify.injEq] at hab
    exact Prod.ext hab.2.1 hab.2.2
  · refine List.Pairwise.imp ?_ hobs
    intro a b hne
    simp only [Function.onFun, List.disjoint_left, List.mem_map]
    rintro e ⟨kv, _, rfl⟩ ⟨kv2, _, h2⟩
    simp only [Event.BlockExtractDataNotify.injEq] at h2
    exact hne h2.1.symm

/-- C16: for every delivery of extract data at a height `h >= 1`, from every
state: `newExtractDataNotify` returns no error; the calls it appends to the log
are exactly the notifications `BlockExtractDataNotify(o, key, data)`, one for
every observer `o` and every bucket `(key, data)`, whatever the earlier
notifications returned (each pair is notified, and exactly once when observers
and keys are distinct); when some notification returns an error, the ledger
afterwards holds the record `(h, "", "ExtractData Notify failed.")`, whose
reason is not empty; and when none does, the ledger is unchanged. -/
theorem C16_notify_failure_recorded (env : Env) (h : Nat) (hpos : 1 ≤ h)
    (ed : List (String × TxExtractData)) (s : State) :
    (newExtractDataNotify env h ed s).1 = none ∧
    (newExtractDataNotify env h ed s).2.log
      = s.log ++ env.Observers.flatMap (fun o =>
          ed.map (fun kv => Event.BlockExtractDataNotify o kv.1 kv.2)) ∧
    (env.Observers.Nodup → (ed.map Prod.fst).Nodup →
      ∀ o ∈ env.Observers, ∀ kv ∈ ed,
        (env.Observers.flatMap (fun o =>
          ed.map (fun kv => Event.BlockExtractDataNotify o kv.1 kv.2))).count
            (Event.BlockExtractDataNotify o kv.1 kv.2) = 1) ∧
    ((∃ o ∈ env.Observers, ∃ kv ∈ ed, (env.BlockExtractDataNotify o kv.1 kv.2).isSome) →
      NewUnscanRecord h "" "ExtractData Notify failed." ∈ (newExtractDataNotify env h ed s).2.unscan ∧
      (NewUnscanRecord h "" "ExtractData Notify failed.").BlockHeight = h ∧
      (NewUnscanRecord h "" "ExtractData Notify failed.").TxID = "" ∧
      (NewUnscanRecord h "" "ExtractData Notify failed.").Reason ≠ "") ∧
    ((¬ ∃ o ∈ env.Observers, ∃ kv ∈ ed, (env.BlockExtractDataNotify o kv.1 kv.2).isSome) →
      (newExtractDataNotify env h ed s).2.unscan = s.unscan) := by
  have hne : h ≠ 0 := by omega
  have hst := newExtractDataNotify_state env h hne ed s
  have hfail : notifyFails env ed = true ↔
      ∃ o ∈ env.Observers, ∃ kv ∈ ed, (env.BlockExtractDataNotify o kv.1 kv.2).isSome := by
    simp [notifyFails, List.any_eq_true]
  refine ⟨rfl, ?_, ?_, ?_, ?_⟩
  · rw [hst]
    rfl
  · intro hobs hkeys o ho kv hkv
    refine List.count_eq_one_of_mem (notifyEvents_nodup env ed hobs hkeys) ?_
    exact List.mem_flatMap.2 ⟨o, ho, List.mem_map.2 ⟨kv, hkv, rfl⟩⟩
  · intro hex
    rw [hst]
    have hreason : "ExtractData Notify failed." ≠ "" := by decide
    refine ⟨?_, rfl, rfl, hreason⟩
    simp only [hfail.2 hex, if_true]
    exact mem_insertUnscan _ _
  · intro hex
    rw [hst]
    have hf : notifyFails env ed = false := by
      cases hb : notifyFails env ed with
      | false => rfl
      | true => exact absurd (hfail.1 hb) hex
    simp [hf]

/-- C16 (witness): two observers, the first of which fails; a delivery of two
buckets at height 5 issues all four notifications and leaves the record
`(5, "", "ExtractData Notify failed.")`. -/
theorem C16_notify_failure_recorded_witness :
    (newExtractDataNotify failingObserverEnv 5
        [("a", openwallet.NewBlockExtractData), ("b", openwallet.NewBlockExtractData)]
        emptyState).1 = none ∧
    (newExtractDataNotify failingObserverEnv 5
        [("a", openwallet.NewBlockExtractData), ("b", openwallet.NewBlockExtractData)]
        emptyState).2.log
      = [Event.BlockExtractDataNotify 0 "a" openwallet.NewBlockExtractData,
         Event.BlockExtractDataNotify 0 "b" openwallet.NewBlockExtractData,
         Event.BlockExtractDataNotify 1 "a" openwallet.NewBlockExtractData,
         Event.BlockExtractDataNotify 1 "b" openwallet.NewBlockExtractData] ∧
    (newExtractDataNotify failingObserverEnv 5
        [("a", openwallet.NewBlockExtractData), ("b", openwallet.NewBlockExtractData)]
        emptyState).2.unscan
      = [NewUnscanRecord 5 "" "ExtractData Notify failed."] :=
  ⟨(C16_notify_failure_recorded failingObserverEnv 5 (by decide)
      [("a", openwallet.NewBlockExtractData), ("b", openwallet.NewBlockExtractData)]
      emptyState).1, by decide, by decide⟩

theorem scanBlockCalls_append (l1 l2 : List Event) :
    scanBlockCalls (l1 ++ l2) = scanBlockCalls l1 ++ scanBlockCalls l2 := by
  simp [scanBlockCalls, List.filterMap_append]

theorem scanBlockCalls_data (evs : List Event) (h : ∀ e ∈ evs, e.isData = true) :
    scanBlockCalls evs = [] := by
  induction evs with
  | nil => rfl
  | cons e rest ih =>
      have he := h e (List.mem_cons_self _ _)
      have hr := ih (fun x hx => h x (List.mem_cons_of_mem _ hx))
      cases e <;> simp_all [scanBlockCalls, Event.isData]

theorem scanBlockCalls_dataStep {s t : State} (h : DataStep s t) :
    scanBlockCalls t.log = scanBlockCalls s.log := by
  obtain ⟨evs, hl, hd⟩ := h.log
  rw [hl, scanBlockCalls_append, scanBlockCalls_data evs hd, List.append_nil]

theorem scanBlockCalls_saveUnscan (r : UnscanRecord) (s : State) :
    scanBlockCalls (SaveUnscanRecord r s).log = scanBlockCalls s.log :=
  scanBlockCalls_dataStep (DataStep.saveUnscan r s)

/-- One call of `ScanBlock` adds exactly its own height to the heights
scanned. -/
theorem ScanBlock_calls (env : Env) (height : Nat) (s : State) :
    scanBlockCalls (ScanBlock env height s).2.log = scanBlockCalls s.log ++ [height] := by
  unfold ScanBlock
  simp only
  cases env.GetBlockHash height with
  | error err => simp [State.emit, scanBlockCalls_append, scanBlockCalls]
  | ok hash =>
      dsimp only
      cases env.GetBlock hash with
      | error err =>
          dsimp only
          rw [scanBlockCalls_saveUnscan]
          simp [State.emit, scanBlockCalls_append, scanBlockCalls]
      | ok block =>
          dsimp only [newBlockNotify, State.emit]
          rw [scanBlockCalls_append, scanBlockCalls_dataStep
            (BatchExtractTransaction_frame env block.Height block.Hash block.tx _)]
          simp [State.emit, scanBlockCalls_append, scanBlockCalls]

/-- The heights the tail loop passes to `ScanBlock`: those from the start index
`currentHeight - RescanLastBlockCount` (computed in `uint64`) up to
`currentHeight - 1`, in ascending order. -/
theorem tailRescan_calls (env : Env) (currentHeight : Nat) (s : State) :
    scanBlockCalls (tailRescan env currentHeight s).log
      = scanBlockCalls s.log ++
        List.range' ((currentHeight + U64 - env.RescanLastBlockCount) % U64)
          (currentHeight - (currentHeight + U64 - env.RescanLastBlockCount) % U64) := by
  unfold tailRescan
  simp only
  generalize (currentHeight + U64 - env.RescanLastBlockCount) % U64 = start
  generalize currentHeight - start = len
  induction len generalizing start s with
  | zero => simp
  | succ n ih =>
      rw [List.range'_succ, List.foldl_cons, ih, ScanBlock_calls]
      simp

/-- When `1 <= RescanLastBlockCount < currentHeight < 2^64`, the tail loop scans
the heights `currentHeight - RescanLastBlockCount .. currentHeight - 1`; with
`RescanLastBlockCount = 0` it scans none. -/
theorem tailRescan_calls_of_lt (env : Env) (currentHeight : Nat) (s : State)
    (hlt : env.RescanLastBlockCount < currentHeight) (hc : currentHeight < U64) :
    scanBlockCalls (tailRescan env currentHeight s).log
      = scanBlockCalls s.log ++
        List.range' (currentHeight - env.RescanLastBlockCount) env.RescanLastBlockCount := by
  rw [tailRescan_calls]
  have hU : U64 = 18446744073709551616 := by decide
  have e1 : (currentHeight + U64 - env.RescanLastBlockCount) % U64
      = currentHeight - env.RescanLastBlockCount := by
    rw [hU] at hc ⊢
    omega
  rw [e1]
  congr 2
  omega

/-- C15 (evaluated at the failing inputs): after a main loop that ends at scan
height 3, with `RescanLastBlockCount = 5` the tail loop makes no `ScanBlock`
call at all (the start index `3 - 5` wraps to `2^64 - 2`), and with
`RescanLastBlockCount = 3` it calls `ScanBlock` on the heights 0, 1, 2; the
start index is not clamped at 1, which would give the heights 1, 2 in both
cases. -/
theorem C15_tail_start_not_clamped :
    (3 + U64 - 5) % U64 = 18446744073709551614 ∧
    scanBlockCalls (tailRescan { emptyEnv with RescanLastBlockCount := 5 } 3 emptyState).log
      = [] ∧
    scanBlockCalls (tailRescan { emptyEnv with RescanLastBlockCount := 3 } 3 emptyState).log
      = [0, 1, 2] := by
  refine ⟨by decide, by decide, by decide⟩

theorem extractRuntimeStep_inv (st st1 : RuntimeState) (e : RuntimeEvent)
    (hstep : extractRuntimeStep st e = some st1)
    (hinv : st.received = st.handed ++ st.values) :
    st1.received = st1.handed ++ st1.values := by
  cases e with
  | recv pa =>
      simp only [extractRuntimeStep] at hstep
      split at hstep
      · cases hstep
      · cases hstep
        simp [hinv]
  | quit =>
      simp only [extractRuntimeStep] at hstep
      split at hstep
      · cases hstep
      · cases hstep
        exact hinv
  | send =>
      simp only [extractRuntimeStep] at hstep
      split at hstep
      · cases hstep
      · split at hstep
        · cases hstep
        · rename_i v rest hv
          cases hstep
          simp [hinv, hv]

theorem extractRuntimeRun_inv (evs : List RuntimeEvent) (st st1 : RuntimeState)
    (hrun : extractRuntimeRun st evs = some st1)
    (hinv : st.received = st.handed ++ st.values) :
    st1.received = st1.handed ++ st1.values := by
  induction evs generalizing st with
  | nil =>
      cases hrun
      exact hinv
  | cons e es ih =>
      unfold extractRuntimeRun at hrun
      cases hs : extractRuntimeStep st e with
      | none => rw [hs] at hrun; cases hrun
      | some st2 =>
          rw [hs] at hrun
          exact ih st2 hrun (extractRuntimeStep_inv st st2 e hs hinv)

/-- C17: in every state the dispatcher `extractRuntime` reaches from its entry
state by receive, send and quit steps, the results received from the producer
are, in order, the results handed to the worker followed by the pending queue
(nothing is dropped, duplicated or reordered), so the results handed to the
worker are a prefix of the results received; and the send case of the `select`
is enabled only when the queue is non-empty, handing over the head of the
queue. -/
theorem C17_fifo_dispatch (evs : List RuntimeEvent) (st : RuntimeState)
    (hrun : extractRuntimeRun runtimeInit evs = some st) :
    st.received = st.handed ++ st.values ∧
    st.handed <+: st.received ∧
    (∀ st1, extractRuntimeStep st RuntimeEvent.send = some st1 →
      ∃ v rest, st.values = v :: rest ∧ st1.values = rest ∧ st1.handed = st.handed ++ [v]) := by
  have hinv := extractRuntimeRun_inv evs runtimeInit st hrun rfl
  refine ⟨hinv, ⟨st.values, hinv.symm⟩, ?_⟩
  intro st1 hstep
  simp only [extractRuntimeStep] at hstep
  split at hstep
  · cases hstep
  · split at hstep
    · cases hstep
    · rename_i v rest hv
      cases hstep
      exact ⟨v, rest, hv, rfl, rfl⟩

/-- C17 (witness): three results are received while the first two are handed
over; the worker has seen `a`, `b` and `c` is pending. -/
theorem C17_fifo_dispatch_witness :
    extractRuntimeRun runtimeInit
        [RuntimeEvent.recv (freshResult 5 "a"), RuntimeEvent.recv (freshResult 5 "b"),
         RuntimeEvent.send, RuntimeEvent.recv (freshResult 5 "c"), RuntimeEvent.send]
      = some { values := [freshResult 5 "c"], returned := false,
               received := [freshResult 5 "a", freshResult 5 "b", freshResult 5 "c"],
               handed := [freshResult 5 "a", freshResult 5 "b"] } ∧
    extractRuntimeStep runtimeInit RuntimeEvent.send = none ∧
    [freshResult 5 "a", freshResult 5 "b"]
      <+: [freshResult 5 "a", freshResult 5 "b", freshResult 5 "c"] :=
  ⟨by decide, by decide,
   (C17_fifo_dispatch
      [RuntimeEvent.recv (freshResult 5 "a"), RuntimeEvent.recv (freshResult 5 "b"),
       RuntimeEvent.send, RuntimeEvent.recv (freshResult 5 "c"), RuntimeEvent.send]
      { values := [freshResult 5 "c"], returned := false,
        received := [freshResult 5 "a", freshResult 5 "b", freshResult 5 "c"],
        handed := [freshResult 5 "a", freshResult 5 "b"] } (by decide)).2.1⟩

/-- The pool invariant: every token in `extractingCH` belongs to a worker that
is about to be started or to a worker that has not finished, and the channel
never holds more than `maxExtractingSize` tokens. -/
theorem poolStep_inv (p p1 : ExtractPool) (e : PoolEvent)
    (hstep : poolStep p e = some p1)
    (hinv : p.tokens = p.starting + p.workers.length ∧ p.tokens ≤ maxExtractingSize) :
    p1.tokens = p1.starting + p1.workers.length ∧ p1.tokens ≤ maxExtractingSize := by
  obtain ⟨h1, h2⟩ := hinv
  cases e with
  | acquire =>
      simp only [poolStep] at hstep
      split at hstep
      · rename_i hlt
        cases hstep
        simp only
        omega
      · cases hstep
  | start =>
      simp only [poolStep] at hstep
      split at hstep
      · rename_i hpos
        cases hstep
        simp only [List.length_append, List.length_singleton]
        omega
      · cases hstep
  | handOver i success =>
      simp only [poolStep] at hstep
      split at hstep
      · cases hstep
        simp only [List.length_set]
        exact ⟨h1, h2⟩
      · cases hstep
  | release i =>
      simp only [poolStep] at hstep
      split at hstep
      · rename_i b hget
        split at hstep
        · rename_i hpos
          cases hstep
          have hi : i < p.workers.length := by
            rcases Nat.lt_or_ge i p.workers.length with h | h
            · exact h
            · rw [List.get?_eq_none.2 h] at hget
              cases hget
          simp only [List.length_eraseIdx, hi, if_true]
          omega
        · cases hstep
      · cases hstep

theorem poolRun_inv (evs : List PoolEvent) (p p1 : ExtractPool)
    (hrun : poolRun p evs = some p1)
    (hinv : p.tokens = p.starting + p.workers.length ∧ p.tokens ≤ maxExtractingSize) :
    p1.tokens = p1.starting + p1.workers.length ∧ p1.tokens ≤ maxExtractingSize := by
  induction evs generalizing p with
  | nil =>
      cases hrun
      exact hinv
  | cons e es ih =>
      unfold poolRun at hrun
      cases hs : poolStep p e with
      | none => rw [hs] at hrun; cases hrun
      | some p2 =>
          rw [hs] at hrun
          exact ih p2 hrun (poolStep_inv p p2 e hs hinv)

/-- C18: in every state the worker pool of one scanner reaches from its initial
state, the workers started and not yet finished number at most
`maxExtractingSize = 15`: every one of them holds a token of `extractingCH`,
put there before it was started; a further token can be put only while the
channel holds fewer than 15; and a worker that has handed its result to the
producer channel, whether the extraction succeeded or failed, can take its
token off again, which frees one place. -/
theorem C18_bounded_workers (evs : List PoolEvent) (p : ExtractPool)
    (hrun : poolRun poolInit evs = some p) :
    p.workers.length ≤ 15 ∧
    p.tokens = p.starting + p.workers.length ∧
    p.tokens ≤ maxExtractingSize ∧
    ((poolStep p PoolEvent.acquire).isSome ↔ p.tokens < 15) ∧
    (∀ i success, p.workers.get? i = some (WorkerPhase.handedOver success) →
      poolStep p (PoolEvent.release i)
        = some { p with tokens := p.tokens - 1, workers := p.workers.eraseIdx i } ∧
      (p.workers.eraseIdx i).length = p.workers.length - 1) := by
  have hm : maxExtractingSize = 15 := rfl
  obtain ⟨h1, h2⟩ := poolRun_inv evs poolInit p hrun ⟨rfl, by decide⟩
  refine ⟨by omega, h1, h2, ?_, ?_⟩
  · simp only [poolStep, hm]
    split <;> simp_all
  · intro i success hget
    have hi : i < p.workers.length := by
      rcases Nat.lt_or_ge i p.workers.length with h | h
      · exact h
      · rw [List.get?_eq_none.2 h] at hget
        cases hget
    have hpos : 0 < p.tokens := by omega
    refine ⟨?_, ?_⟩
    · simp only [poolStep, hget, hpos, if_true]
    · simp only [List.length_eraseIdx, hi, if_true]

/-- C18 (witness): fifteen workers are started, after which no further token
can be put; once the first worker has handed over a failed result and released
its token, there is room again. -/
theorem C18_bounded_workers_witness :
    poolRun poolInit
        ((List.replicate 15 PoolEvent.acquire) ++ (List.replicate 15 PoolEvent.start))
      = some { tokens := 15, starting := 0,
               workers := List.replicate 15 WorkerPhase.extracting } ∧
    poolStep { tokens := 15, starting := 0,
               workers := List.replicate 15 WorkerPhase.extracting } PoolEvent.acquire = none ∧
    (poolRun poolInit
        ((List.replicate 15 PoolEvent.acquire) ++ (List.replicate 15 PoolEvent.start) ++
          [PoolEvent.handOver 0 false, PoolEvent.release 0])).map
        (fun p => (p.tokens, p.workers.length)) = some (14, 14) ∧
    (List.replicate 15 WorkerPhase.extracting).length ≤ 15 :=
  ⟨by decide, by decide, by decide,
   (C18_bounded_workers
      ((List.replicate 15 PoolEvent.acquire) ++ (List.replicate 15 PoolEvent.start))
      { tokens := 15, starting := 0, workers := List.replicate 15 WorkerPhase.extracting }
      (by decide)).1⟩

theorem LedgerAct.run_run_save (h : Nat) (a1 a2 : LedgerAct) (h1 : a1.isSave) (h2 : a2.isSave) :
    ∃ a3 : LedgerAct, a3.isSave ∧ ∀ l, a2.run h (a1.run h l) = a3.run h l := by
  cases a2 with
  | keep => exact ⟨a1, h1, fun l => rfl⟩
  | delete => exact absurd h2 id
  | upsert r2 =>
      cases a1 with
      | keep => exact ⟨LedgerAct.upsert r2, h2, fun l => rfl⟩
      | delete => exact absurd h1 id
      | upsert r1 =>
          refine ⟨LedgerAct.upsert r2, h2, fun l => ?_⟩
          exact insertUnscan_insertUnscan _ _ l rfl rfl

theorem saveUnscan_act (h : Nat) (hpos : h ≠ 0) (reason : String) (s : State) :
    (SaveUnscanRecord (NewUnscanRecord h "" reason) s).unscan
      = (LedgerAct.upsert reason).run h s.unscan := by
  have hh : (NewUnscanRecord h "" reason).BlockHeight ≠ 0 := hpos
  simp [SaveUnscanRecord, hh, LedgerAct.run]

theorem newExtractDataNotify_act (env : Env) (h : Nat) (hpos : h ≠ 0)
    (ed : List (String × TxExtractData)) :
    ∃ a : LedgerAct, a.isSave ∧
      ∀ s, (newExtractDataNotify env h ed s).2.unscan = a.run h s.unscan := by
  cases hf : notifyFails env ed with
  | false =>
      refine ⟨LedgerAct.keep, trivial, fun s => ?_⟩
      rw [newExtractDataNotify_state env h hpos]
      simp [hf, LedgerAct.run]
  | true =>
      refine ⟨LedgerAct.upsert "ExtractData Notify failed.", Or.inr rfl, fun s => ?_⟩
      rw [newExtractDataNotify_state env h hpos]
      simp [hf, LedgerAct.run]

theorem saveWork_act (env : Env) (h : Nat) (hpos : h ≠ 0) (gets : ExtractResult) :
    ∃ a : LedgerAct, a.isSave ∧
      ∀ acc, (saveWork env h acc gets).1.unscan = a.run h acc.1.unscan := by
  cases hs : gets.Success with
  | false =>
      refine ⟨LedgerAct.upsert "", Or.inl rfl, fun acc => ?_⟩
      simp only [saveWork, hs]
      exact saveUnscan_act h hpos "" acc.1
  | true =>
      obtain ⟨a1, c1, e1⟩ := newExtractDataNotify_act env h hpos gets.extractData
      obtain ⟨a2, c2, e2⟩ := newExtractDataNotify_act env h hpos gets.extractContractData
      obtain ⟨a3, c3, e3⟩ := LedgerAct.run_run_save h a1 a2 c1 c2
      refine ⟨a3, c3, fun acc => ?_⟩
      simp only [saveWork, hs, if_true]
      rw [e2, e1, e3]

theorem extractAndSave_act (env : Env) (h : Nat) (hpos : h ≠ 0) (hash txid : String) :
    ∃ a : LedgerAct, a.isSave ∧
      ∀ acc, (extractAndSave env h hash acc txid).1.unscan = a.run h acc.1.unscan := by
  obtain ⟨a, c, e⟩ := saveWork_act env h hpos
    (ExtractTransaction env h hash txid env.ScanAddressFunc).1
  refine ⟨a, c, fun acc => ?_⟩
  simp only [extractAndSave]
  rw [e]

theorem batchFold_act (env : Env) (h : Nat) (hpos : h ≠ 0) (hash : String)
    (txs : List String) :
    ∃ a : LedgerAct, a.isSave ∧
      ∀ acc, (txs.foldl (extractAndSave env h hash) acc).1.unscan = a.run h acc.1.unscan := by
  induction txs with
  | nil => exact ⟨LedgerAct.keep, trivial, fun acc => rfl⟩
  | cons x xs ih =>
      obtain ⟨a1, c1, e1⟩ := extractAndSave_act env h hpos hash x
      obtain ⟨a2, c2, e2⟩ := ih
      obtain ⟨a3, c3, e3⟩ := LedgerAct.run_run_save h a1 a2 c1 c2
      refine ⟨a3, c3, fun acc => ?_⟩
      rw [List.foldl_cons, e2, e1, e3]

/-- A batch extraction at a height other than 0 acts on the ledger by at most
one insertion of a block-level record, the same from every state. -/
theorem BatchExtractTransaction_act (env : Env) (h : Nat) (hpos : h ≠ 0) (hash : String)
    (txs : List String) :
    ∃ a : LedgerAct, a.isSave ∧
      ∀ s, (BatchExtractTransaction env h hash txs s).2.unscan = a.run h s.unscan := by
  by_cases hlen : txs.length = 0
  · refine ⟨LedgerAct.keep, trivial, fun s => ?_⟩
    simp [BatchExtractTransaction, hlen, State.emit, LedgerAct.run]
  · obtain ⟨a, c, e⟩ := batchFold_act env h hpos hash (env.arrival txs)
    refine ⟨a, c, fun s => ?_⟩
    have := e (s.emit (Event.BatchExtractTransaction h hash txs), 0)
    simp only [BatchExtractTransaction, hlen, if_false]
    split <;> exact this

theorem filter_height_insertUnscan (h : Nat) (r : UnscanRecord) (l : List UnscanRecord)
    (hr : r.BlockHeight = h) :
    (insertUnscan r l).filter (fun x => ¬ x.BlockHeight = h)
      = l.filter (fun x => ¬ x.BlockHeight = h) := by
  induction l with
  | nil => simp [insertUnscan, hr]
  | cons x xs ih =>
      unfold insertUnscan
      split
      · rename_i hx
        have hxh : x.BlockHeight = h := hx.1.trans hr
        simp [List.filter_cons, hr, hxh]
      · simp only [List.filter_cons, ih]

theorem rescanExtract_act (env : Env) (h : Nat) (hpos : h ≠ 0) (txs : List String) :
    ∃ a : LedgerAct, a.isRescan ∧
      ∀ s, (rescanExtract env h txs s).unscan = a.run h s.unscan := by
  obtain ⟨a, c, e⟩ := BatchExtractTransaction_act env h hpos "" txs
  cases hres : (BatchExtractTransaction env h "" txs emptyState).1 with
  | some err =>
      refine ⟨a, ?_, fun s => ?_⟩
      · cases a <;> first | exact c | exact absurd c id
      · have hi := BatchExtractTransaction_result_indep env h "" txs s emptyState
        rw [hres] at hi
        simp only [rescanExtract, hi]
        exact e s
  | none =>
      refine ⟨LedgerAct.delete, trivial, fun s => ?_⟩
      have hi := BatchExtractTransaction_result_indep env h "" txs s emptyState
      rw [hres] at hi
      simp only [rescanExtract, hi, DeleteUnscanRecord, e s, LedgerAct.run]
      cases a with
      | keep => rfl
      | delete => exact absurd c id
      | upsert reason => exact filter_height_insertUnscan h _ _ rfl

/-- A rescan round acts on the ledger by one act at its height, the same from
every state. -/
theorem rescanGroup_act (env : Env) (g : Nat × List String) :
    ∃ a : LedgerAct, a.isRescan ∧
      ∀ s, (rescanGroup env s g).unscan = a.run g.1 s.unscan := by
  by_cases h0 : g.1 = 0
  · refine ⟨LedgerAct.keep, trivial, fun s => ?_⟩
    simp [rescanGroup, h0, LedgerAct.run]
  · by_cases hlen : g.2.length = 0
    · cases hh : env.GetBlockHash g.1 with
      | error err =>
          refine ⟨LedgerAct.keep, trivial, fun s => ?_⟩
          simp [rescanGroup, h0, hlen, hh, State.emit, LedgerAct.run]
      | ok hash =>
          cases hb : env.GetBlock hash with
          | error err =>
              refine ⟨LedgerAct.keep, trivial, fun s => ?_⟩
              simp [rescanGroup, h0, hlen, hh, hb, State.emit, LedgerAct.run]
          | ok block =>
              obtain ⟨a, c, e⟩ := rescanExtract_act env g.1 h0 block.tx
              refine ⟨a, c, fun s => ?_⟩
              simp only [rescanGroup, h0, hlen, hh, hb, if_true, if_false]
              rw [e]
              rfl
    · obtain ⟨a, c, e⟩ := rescanExtract_act env g.1 h0 g.2
      refine ⟨a, c, fun s => ?_⟩
      simp only [rescanGroup, h0, hlen, if_false]
      exact e s

theorem insertUnscan_cons_pos (r x : UnscanRecord) (xs : List UnscanRecord)
    (hx : x.BlockHeight = r.BlockHeight ∧ x.TxID = r.TxID) :
    insertUnscan r (x :: xs) = r :: xs := by
  simp only [insertUnscan, hx, and_self, if_true]

theorem insertUnscan_cons_neg (r x : UnscanRecord) (xs : List UnscanRecord)
    (hx : ¬ (x.BlockHeight = r.BlockHeight ∧ x.TxID = r.TxID)) :
    insertUnscan r (x :: xs) = x :: insertUnscan r xs := by
  simp only [insertUnscan, hx, if_false]

theorem atHeight_cons_pos (h : Nat) (x : UnscanRecord) (xs : List UnscanRecord)
    (hx : x.BlockHeight = h) : atHeight h (x :: xs) = x :: atHeight h xs := by
  simp [atHeight, List.filter_cons, hx]

theorem atHeight_cons_neg (h : Nat) (x : UnscanRecord) (xs : List UnscanRecord)
    (hx : ¬ x.BlockHeight = h) : atHeight h (x :: xs) = atHeight h xs := by
  simp [atHeight, List.filter_cons, hx]

theorem atHeight_insertUnscan_self (h : Nat) (r : UnscanRecord) (l : List UnscanRecord)
    (hr : r.BlockHeight = h) :
    atHeight h (insertUnscan r l) = insertUnscan r (atHeight h l) := by
  induction l with
  | nil => simp [insertUnscan, atHeight, hr]
  | cons x xs ih =>
      by_cases hx : x.BlockHeight = r.BlockHeight ∧ x.TxID = r.TxID
      · have hxh : x.BlockHeight = h := hx.1.trans hr
        rw [insertUnscan_cons_pos r x xs hx, atHeight_cons_pos h x xs hxh,
          atHeight_cons_pos h r xs hr, insertUnscan_cons_pos r x _ hx]
      · by_cases hxh : x.BlockHeight = h
        · rw [insertUnscan_cons_neg r x xs hx, atHeight_cons_pos h x xs hxh,
            atHeight_cons_pos h x _ hxh, insertUnscan_cons_neg r x _ hx, ih]
        · rw [insertUnscan_cons_neg r x xs hx, atHeight_cons_neg h x xs hxh,
            atHeight_cons_neg h x _ hxh, ih]

theorem atHeight_filter_self (h : Nat) (l : List UnscanRecord) :
    atHeight h (l.filter (fun r => ¬ r.BlockHeight = h)) = [] := by
  simp only [atHeight, List.filter_filter]
  apply List.filter_eq_nil_iff.mpr
  intro r _
  by_cases hr : r.BlockHeight = h <;> simp [hr]

theorem filter_atHeight_self (h : Nat) (l : List UnscanRecord) :
    (atHeight h l).filter (fun r => ¬ r.BlockHeight = h) = [] := by
  simp only [atHeight, List.filter_filter]
  apply List.filter_eq_nil_iff.mpr
  intro r _
  by_cases hr : r.BlockHeight = h <;> simp [hr]

theorem atHeight_eq_nil (h : Nat) (l : List UnscanRecord) :
    atHeight h l = [] ↔ h ∉ l.map (fun r => r.BlockHeight) := by
  simp only [atHeight, List.filter_eq_nil_iff, List.mem_map, not_exists, not_and,
    decide_eq_true_eq]

/-- An act at height `h` seen at height `h`. -/
theorem LedgerAct.atHeight_run (h : Nat) (a : LedgerAct) (l : List UnscanRecord) :
    atHeight h (a.run h l) = a.run h (atHeight h l) := by
  cases a with
  | keep => rfl
  | upsert reason => exact atHeight_insertUnscan_self h _ l rfl
  | delete =>
      simp only [LedgerAct.run]
      rw [atHeight_filter_self, filter_atHeight_self]

/-- An act repeated does nothing more. -/
theorem LedgerAct.run_idem (h : Nat) (a : LedgerAct) (l : List UnscanRecord) :
    a.run h (a.run h l) = a.run h l := by
  cases a with
  | keep => rfl
  | upsert reason => exact insertUnscan_insertUnscan _ _ l rfl rfl
  | delete => simp [LedgerAct.run, List.filter_filter]

theorem insertUnscan_fix_of_atHeight (h : Nat) (r : UnscanRecord) (l : List UnscanRecord)
    (hr : r.BlockHeight = h)
    (hfix : insertUnscan r (atHeight h l) = atHeight h l) : insertUnscan r l = l := by
  induction l with
  | nil => simp [insertUnscan, atHeight] at hfix
  | cons x xs ih =>
      by_cases hx : x.BlockHeight = r.BlockHeight ∧ x.TxID = r.TxID
      · have hxh : x.BlockHeight = h := hx.1.trans hr
        rw [atHeight_cons_pos h x xs hxh, insertUnscan_cons_pos r x _ hx] at hfix
        rw [insertUnscan_cons_pos r x xs hx, (List.cons.inj hfix).1]
      · by_cases hxh : x.BlockHeight = h
        · rw [atHeight_cons_pos h x xs hxh, insertUnscan_cons_neg r x _ hx] at hfix
          rw [insertUnscan_cons_neg r x xs hx, ih (List.cons.inj hfix).2]
        · rw [atHeight_cons_neg h x xs hxh] at hfix
          rw [insertUnscan_cons_neg r x xs hx, ih hfix]

/-- An act that leaves the records of its height alone leaves the ledger
alone. -/
theorem LedgerAct.run_fix_of_atHeight (h : Nat) (a : LedgerAct) (l : List UnscanRecord)
    (hfix : a.run h (atHeight h l) = atHeight h l) : a.run h l = l := by
  cases a with
  | keep => rfl
  | upsert reason => exact insertUnscan_fix_of_atHeight h _ l rfl hfix
  | delete =>
      simp only [LedgerAct.run] at hfix ⊢
      rw [filter_atHeight_self] at hfix
      have hnil := (atHeight_eq_nil h l).1 hfix.symm
      apply List.filter_eq_self.2
      intro r hr
      have : r.BlockHeight ≠ h := fun e => hnil (List.mem_map.2 ⟨r, hr, e⟩)
      simp [this]

theorem explicitTxids_cons (h : Nat) (x : UnscanRecord) (xs : List UnscanRecord) :
    explicitTxids h (x :: xs) = explicitTxids h [x] ++ explicitTxids h xs :=
  explicitTxids_append h [x] xs

theorem explicitTxids_block (h : Nat) (x : UnscanRecord) (hx : x.TxID = "") :
    explicitTxids h [x] = [] := by
  simp [explicitTxids, hx]

theorem explicitTxids_insertUnscan (h : Nat) (r : UnscanRecord) (l : List UnscanRecord)
    (hr : r.TxID = "") : explicitTxids h (insertUnscan r l) = explicitTxids h l := by
  induction l with
  | nil => simp [insertUnscan, explicitTxids, hr]
  | cons x xs ih =>
      by_cases hx : x.BlockHeight = r.BlockHeight ∧ x.TxID = r.TxID
      · have hxt : x.TxID = "" := hx.2.trans hr
        rw [insertUnscan_cons_pos r x xs hx, explicitTxids_cons h r, explicitTxids_cons h x,
          explicitTxids_block h r hr, explicitTxids_block h x hxt]
      · rw [insertUnscan_cons_neg r x xs hx, explicitTxids_cons h x, explicitTxids_cons h x xs,
          ih]

theorem explicitTxids_atHeight (h : Nat) (l : List UnscanRecord) :
    explicitTxids h (atHeight h l) = explicitTxids h l := by
  simp only [explicitTxids, atHeight, List.filter_filter]
  congr 1
  apply List.filter_congr
  intro r _
  by_cases h1 : r.BlockHeight = h <;> simp [h1]

theorem LedgerAct.mem_run (h : Nat) (a : LedgerAct) (ha : a.isRescan) (l : List UnscanRecord)
    (x : UnscanRecord) (hx : x ∈ a.run h l) :
    x ∈ l ∨ x.Reason = "" ∨ x.Reason = "ExtractData Notify failed." := by
  cases a with
  | keep => exact Or.inl hx
  | delete => exact Or.inl (List.mem_filter.1 hx).1
  | upsert reason =>
      have hmem : ∀ (l : List UnscanRecord),
          x ∈ insertUnscan (NewUnscanRecord h "" reason) l →
            x ∈ l ∨ x = NewUnscanRecord h "" reason := by
        intro l
        induction l with
        | nil => intro hx; simpa [insertUnscan] using hx
        | cons y ys ih =>
            intro hx
            unfold insertUnscan at hx
            split at hx
            · rcases List.mem_cons.1 hx with e | e
              · exact Or.inr e
              · exact Or.inl (List.mem_cons_of_mem _ e)
            · rcases List.mem_cons.1 hx with e | e
              · exact Or.inl (by rw [e]; exact List.mem_cons_self _ _)
              · rcases ih e with e2 | e2
                · exact Or.inl (List.mem_cons_of_mem _ e2)
                · exact Or.inr e2
      rcases hmem l hx with e | e
      · exact Or.inl e
      · right
        rw [e]
        exact ha

/-- The rescan loop over groups of distinct heights, seen at the height of one
of its groups: the ledger at that height has undergone the act of that group
and nothing else. -/
theorem rescanFold_atHeight (env : Env) (gs : List (Nat × List String))
    (hnd : (gs.map Prod.fst).Nodup) (g : Nat × List String) (hg : g ∈ gs) (a : LedgerAct)
    (ha : ∀ s, (rescanGroup env s g).unscan = a.run g.1 s.unscan) (s : State) :
    atHeight g.1 (gs.foldl (rescanGroup env) s).unscan = a.run g.1 (atHeight g.1 s.unscan) := by
  induction gs generalizing s with
  | nil => simp at hg
  | cons x rest ih =>
      simp only [List.map_cons, List.nodup_cons] at hnd
      obtain ⟨hx, hrest⟩ := hnd
      simp only [List.foldl_cons]
      rcases List.mem_cons.mp hg with e | e
      · subst e
        have hne : ∀ y ∈ rest, y.1 ≠ g.1 := by
          intro y hy e2
          exact hx (List.mem_map.mpr ⟨y, hy, e2⟩)
        rw [(rescanFold_ne env g.1 rest (rescanGroup env s g) hne).1, ha,
          LedgerAct.atHeight_run]
      · have hxne : x.1 ≠ g.1 := by
          intro e2
          exact hx (List.mem_map.mpr ⟨g, e, e2.symm⟩)
        rw [ih hrest e, (rescanGroup_ne env g.1 s x hxne).1]

/-- A rescan loop all of whose rounds leave the ledger `U` alone ends with the
ledger `U`. -/
theorem rescanFold_fixed (env : Env) (gs : List (Nat × List String)) (U : List UnscanRecord)
    (hfix : ∀ g ∈ gs, ∀ s : State, s.unscan = U → (rescanGroup env s g).unscan = U)
    (s : State) (hs : s.unscan = U) :
    (gs.foldl (rescanGroup env) s).unscan = U := by
  induction gs generalizing s with
  | nil => exact hs
  | cons x rest ih =>
      simp only [List.foldl_cons]
      exact ih (fun g hg => hfix g (List.mem_cons_of_mem _ hg)) _
        (hfix x (List.mem_cons_self _ _) s hs)

/-- The ledger after the rescan loop, height by height. -/
theorem rescanLoop_atHeight (env : Env) (s : State)
    (hperm : (env.mapOrder (buildBlockMap s.unscan)).Perm (buildBlockMap s.unscan)) :
    (∀ k, k ∉ s.unscan.map (fun r => r.BlockHeight) →
      atHeight k (rescanLoop env s).unscan = []) ∧
    (∀ k, k ∈ s.unscan.map (fun r => r.BlockHeight) →
      ∀ a : LedgerAct,
        (∀ t, (rescanGroup env t (k, explicitTxids k s.unscan)).unscan = a.run k t.unscan) →
        atHeight k (rescanLoop env s).unscan = a.run k (atHeight k s.unscan)) := by
  obtain ⟨hnd, hkeys, hval⟩ := buildBlockMap_spec s.unscan
  have hnd2 : ((env.mapOrder (buildBlockMap s.unscan)).map Prod.fst).Nodup :=
    (hperm.map Prod.fst).nodup_iff.mpr hnd
  refine ⟨?_, ?_⟩
  · intro k hk
    have hne : ∀ g ∈ env.mapOrder (buildBlockMap s.unscan), g.1 ≠ k := by
      intro g hg e
      have hg2 : g ∈ buildBlockMap s.unscan := hperm.mem_iff.mp hg
      exact hk ((hkeys k).1 (List.mem_map.mpr ⟨g, hg2, e⟩))
    have := (rescanFold_ne env k _ s hne).1
    unfold rescanLoop GetUnscanRecords
    rw [this]
    exact (atHeight_eq_nil k s.unscan).2 hk
  · intro k hk a ha
    obtain ⟨g, hg, hgk⟩ := List.mem_map.mp ((hkeys k).2 hk)
    have hgeq : g = (k, explicitTxids k s.unscan) := by
      have := hval g.1 g.2 hg
      rw [hgk] at this
      exact Prod.ext hgk this
    subst hgeq
    have hg2 : (k, explicitTxids k s.unscan) ∈ env.mapOrder (buildBlockMap s.unscan) :=
      hperm.mem_iff.mpr hg
    exact rescanFold_atHeight env _ hnd2 _ hg2 a ha s

/-- The rescan loop writes no record that the purge would delete: every record
of the ledger after the loop was there before or carries one of the reasons
`""` and `"ExtractData Notify failed."`. -/
theorem rescanLoop_mem (env : Env) (s : State)
    (hperm : (env.mapOrder (buildBlockMap s.unscan)).Perm (buildBlockMap s.unscan))
    (x : UnscanRecord) (hx : x ∈ (rescanLoop env s).unscan) :
    x ∈ s.unscan ∨ x.Reason = "" ∨ x.Reason = "ExtractData Notify failed." := by
  obtain ⟨h1, h2⟩ := rescanLoop_atHeight env s hperm
  have hxa : x ∈ atHeight x.BlockHeight (rescanLoop env s).unscan := by
    simp [atHeight, hx]
  by_cases hk : x.BlockHeight ∈ s.unscan.map (fun r => r.BlockHeight)
  · obtain ⟨a, c, e⟩ := rescanGroup_act env (x.BlockHeight, explicitTxids x.BlockHeight s.unscan)
    rw [h2 x.BlockHeight hk a e] at hxa
    rcases LedgerAct.mem_run _ a c _ x hxa with m | m
    · exact Or.inl (List.mem_filter.1 m).1
    · exact Or.inr m
  · rw [h1 x.BlockHeight hk] at hxa
    simp at hxa

theorem purge_clean (s : State)
    (hclean : ∀ r ∈ s.unscan, HasPrefix r.Reason notFindTXReason = false) :
    (DeleteUnscanRecordNotFindTX s).unscan = s.unscan := by
  simp only [DeleteUnscanRecordNotFindTX]
  apply List.filter_eq_self.2
  intro r hr
  simp [hclean r hr]

theorem rescanLoop_clean (env : Env) (s : State)
    (hperm : (env.mapOrder (buildBlockMap s.unscan)).Perm (buildBlockMap s.unscan))
    (hclean : ∀ r ∈ s.unscan, HasPrefix r.Reason notFindTXReason = false) :
    ∀ r ∈ (rescanLoop env s).unscan, HasPrefix r.Reason notFindTXReason = false := by
  intro r hr
  rcases rescanLoop_mem env s hperm r hr with m | m | m
  · exact hclean r m
  · rw [m]; decide
  · rw [m]; decide

/-- C11 (counterexample): the ledger holds one record, at height 7, naming
transaction `Tz` with the not-found reason; `Tz` cannot be fetched, block 7
holds the extractable `Ta`.  The first run extracts `[Tz]`, fails, writes the
block-level record `(7, "", "")` and purges the `Tz` record; the second run
therefore rescans the whole block 7, succeeds and deletes the record: the store
after the second run is empty, the store after the first is not. -/
theorem C11_counterexample :
    (RescanFailedRecord rescanEnv notFoundAt7State).unscan = [NewUnscanRecord 7 "" ""] ∧
    (RescanFailedRecord rescanEnv (RescanFailedRecord rescanEnv notFoundAt7State)).unscan
      = [] ∧
    (RescanFailedRecord rescanEnv (RescanFailedRecord rescanEnv notFoundAt7State)).unscan
      ≠ (RescanFailedRecord rescanEnv notFoundAt7State).unscan := by
  refine ⟨by decide, by decide, by decide⟩

/-- C11 (amended): for every initial ledger none of whose records carries a
reason starting with the not-found reason (the reason purged at the end of a
run), with a remote node and observers that answer identically on both runs,
the results of a batch arriving in the same order on both runs, and whatever
the order in which each run visits its groups: running `RescanFailedRecord`
twice in succession leaves the ledger after the second run equal to the ledger
after the first run. -/
theorem C11_rescan_idempotent (env : Env) (s : State)
    (hperm : (env.mapOrder (buildBlockMap s.unscan)).Perm (buildBlockMap s.unscan))
    (hperm2 : (env.mapOrder (buildBlockMap (RescanFailedRecord env s).unscan)).Perm
      (buildBlockMap (RescanFailedRecord env s).unscan))
    (hclean : ∀ r ∈ s.unscan, HasPrefix r.Reason notFindTXReason = false) :
    (RescanFailedRecord env (RescanFailedRecord env s)).unscan
      = (RescanFailedRecord env s).unscan := by
  -- the first run: the purge deletes nothing
  have hc1 := rescanLoop_clean env s hperm hclean
  have hU1 : (RescanFailedRecord env s).unscan = (rescanLoop env s).unscan :=
    purge_clean _ hc1
  have hc2 : ∀ r ∈ (RescanFailedRecord env s).unscan,
      HasPrefix r.Reason notFindTXReason = false := by
    rw [hU1]; exact hc1
  obtain ⟨f1, f2⟩ := rescanLoop_atHeight env s hperm
  obtain ⟨_, hkeys2, hval2⟩ := buildBlockMap_spec (RescanFailedRecord env s).unscan
  -- the second run: every round leaves the ledger alone
  have hfix : ∀ g ∈ env.mapOrder (buildBlockMap (RescanFailedRecord env s).unscan),
      ∀ t : State, t.unscan = (RescanFailedRecord env s).unscan →
        (rescanGroup env t g).unscan = (RescanFailedRecord env s).unscan := by
    intro g hg t ht
    have hg2 : g ∈ buildBlockMap (RescanFailedRecord env s).unscan := hperm2.mem_iff.mp hg
    have hk1 : g.1 ∈ (RescanFailedRecord env s).unscan.map (fun r => r.BlockHeight) :=
      (hkeys2 g.1).1 (List.mem_map.mpr ⟨g, hg2, rfl⟩)
    have hg2v : g.2 = explicitTxids g.1 (RescanFailedRecord env s).unscan := hval2 g.1 g.2 hg2
    have hnn : atHeight g.1 (rescanLoop env s).unscan ≠ [] := by
      intro e
      rw [← hU1] at e
      exact (atHeight_eq_nil _ _).1 e hk1
    have hk0 : g.1 ∈ s.unscan.map (fun r => r.BlockHeight) := by
      by_contra hk
      exact hnn (f1 g.1 hk)
    obtain ⟨a, c, e⟩ := rescanGroup_act env (g.1, explicitTxids g.1 s.unscan)
    have hat := f2 g.1 hk0 a e
    have hexp : explicitTxids g.1 (rescanLoop env s).unscan = explicitTxids g.1 s.unscan := by
      rw [← explicitTxids_atHeight, hat, ← explicitTxids_atHeight g.1 s.unscan]
      cases a with
      | keep => rfl
      | upsert reason => exact explicitTxids_insertUnscan _ _ _ rfl
      | delete =>
          rw [hat] at hnn
          exact absurd (filter_atHeight_self g.1 s.unscan) hnn
    have hgeq : g = (g.1, explicitTxids g.1 s.unscan) := by
      refine Prod.ext rfl ?_
      rw [hg2v, hU1, hexp]
    rw [hgeq, e t, ht, hU1]
    apply LedgerAct.run_fix_of_atHeight
    rw [hat, LedgerAct.run_idem]
  have hloop2 : (rescanLoop env (RescanFailedRecord env s)).unscan
      = (RescanFailedRecord env s).unscan :=
    rescanFold_fixed env _ _ hfix _ rfl
  have hc3 : ∀ r ∈ (rescanLoop env (RescanFailedRecord env s)).unscan,
      HasPrefix r.Reason notFindTXReason = false := by
    rw [hloop2]; exact hc2
  have hU2 : (RescanFailedRecord env (RescanFailedRecord env s)).unscan
      = (rescanLoop env (RescanFailedRecord env s)).unscan :=
    purge_clean _ hc3
  rw [hU2, hloop2]

/-- C11 (witness): block 7 holds `Tz`, which cannot be fetched, and `Tb` can;
from the ledger `[(7, "", "timeout"), (8, "Tb", "timeout")]` both runs end with
the ledger `[(7, "", "")]`. -/
theorem C11_rescan_idempotent_witness :
    (RescanFailedRecord rescanFailEnv rescanState).unscan = [NewUnscanRecord 7 "" ""] ∧
    (RescanFailedRecord rescanFailEnv (RescanFailedRecord rescanFailEnv rescanState)).unscan
      = (RescanFailedRecord rescanFailEnv rescanState).unscan :=
  ⟨by decide,
   C11_rescan_idempotent rescanFailEnv rescanState (List.Perm.refl _) (List.Perm.refl _)
     (by decide)⟩

/-- The counter `failed` after the save rounds of a list of transactions: one
for every result with `Success == false`. -/
theorem batchFold_failed_count (env : Env) (h : Nat) (hash : String) (l : List String)
    (acc : State × Nat) :
    (l.foldl (extractAndSave env h hash) acc).2
      = acc.2 + (l.filter (fun txid =>
          ! (ExtractTransaction env h hash txid env.ScanAddressFunc).1.Success)).length := by
  induction l generalizing acc with
  | nil => simp
  | cons x xs ih =>
      rw [List.foldl_cons, ih, extractAndSave_failed]
      cases hs : (ExtractTransaction env h hash x env.ScanAddressFunc).1.Success with
      | false =>
          simp only [List.filter_cons, hs, Bool.not_false, if_true, List.length_cons]
          simp only [Bool.false_eq_true, if_false]
          omega
      | true =>
          simp only [List.filter_cons, hs, Bool.not_true, if_true, Bool.false_eq_true, if_false]
          omega

/-- C21: for every batch extraction whose results arrive in some order of
`txs`: it returns an error if and only if `txs` is empty or some transaction of
`txs` has an `ExtractResult` with `Success == false`, whatever the observers
answer; with `txs` empty it returns at once (the state afterwards is the state
before, with only the call itself logged: no transaction fetched, no observer
notified, no record written); and `newExtractDataNotify` returns nil for every
delivery. -/
theorem C21_batch_error_iff (env : Env) (height : Nat) (hash : String) (txs : List String)
    (s : State) (hperm : (env.arrival txs).Perm txs) :
    ((BatchExtractTransaction env height hash txs s).1.isSome ↔
      txs = [] ∨
      ∃ txid ∈ txs,
        (ExtractTransaction env height hash txid env.ScanAddressFunc).1.Success = false) ∧
    (txs = [] →
      (BatchExtractTransaction env height hash txs s).2
        = s.emit (Event.BatchExtractTransaction height hash [])) ∧
    (∀ ed t, (newExtractDataNotify env height ed t).1 = none) := by
  refine ⟨?_, ?_, fun _ _ => rfl⟩
  · by_cases hlen : txs.length = 0
    · have hnil : txs = [] := List.length_eq_zero.mp hlen
      simp [BatchExtractTransaction, hnil]
    · have hne : txs ≠ [] := fun e => hlen (by rw [e]; rfl)
      have hcount := batchFold_failed_count env height hash (env.arrival txs)
        (s.emit (Event.BatchExtractTransaction height hash txs), 0)
      simp only [BatchExtractTransaction, hlen, if_false]
      rw [hcount]
      simp only [Nat.zero_add, hne, false_or]
      constructor
      · intro hsome
        by_contra hnone
        have hall : (env.arrival txs).filter (fun txid =>
            ! (ExtractTransaction env height hash txid env.ScanAddressFunc).1.Success) = [] := by
          apply List.filter_eq_nil_iff.mpr
          intro txid hx
          have hx2 : txid ∈ txs := hperm.mem_iff.mp hx
          cases hsucc : (ExtractTransaction env height hash txid env.ScanAddressFunc).1.Success
          · exact absurd ⟨txid, hx2, hsucc⟩ hnone
          · simp
        rw [hall] at hsome
        simp at hsome
      · rintro ⟨txid, hx, hsucc⟩
        have hx2 : txid ∈ env.arrival txs := hperm.mem_iff.mpr hx
        have hmem : txid ∈ (env.arrival txs).filter (fun txid =>
            ! (ExtractTransaction env height hash txid env.ScanAddressFunc).1.Success) := by
          simp [List.mem_filter, hx2, hsucc]
        have hpos : 0 < ((env.arrival txs).filter (fun txid =>
            ! (ExtractTransaction env height hash txid
              env.ScanAddressFunc).1.Success)).length :=
          List.length_pos_of_mem hmem
        simp [hpos]
  · intro hnil
    subst hnil
    simp [BatchExtractTransaction]

/-- C21 (witness): the only observer rejects every notification; the batch
`["Tok"]`, whose transaction is extracted, returns nil all the same (and leaves
the record of the failed notification), while the batch `["Tbad", "Tok"]`
returns an error because `Tbad` cannot be fetched. -/
theorem C21_batch_error_iff_witness :
    (BatchExtractTransaction observerDownEnv 5 "h5" ["Tok"] emptyState).1 = none ∧
    (BatchExtractTransaction observerDownEnv 5 "h5" ["Tok"] emptyState).2.unscan
      = [NewUnscanRecord 5 "" "ExtractData Notify failed."] ∧
    (BatchExtractTransaction observerDownEnv 5 "h5" ["Tbad", "Tok"] emptyState).1.isSome
      = true :=
  ⟨by decide, by decide,
   ((C21_batch_error_iff observerDownEnv 5 "h5" ["Tbad", "Tok"] emptyState
      (List.Perm.refl _)).1).2 (Or.inr ⟨"Tbad", by decide, by decide⟩)⟩

/-- One round of the receipt loop of `extractTokenTransfer`, in terms of the
records it builds. -/
theorem extractTokenReceipt_eq (env : Env) (trx : Transaction)
    (scan : String → String × Bool) (createAt : Nat) (res : ExtractResult)
    (r : TokenReceipt) :
    (extractTokenReceipt env trx scan createAt res r).extractContractData
      = (bucketModifyIf (scan r.To)
          (fun ed => { ed with TxOutputs := ed.TxOutputs ++ [tokenTxOutPut env trx createAt r] })
          (bucketModifyIf (scan r.From)
            (fun ed => { ed with TxInputs := ed.TxInputs ++ [tokenTxInput env trx createAt r] })
            res.extractContractData)).map
          (fun kv => (kv.1, { kv.2 with Transaction := some (tokenSummary env trx r) })) := by
  unfold extractTokenReceipt bucketModifyIf
  simp only
  split <;> split <;> rfl

theorem tokenFold_eq (env : Env) (trx : Transaction) (scan : String → String × Bool)
    (createAt : Nat) (l : List TokenReceipt) (res : ExtractResult) :
    (l.foldl (extractTokenReceipt env trx scan createAt) res).extractContractData
      = l.foldl (tokenStep env trx scan createAt) res.extractContractData := by
  induction l generalizing res with
  | nil => rfl
  | cons r rest ih =>
      rw [List.foldl_cons, List.foldl_cons, ih, extractTokenReceipt_eq]
      rfl

theorem keys_mapBuckets (m : List (String × TxExtractData))
    (g : TxExtractData → TxExtractData) :
    (m.map (fun kv => (kv.1, g kv.2))).map Prod.fst = m.map Prod.fst := by
  simp [List.map_map, Function.comp]

theorem bucketGet_mapBuckets (m : List (String × TxExtractData))
    (g : TxExtractData → TxExtractData) (k : String) :
    bucketGet (m.map (fun kv => (kv.1, g kv.2))) k = (bucketGet m k).map g := by
  induction m with
  | nil => rfl
  | cons x xs ih =>
      obtain ⟨k0, ed0⟩ := x
      simp only [List.map_cons, bucketGet]
      split
      · rfl
      · exact ih

theorem mem_keys_bucketModifyIf (sk : String × Bool) (f : TxExtractData → TxExtractData)
    (m : List (String × TxExtractData)) (k : String) :
    k ∈ (bucketModifyIf sk f m).map Prod.fst ↔ sk = (k, true) ∨ k ∈ m.map Prod.fst := by
  obtain ⟨k1, b⟩ := sk
  cases b with
  | false => simp [bucketModifyIf]
  | true =>
      simp only [bucketModifyIf, if_true, mem_keys_bucketModify, Prod.mk.injEq, and_true]
      constructor
      · rintro (e | e)
        · exact Or.inl e.symm
        · exact Or.inr e
      · rintro (e | e)
        · exact Or.inl e.symm
        · exact Or.inr e

theorem nodup_bucketModifyIf (sk : String × Bool) (f : TxExtractData → TxExtractData)
    (m : List (String × TxExtractData)) (h : (m.map Prod.fst).Nodup) :
    ((bucketModifyIf sk f m).map Prod.fst).Nodup := by
  unfold bucketModifyIf
  split
  · exact nodup_bucketModify _ _ _ h
  · exact h

theorem bucketD_bucketModifyIf (sk : String × Bool) (f : TxExtractData → TxExtractData)
    (m : List (String × TxExtractData)) (k : String) :
    bucketD (bucketModifyIf sk f m) k = if sk = (k, true) then f (bucketD m k) else bucketD m k := by
  obtain ⟨k1, b⟩ := sk
  cases b with
  | false => simp [bucketModifyIf]
  | true =>
      simp only [bucketModifyIf, if_true, bucketD_modify, Prod.mk.injEq, and_true]
      by_cases e : k = k1
      · subst e
        simp
      · have e2 : ¬ k1 = k := fun h => e h.symm
        simp [e, e2]

theorem tokenStep_unfold (env : Env) (trx : Transaction) (scan : String → String × Bool)
    (createAt : Nat) (m : List (String × TxExtractData)) (r : TokenReceipt) :
    tokenStep env trx scan createAt m r
      = (bucketModifyIf (scan r.To)
          (fun ed => { ed with TxOutputs := ed.TxOutputs ++ [tokenTxOutPut env trx createAt r] })
          (bucketModifyIf (scan r.From)
            (fun ed => { ed with TxInputs := ed.TxInputs ++ [tokenTxInput env trx createAt r] })
            m)).map
          (fun kv => (kv.1, withSummary (tokenSummary env trx r) kv.2)) := rfl

/-- One round of the receipt loop, bucket by bucket. -/
theorem tokenStep_buckets (env : Env) (trx : Transaction) (scan : String → String × Bool)
    (createAt : Nat) (m : List (String × TxExtractData)) (r : TokenReceipt) :
    ((m.map Prod.fst).Nodup → ((tokenStep env trx scan createAt m r).map Prod.fst).Nodup) ∧
    (∀ k, k ∈ (tokenStep env trx scan createAt m r).map Prod.fst ↔
      k ∈ m.map Prod.fst ∨ scan r.From = (k, true) ∨ scan r.To = (k, true)) ∧
    (∀ k,
      (bucketD (tokenStep env trx scan createAt m r) k).TxInputs
        = (bucketD m k).TxInputs ++
          (if scan r.From = (k, true) then [tokenTxInput env trx createAt r] else []) ∧
      (bucketD (tokenStep env trx scan createAt m r) k).TxOutputs
        = (bucketD m k).TxOutputs ++
          (if scan r.To = (k, true) then [tokenTxOutPut env trx createAt r] else [])) ∧
    (∀ kv ∈ tokenStep env trx scan createAt m r,
      kv.2.Transaction = some (tokenSummary env trx r)) := by
  rw [tokenStep_unfold]
  refine ⟨?_, ?_, ?_, ?_⟩
  · intro hnd
    rw [keys_mapBuckets]
    exact nodup_bucketModifyIf _ _ _ (nodup_bucketModifyIf _ _ _ hnd)
  · intro k
    rw [keys_mapBuckets, mem_keys_bucketModifyIf, mem_keys_bucketModifyIf]
    constructor
    · rintro (e | e | e)
      · exact Or.inr (Or.inr e)
      · exact Or.inr (Or.inl e)
      · exact Or.inl e
    · rintro (e | e | e)
      · exact Or.inr (Or.inr e)
      · exact Or.inr (Or.inl e)
      · exact Or.inl e
  · intro k
    have hproj : ∀ mm : List (String × TxExtractData),
        (bucketD (mm.map (fun kv => (kv.1, withSummary (tokenSummary env trx r) kv.2)))
            k).TxInputs = (bucketD mm k).TxInputs ∧
        (bucketD (mm.map (fun kv => (kv.1, withSummary (tokenSummary env trx r) kv.2)))
            k).TxOutputs = (bucketD mm k).TxOutputs := by
      intro mm
      unfold bucketD
      rw [bucketGet_mapBuckets]
      cases bucketGet mm k <;> exact ⟨rfl, rfl⟩
    obtain ⟨p1, p2⟩ := hproj (bucketModifyIf (scan r.To)
          (fun ed => { ed with TxOutputs := ed.TxOutputs ++ [tokenTxOutPut env trx createAt r] })
          (bucketModifyIf (scan r.From)
            (fun ed => { ed with TxInputs := ed.TxInputs ++ [tokenTxInput env trx createAt r] })
            m))
    rw [p1, p2, bucketD_bucketModifyIf, bucketD_bucketModifyIf]
    by_cases e1 : scan r.From = (k, true) <;> by_cases e2 : scan r.To = (k, true) <;>
      simp [e1, e2]
  · intro kv hkv
    obtain ⟨kv0, _, rfl⟩ := List.mem_map.1 hkv
    rfl

/-- The receipt loop of `extractTokenTransfer`, bucket by bucket. -/
theorem tokenFold_buckets (env : Env) (trx : Transaction) (scan : String → String × Bool)
    (createAt : Nat) (l : List TokenReceipt) (m : List (String × TxExtractData)) :
    ((m.map Prod.fst).Nodup →
      ((l.foldl (tokenStep env trx scan createAt) m).map Prod.fst).Nodup) ∧
    (∀ k, k ∈ (l.foldl (tokenStep env trx scan createAt) m).map Prod.fst ↔
      k ∈ m.map Prod.fst ∨ ∃ r ∈ l, scan r.From = (k, true) ∨ scan r.To = (k, true)) ∧
    (∀ k,
      (bucketD (l.foldl (tokenStep env trx scan createAt) m) k).TxInputs
        = (bucketD m k).TxInputs ++
          (l.filter (fun r => scan r.From = (k, true))).map (tokenTxInput env trx createAt) ∧
      (bucketD (l.foldl (tokenStep env trx scan createAt) m) k).TxOutputs
        = (bucketD m k).TxOutputs ++
          (l.filter (fun r => scan r.To = (k, true))).map (tokenTxOutPut env trx createAt)) := by
  induction l generalizing m with
  | nil => simp
  | cons r rest ih =>
      obtain ⟨s1, s2, s3, _⟩ := tokenStep_buckets env trx scan createAt m r
      obtain ⟨h1, h2, h3⟩ := ih (tokenStep env trx scan createAt m r)
      simp only [List.foldl_cons]
      refine ⟨fun hnd => h1 (s1 hnd), ?_, ?_⟩
      · intro k
        rw [h2 k, s2 k]
        constructor
        · rintro ((e | e) | ⟨x, hx, e⟩)
          · exact Or.inl e
          · exact Or.inr ⟨r, List.mem_cons_self _ _, e⟩
          · exact Or.inr ⟨x, List.mem_cons_of_mem _ hx, e⟩
        · rintro (e | ⟨x, hx, e⟩)
          · exact Or.inl (Or.inl e)
          · rcases List.mem_cons.mp hx with hv | hv
            · subst hv
              exact Or.inl (Or.inr e)
            · exact Or.inr ⟨x, hv, e⟩
      · intro k
        obtain ⟨a, b⟩ := h3 k
        obtain ⟨c, d⟩ := s3 k
        rw [a, b, c, d]
        refine ⟨?_, ?_⟩
        · by_cases e : scan r.From = (k, true) <;> simp [List.filter_cons, e]
        · by_cases e : scan r.To = (k, true) <;> simp [List.filter_cons, e]

/-- C22: for every transaction with `isQRC20 = true` whose token receipts are
`pre ++ [rn]` (so `rn` is the last), extracted into a result without token
buckets: the buckets of `extractContractData` have distinct keys; a key has a
bucket exactly when the sender or the recipient of some receipt is watched
under it; every bucket, also one that only a receipt of `pre` touched, carries
the transaction synthesized from the last receipt `rn`
(`From = [rn.from:rn.amount]`, `To = [rn.to:rn.amount]`, `TxID = rn.txHash`);
the inputs (outputs) of the bucket of `k` are the records built for the
receipts whose sender (recipient) is watched under `k`, in receipt order, every
one with `Index = 0`; and the records built for two receipts with the same
`txHash` and contract address have equal sids. -/
theorem C22_last_receipt_summary (env : Env) (trx : Transaction) (res : ExtractResult)
    (scan : String → String × Bool) (pre : List TokenReceipt) (rn : TokenReceipt)
    (hq : trx.Isqrc20Transfer = true) (hrs : trx.TokenReceipts = pre ++ [rn])
    (hempty : res.extractContractData = []) :
    (((extractTokenTransfer env (some trx) res scan).extractContractData.map Prod.fst).Nodup) ∧
    (∀ k, k ∈ (extractTokenTransfer env (some trx) res scan).extractContractData.map Prod.fst ↔
      ∃ r ∈ pre ++ [rn], scan r.From = (k, true) ∨ scan r.To = (k, true)) ∧
    (∀ k ed, (k, ed) ∈ (extractTokenTransfer env (some trx) res scan).extractContractData →
      (∃ tx, ed.Transaction = some tx ∧
        tx.From = [rn.From ++ ":" ++ rn.Amount] ∧ tx.To = [rn.To ++ ":" ++ rn.Amount] ∧
        tx.TxID = rn.TxHash) ∧
      ed.TxInputs = ((pre ++ [rn]).filter (fun r => scan r.From = (k, true))).map
        (tokenTxInput env trx env.now) ∧
      ed.TxOutputs = ((pre ++ [rn]).filter (fun r => scan r.To = (k, true))).map
        (tokenTxOutPut env trx env.now) ∧
      (∀ x ∈ ed.TxInputs, x.Index = 0) ∧ (∀ x ∈ ed.TxOutputs, x.Index = 0)) ∧
    (∀ r1 r2 : TokenReceipt, r1.TxHash = r2.TxHash → r1.ContractAddress = r2.ContractAddress →
      (tokenTxInput env trx env.now r1).Sid = (tokenTxInput env trx env.now r2).Sid ∧
      (tokenTxOutPut env trx env.now r1).Sid = (tokenTxOutPut env trx env.now r2).Sid) := by
  have hecd : (extractTokenTransfer env (some trx) res scan).extractContractData
      = (pre ++ [rn]).foldl (tokenStep env trx scan env.now) [] := by
    simp only [extractTokenTransfer, hq, if_true, hrs]
    rw [tokenFold_eq, hempty]
  rw [hecd]
  obtain ⟨h1, h2, h3⟩ := tokenFold_buckets env trx scan env.now (pre ++ [rn]) []
  have hnd := h1 (by simp)
  refine ⟨hnd, ?_, ?_, ?_⟩
  · intro k
    rw [h2 k]
    simp
  · intro k ed hmem
    have hD := bucketD_of_mem _ k ed hnd hmem
    obtain ⟨a, b⟩ := h3 k
    rw [hD] at a b
    have ha : ed.TxInputs = ((pre ++ [rn]).filter (fun r => scan r.From = (k, true))).map
        (tokenTxInput env trx env.now) := by
      rw [a]; simp [bucketD, bucketGet, openwallet.NewBlockExtractData]
    have hb : ed.TxOutputs = ((pre ++ [rn]).filter (fun r => scan r.To = (k, true))).map
        (tokenTxOutPut env trx env.now) := by
      rw [b]; simp [bucketD, bucketGet, openwallet.NewBlockExtractData]
    refine ⟨?_, ha, hb, ?_, ?_⟩
    · rw [List.foldl_append] at hmem
      simp only [List.foldl_cons, List.foldl_nil] at hmem
      obtain ⟨_, _, _, s4⟩ := tokenStep_buckets env trx scan env.now
        (pre.foldl (tokenStep env trx scan env.now) []) rn
      exact ⟨tokenSummary env trx rn, s4 (k, ed) hmem, rfl, rfl, rfl⟩
    · intro x hx
      rw [ha] at hx
      obtain ⟨r, _, rfl⟩ := List.mem_map.1 hx
      rfl
    · intro x hx
      rw [hb] at hx
      obtain ⟨r, _, rfl⟩ := List.mem_map.1 hx
      rfl
  · intro r1 r2 e1 e2
    simp [tokenTxInput, tokenTxOutPut, e1, e2]

/-- C22 (witness): `Tq2` carries two receipts with the same hash and contract;
the bucket `acct1`, touched by the first receipt only, carries the transaction
of the second (`U:40` to `V:40`), and the inputs built for the two receipts
have the same sid. -/
theorem C22_last_receipt_summary_witness :
    (ExtractTransaction twoReceiptEnv 7 "hq" "Tq2"
        twoReceiptEnv.ScanAddressFunc).1.extractContractData.map
      (fun kv => (kv.1, kv.2.TxInputs.map (fun x => (x.Address, x.Index, x.Sid))))
      = [("acct1", [("W", 0, "in:Tq2:0")]), ("acct3", [("U", 0, "in:Tq2:0")]),
         ("acct2", [])] ∧
    (ExtractTransaction twoReceiptEnv 7 "hq" "Tq2"
        twoReceiptEnv.ScanAddressFunc).1.extractContractData.map
      (fun kv => (kv.1, kv.2.Transaction.map (fun tx => (tx.From, tx.To, tx.TxID))))
      = [("acct1", some (["U:40"], ["V:40"], "Tq2")),
         ("acct3", some (["U:40"], ["V:40"], "Tq2")),
         ("acct2", some (["U:40"], ["V:40"], "Tq2"))] ∧
    ((extractTokenTransfer twoReceiptEnv
        (some { TxID := "Tq2", BlockHash := "hq", BlockHeight := 7, Confirmations := 1,
                Blocktime := 0, Isqrc20Transfer := true,
                TokenReceipts := [{ TxHash := "Tq2", ContractAddress := "c0ffee", From := "W",
                                    To := "X", Amount := "250", BlockHeight := 7,
                                    BlockHash := "hq" },
                                  { TxHash := "Tq2", ContractAddress := "c0ffee", From := "U",
                                    To := "V", Amount := "40", BlockHeight := 7,
                                    BlockHash := "hq" }],
                Vins := [], Vouts := [] })
        (freshResult 7 "Tq2") twoReceiptEnv.ScanAddressFunc).extractContractData.map
        Prod.fst).Nodup :=
  ⟨by decide, by decide,
   (C22_last_receipt_summary twoReceiptEnv
      { TxID := "Tq2", BlockHash := "hq", BlockHeight := 7, Confirmations := 1,
        Blocktime := 0, Isqrc20Transfer := true,
        TokenReceipts := [{ TxHash := "Tq2", ContractAddress := "c0ffee", From := "W",
                            To := "X", Amount := "250", BlockHeight := 7,
                            BlockHash := "hq" },
                          { TxHash := "Tq2", ContractAddress := "c0ffee", From := "U",
                            To := "V", Amount := "40", BlockHeight := 7,
                            BlockHash := "hq" }],
        Vins := [], Vouts := [] }
      (freshResult 7 "Tq2") twoReceiptEnv.ScanAddressFunc
      [{ TxHash := "Tq2", ContractAddress := "c0ffee", From := "W",
         To := "X", Amount := "250", BlockHeight := 7, BlockHash := "hq" }]
      { TxHash := "Tq2", ContractAddress := "c0ffee", From := "U",
        To := "V", Amount := "40", BlockHeight := 7, BlockHash := "hq" }
      rfl rfl rfl).1⟩

theorem hashFetches_emit (s : State) (e : Event) (he : hashFetches [e] = []) :
    hashFetches (s.emit e).log = hashFetches s.log := by
  simp [State.emit, hashFetches_append, he]

theorem batchCalls_emit (s : State) (e : Event) (he : batchCalls [e] = []) :
    batchCalls (s.emit e).log = batchCalls s.log := by
  simp [State.emit, batchCalls_append, he]

/-- The calls logged by the end of a rescan round: the batch extraction with
the empty block hash, and no hash fetch. -/
theorem rescanExtract_calls (env : Env) (h : Nat) (txs : List String) (s : State) :
    batchCalls (rescanExtract env h txs s).log = batchCalls s.log ++ [(h, "", txs)] ∧
    hashFetches (rescanExtract env h txs s).log = hashFetches s.log := by
  have hlog : (rescanExtract env h txs s).log = (BatchExtractTransaction env h "" txs s).2.log := by
    unfold rescanExtract
    simp only
    split <;> rfl
  rw [hlog]
  refine ⟨batchCalls_batch env h "" txs s, ?_⟩
  rw [(BatchExtractTransaction_frame env h "" txs s).hashFetches]
  exact hashFetches_emit s _ rfl

/-- The calls logged by one round of the rescan loop. -/
theorem rescanGroup_calls (env : Env) (s : State) (g : Nat × List String) :
    batchCalls (rescanGroup env s g).log = batchCalls s.log ++ rescanCalls env g ∧
    hashFetches (rescanGroup env s g).log = hashFetches s.log ++ rescanFetches g := by
  unfold rescanGroup rescanCalls rescanFetches specRescanTxs
  simp only
  by_cases h0 : g.1 = 0
  · simp [h0]
  · simp only [h0, if_false, ne_eq, not_false_eq_true, true_and]
    by_cases hlen : g.2.length = 0
    · have hnil : g.2 = [] := List.length_eq_zero.mp hlen
      simp only [hlen, if_true]
      rw [if_pos hnil]
      have b1 : batchCalls (s.emit (Event.GetBlockHash g.1)).log = batchCalls s.log :=
        batchCalls_emit s _ rfl
      have f1 : hashFetches (s.emit (Event.GetBlockHash g.1)).log
          = hashFetches s.log ++ [g.1] := by
        simp [State.emit, hashFetches_append, hashFetches]
      cases env.GetBlockHash g.1 with
      | error e =>
          dsimp only
          exact ⟨by rw [b1]; simp, f1⟩
      | ok hash =>
          dsimp only
          have b2 : batchCalls ((s.emit (Event.GetBlockHash g.1)).emit
              (Event.GetBlock hash)).log = batchCalls s.log := by
            rw [batchCalls_emit _ (Event.GetBlock hash) rfl, b1]
          have f2 : hashFetches ((s.emit (Event.GetBlockHash g.1)).emit
              (Event.GetBlock hash)).log = hashFetches s.log ++ [g.1] := by
            rw [hashFetches_emit _ (Event.GetBlock hash) rfl, f1]
          cases env.GetBlock hash with
          | error e =>
              dsimp only
              exact ⟨by rw [b2]; simp, f2⟩
          | ok block =>
              dsimp only
              obtain ⟨a, b⟩ := rescanExtract_calls env g.1 block.tx
                ((s.emit (Event.GetBlockHash g.1)).emit (Event.GetBlock hash))
              exact ⟨by rw [a, b2], by rw [b, f2]⟩
    · have hnil : ¬ g.2 = [] := fun e => hlen (by rw [e]; rfl)
      simp only [hlen, if_false]
      rw [if_neg hnil]
      obtain ⟨a, b⟩ := rescanExtract_calls env g.1 g.2 s
      exact ⟨a, by rw [b]; simp⟩

/-- The calls logged by the rescan loop over a list of groups. -/
theorem rescanFold_calls (env : Env) (gs : List (Nat × List String)) (s : State) :
    batchCalls (gs.foldl (rescanGroup env) s).log
      = batchCalls s.log ++ gs.flatMap (rescanCalls env) ∧
    hashFetches (gs.foldl (rescanGroup env) s).log
      = hashFetches s.log ++ gs.flatMap rescanFetches := by
  induction gs generalizing s with
  | nil => simp
  | cons g rest ih =>
      obtain ⟨a, b⟩ := rescanGroup_calls env s g
      obtain ⟨c, d⟩ := ih (rescanGroup env s g)
      simp only [List.foldl_cons, List.flatMap_cons]
      exact ⟨by rw [c, a, List.append_assoc], by rw [d, b, List.append_assoc]⟩

theorem rescanCalls_hash (env : Env) (g : Nat × List String) :
    ∀ c ∈ rescanCalls env g, c.1 = g.1 ∧ c.2.1 = "" := by
  intro c hc
  unfold rescanCalls at hc
  split at hc
  · simp at hc
  · split at hc
    · simp only [List.mem_singleton] at hc
      subst hc
      exact ⟨rfl, rfl⟩
    · simp at hc

/-- C23: `RescanFailedRecord`, whatever the order in which the groups are
visited: every batch extraction it invokes is passed the empty string as block
hash; for a height `h > 0` of the ledger without explicit txids, whose hash
`hash` and block it has just fetched, the batch extraction invoked is
`(h, "", block.tx)`, not `(h, hash, block.tx)`; and every main-coin record of a
transaction that reports height 0, extracted for a height `h > 0` with the
empty hash, carries block height `h` and block hash `""`. -/
theorem C23_rescan_passes_empty_hash (env : Env) (s : State)
    (hperm : (env.mapOrder (buildBlockMap s.unscan)).Perm (buildBlockMap s.unscan)) :
    (batchCalls (RescanFailedRecord env s).log
        = batchCalls s.log ++
          (env.mapOrder (buildBlockMap s.unscan)).flatMap (rescanCalls env) ∧
      ∀ c ∈ (env.mapOrder (buildBlockMap s.unscan)).flatMap (rescanCalls env), c.2.1 = "") ∧
    (∀ h hash block, h ∈ s.unscan.map (fun r => r.BlockHeight) → 0 < h →
      explicitTxids h s.unscan = [] →
      env.GetBlockHash h = .ok hash → env.GetBlock hash = .ok block →
      batchCallsAt h (RescanFailedRecord env s).log
        = batchCallsAt h s.log ++ [(h, "", block.tx)]) ∧
    (∀ h txid trx, 0 < h → env.GetTransaction txid = .ok trx → trx.BlockHeight = 0 →
      ∀ k ed, (k, ed) ∈ (ExtractTransaction env h "" txid env.ScanAddressFunc).1.extractData →
        (∀ x ∈ ed.TxInputs, x.BlockHeight = h ∧ x.BlockHash = "") ∧
        (∀ x ∈ ed.TxOutputs, x.BlockHeight = h ∧ x.BlockHash = "") ∧
        (∀ tx, ed.Transaction = some tx → tx.BlockHeight = h ∧ tx.BlockHash = "")) := by
  have hlog : (RescanFailedRecord env s).log = (rescanLoop env s).log := rfl
  refine ⟨⟨?_, ?_⟩, ?_, ?_⟩
  · rw [hlog]
    exact (rescanFold_calls env _ s).1
  · intro c hc
    obtain ⟨g, _, hg⟩ := List.mem_flatMap.1 hc
    exact (rescanCalls_hash env g c hg).2
  · intro h hash block hmem hpos hexp hh hb
    rw [hlog, (rescanLoop_self env s h hperm hmem hpos).1]
    simp [specRescanTxs, hexp, hh, hb]
  · intro h txid trx hpos hget h0 k ed hmem
    have heff : effectiveTx h "" trx = { trx with BlockHeight := h, BlockHash := "" } := by
      simp [effectiveTx, hpos, h0]
    obtain ⟨a, b, c⟩ :=
      ExtractTransaction_record_heights env h "" txid env.ScanAddressFunc trx hget k ed hmem
    rw [heff] at a b c
    exact ⟨a, b, c⟩

/-- C23 (witness): the ledger holds a block-level record at height 7; the hash
`h7` of block 7 is fetched, yet the batch extraction is invoked with the empty
hash, and the output of `Tw` notified to the observer carries height 7 and
hash `""`. -/
theorem C23_rescan_passes_empty_hash_witness :
    hashFetches (RescanFailedRecord rescanWatchedEnv blockRecordAt7State).log = [7] ∧
    batchCalls (RescanFailedRecord rescanWatchedEnv blockRecordAt7State).log
      = [(7, "", ["Tw"])] ∧
    (RescanFailedRecord rescanWatchedEnv blockRecordAt7State).log.filterMap
      (fun e => match e with
        | Event.BlockExtractDataNotify _ key data =>
            some (key, data.TxOutputs.map (fun x => (x.TxID, x.BlockHeight, x.BlockHash)))
        | _ => none)
      = [("acct1", [("Tw", 7, "")])] ∧
    batchCallsAt 7 (RescanFailedRecord rescanWatchedEnv blockRecordAt7State).log
      = batchCallsAt 7 blockRecordAt7State.log ++ [(7, "", ["Tw"])] :=
  ⟨by decide, by decide, by decide,
   (C23_rescan_passes_empty_hash rescanWatchedEnv blockRecordAt7State
      (List.Perm.refl _)).2.1 7 "h7"
      { Hash := "h7", Previousblockhash := "h6", Height := 7, Time := 0, tx := ["Tw"] }
      (by decide) (by decide) (by decide) rfl rfl⟩

/-- C24: for every ledger that holds at a height `h > 0` at least one record
with a txid (whether or not it also holds a block-level record there), and
whatever the order in which the groups are visited: `RescanFailedRecord`
invokes for `h` exactly one batch extraction, on the txids listed at `h` (with
the empty block hash); it fetches no hash of height `h`, hence no block at `h`;
and when that batch extraction returns nil, no record of height `h` is left in
the ledger, the block-level record included. -/
theorem C24_listed_txids_only (env : Env) (s : State) (h : Nat)
    (hperm : (env.mapOrder (buildBlockMap s.unscan)).Perm (buildBlockMap s.unscan))
    (hpos : 0 < h) (htx : explicitTxids h s.unscan ≠ []) :
    batchCallsAt h (RescanFailedRecord env s).log
      = batchCallsAt h s.log ++ [(h, "", explicitTxids h s.unscan)] ∧
    (∃ fetched, hashFetches (RescanFailedRecord env s).log = hashFetches s.log ++ fetched ∧
      h ∉ fetched) ∧
    ((BatchExtractTransaction env h "" (explicitTxids h s.unscan) s).1 = none →
      atHeight h (RescanFailedRecord env s).unscan = [] ∧
      ∀ r ∈ (RescanFailedRecord env s).unscan, r.BlockHeight ≠ h) := by
  have hlog : (RescanFailedRecord env s).log = (rescanLoop env s).log := rfl
  have hmem : h ∈ s.unscan.map (fun r => r.BlockHeight) := by
    by_contra hn
    exact htx (explicitTxids_of_not_mem h s.unscan hn)
  have hspec : specRescanTxs env h (explicitTxids h s.unscan)
      = some (explicitTxids h s.unscan) := by
    simp [specRescanTxs, htx]
  obtain ⟨p1, p2, _, _⟩ := rescanLoop_self env s h hperm hmem hpos
  obtain ⟨_, _, hval⟩ := buildBlockMap_spec s.unscan
  refine ⟨?_, ?_, ?_⟩
  · rw [hlog, p1, hspec]
  · refine ⟨_, by rw [hlog]; exact (rescanFold_calls env _ s).2, ?_⟩
    intro hin
    obtain ⟨g, hg, hgf⟩ := List.mem_flatMap.1 hin
    have hg2 : g ∈ buildBlockMap s.unscan := hperm.mem_iff.mp hg
    unfold rescanFetches at hgf
    split at hgf
    · rename_i hc
      simp only [List.mem_singleton] at hgf
      have hv := hval g.1 g.2 hg2
      rw [← hgf] at hv
      exact htx (by rw [← hv]; exact List.length_eq_zero.mp hc.2)
    · simp at hgf
  · intro hok
    have hnil := p2 _ hspec hok
    have hsub : atHeight h (RescanFailedRecord env s).unscan = [] := by
      simp only [atHeight, List.filter_eq_nil_iff] at hnil ⊢
      intro r hr
      have hr2 : r ∈ (rescanLoop env s).unscan := by
        simp only [RescanFailedRecord, DeleteUnscanRecordNotFindTX] at hr
        exact (List.mem_filter.1 hr).1
      exact hnil r hr2
    refine ⟨hsub, ?_⟩
    intro r hr e
    have : r ∈ atHeight h (RescanFailedRecord env s).unscan := by
      simp [atHeight, hr, e]
    rw [hsub] at this
    simp at this

/-- C24 (witness): the ledger holds at height 7 a block-level record and a
record naming `Tw`; the rescan extracts `[Tw]` only, fetches neither hash nor
block of height 7, and, the extraction succeeding, leaves the ledger empty. -/
theorem C24_listed_txids_only_witness :
    batchCalls (RescanFailedRecord rescanWatchedEnv mixedAt7State).log = [(7, "", ["Tw"])] ∧
    hashFetches (RescanFailedRecord rescanWatchedEnv mixedAt7State).log = [] ∧
    (RescanFailedRecord rescanWatchedEnv mixedAt7State).unscan = [] ∧
    atHeight 7 (RescanFailedRecord rescanWatchedEnv mixedAt7State).unscan = [] :=
  ⟨by decide, by decide, by decide,
   ((C24_listed_txids_only rescanWatchedEnv mixedAt7State 7 (List.Perm.refl _) (by decide)
      (by decide)).2.2 (by decide)).1⟩

/-- The save round of a result with `Success == false` at a height other than
0 writes the block-level record with the empty reason. -/
theorem extractAndSave_unscan_failed (env : Env) (h : Nat) (hpos : h ≠ 0) (hash txid : String)
    (hfail : (ExtractTransaction env h hash txid env.ScanAddressFunc).1.Success = false)
    (acc : State × Nat) :
    (extractAndSave env h hash acc txid).1.unscan
      = insertUnscan (NewUnscanRecord h "" "") acc.1.unscan := by
  simp only [extractAndSave, saveWork, hfail]
  exact saveUnscan_act h hpos "" _

/-- The save rounds of a list of transactions of which one has
`Success == false`, at a height other than 0: their joint effect on the ledger
is the insertion of one block-level record, with the reason `""` or
`"ExtractData Notify failed."`. -/
theorem batchFold_act_failed (env : Env) (h : Nat) (hpos : h ≠ 0) (hash : String)
    (l : List String)
    (hfail : ∃ txid ∈ l,
      (ExtractTransaction env h hash txid env.ScanAddressFunc).1.Success = false) :
    ∃ X : String, (X = "" ∨ X = "ExtractData Notify failed.") ∧
      ∀ acc, (l.foldl (extractAndSave env h hash) acc).1.unscan
        = insertUnscan (NewUnscanRecord h "" X) acc.1.unscan := by
  induction l with
  | nil =>
      obtain ⟨_, hx, _⟩ := hfail
      simp at hx
  | cons x xs ih =>
      cases hs : (ExtractTransaction env h hash x env.ScanAddressFunc).1.Success with
      | false =>
          obtain ⟨a2, c2, e2⟩ := batchFold_act env h hpos hash xs
          cases a2 with
          | delete => exact absurd c2 id
          | keep =>
              refine ⟨"", Or.inl rfl, fun acc => ?_⟩
              rw [List.foldl_cons, e2]
              exact extractAndSave_unscan_failed env h hpos hash x hs acc
          | upsert X2 =>
              refine ⟨X2, c2, fun acc => ?_⟩
              rw [List.foldl_cons, e2, extractAndSave_unscan_failed env h hpos hash x hs acc]
              exact insertUnscan_insertUnscan _ _ _ rfl rfl
      | true =>
          have hrest : ∃ txid ∈ xs,
              (ExtractTransaction env h hash txid env.ScanAddressFunc).1.Success = false := by
            obtain ⟨t, ht, hf⟩ := hfail
            rcases List.mem_cons.1 ht with e | e
            · subst e
              rw [hs] at hf
              cases hf
            · exact ⟨t, e, hf⟩
          obtain ⟨X, cX, eX⟩ := ih hrest
          obtain ⟨a1, c1, e1⟩ := extractAndSave_act env h hpos hash x
          refine ⟨X, cX, fun acc => ?_⟩
          rw [List.foldl_cons, eX, e1]
          cases a1 with
          | keep => rfl
          | delete => exact absurd c1 id
          | upsert X1 => exact insertUnscan_insertUnscan _ _ _ rfl rfl

/-- A batch extraction on a non-empty list at a height other than 0 that
returns an error has inserted one block-level record, with the reason `""` or
`"ExtractData Notify failed."`. -/
theorem BatchExtractTransaction_act_failed (env : Env) (h : Nat) (hpos : h ≠ 0) (hash : String)
    (txs : List String) (t0 : State) (hne : txs ≠ [])
    (herr : (BatchExtractTransaction env h hash txs t0).1 ≠ none) :
    ∃ X : String, (X = "" ∨ X = "ExtractData Notify failed.") ∧
      ∀ s, (BatchExtractTransaction env h hash txs s).2.unscan
        = insertUnscan (NewUnscanRecord h "" X) s.unscan := by
  have hlen : ¬ txs.length = 0 := fun e => hne (List.length_eq_zero.mp e)
  have hfail : ∃ txid ∈ env.arrival txs,
      (ExtractTransaction env h hash txid env.ScanAddressFunc).1.Success = false := by
    by_contra hnone
    have hall : (env.arrival txs).filter (fun txid =>
        ! (ExtractTransaction env h hash txid env.ScanAddressFunc).1.Success) = [] := by
      apply List.filter_eq_nil_iff.mpr
      intro txid hx
      cases hsucc : (ExtractTransaction env h hash txid env.ScanAddressFunc).1.Success
      · exact absurd ⟨txid, hx, hsucc⟩ hnone
      · simp
    apply herr
    simp only [BatchExtractTransaction, hlen, if_false]
    rw [batchFold_failed_count, hall]
    simp
  obtain ⟨X, cX, eX⟩ := batchFold_act_failed env h hpos hash (env.arrival txs) hfail
  refine ⟨X, cX, fun s => ?_⟩
  have := eX (s.emit (Event.BatchExtractTransaction h hash txs), 0)
  simp only [BatchExtractTransaction, hlen, if_false]
  split <;> exact this

/-- The end of a rescan round at a height other than 0, on the ledger: all
records of the height are deleted when the batch extraction returns nil; the
ledger is left alone when the list of txids is empty; otherwise one block-level
record is inserted, with the reason `""` or `"ExtractData Notify failed."`. -/
theorem rescanExtract_unscan (env : Env) (h : Nat) (hpos : h ≠ 0) (txs : List String)
    (t0 : State) :
    ((BatchExtractTransaction env h "" txs t0).1 = none →
      ∀ s, (rescanExtract env h txs s).unscan
        = s.unscan.filter (fun r => ¬ r.BlockHeight = h)) ∧
    (txs = [] → ∀ s, (rescanExtract env h txs s).unscan = s.unscan) ∧
    (txs ≠ [] → (BatchExtractTransaction env h "" txs t0).1 ≠ none →
      ∃ X : String, (X = "" ∨ X = "ExtractData Notify failed.") ∧
        ∀ s, (rescanExtract env h txs s).unscan
          = insertUnscan (NewUnscanRecord h "" X) s.unscan) := by
  refine ⟨?_, ?_, ?_⟩
  · intro hok s
    obtain ⟨a, c, e⟩ := BatchExtractTransaction_act env h hpos "" txs
    have hi := BatchExtractTransaction_result_indep env h "" txs s t0
    rw [hok] at hi
    simp only [rescanExtract, hi, DeleteUnscanRecord, e s]
    cases a with
    | keep => rfl
    | delete => exact absurd c id
    | upsert reason => exact filter_height_insertUnscan h _ _ rfl
  · intro hnil s
    subst hnil
    simp [rescanExtract, BatchExtractTransaction, State.emit]
  · intro hne herr
    obtain ⟨X, cX, eX⟩ := BatchExtractTransaction_act_failed env h hpos "" txs t0 hne herr
    refine ⟨X, cX, fun s => ?_⟩
    have hi := BatchExtractTransaction_result_indep env h "" txs s t0
    cases hres : (BatchExtractTransaction env h "" txs t0).1 with
    | none => exact absurd hres herr
    | some err =>
        rw [hres] at hi
        simp only [rescanExtract, hi]
        exact eX s

/-- A record of the ledger after an act is a record of the ledger before, or
has no txid. -/
theorem LedgerAct.mem_run_txid (h : Nat) (a : LedgerAct) (l : List UnscanRecord)
    (x : UnscanRecord) (hx : x ∈ a.run h l) : x ∈ l ∨ x.TxID = "" := by
  cases a with
  | keep => exact Or.inl hx
  | delete => exact Or.inl (List.mem_filter.1 hx).1
  | upsert reason =>
      have hmem : ∀ (l : List UnscanRecord),
          x ∈ insertUnscan (NewUnscanRecord h "" reason) l →
            x ∈ l ∨ x = NewUnscanRecord h "" reason := by
        intro l
        induction l with
        | nil => intro hx; simpa [insertUnscan] using hx
        | cons y ys ih =>
            intro hx
            unfold insertUnscan at hx
            split at hx
            · rcases List.mem_cons.1 hx with e | e
              · exact Or.inr e
              · exact Or.inl (List.mem_cons_of_mem _ e)
            · rcases List.mem_cons.1 hx with e | e
              · exact Or.inl (by rw [e]; exact List.mem_cons_self _ _)
              · rcases ih e with e2 | e2
                · exact Or.inl (List.mem_cons_of_mem _ e2)
                · exact Or.inr e2
      rcases hmem l hx with e | e
      · exact Or.inl e
      · right
        rw [e]
        rfl

theorem atHeight_purge (h : Nat) (s : State) :
    atHeight h (DeleteUnscanRecordNotFindTX s).unscan
      = (atHeight h s.unscan).filter (fun r => ¬ HasPrefix r.Reason notFindTXReason) := by
  simp only [atHeight, DeleteUnscanRecordNotFindTX, List.filter_filter]
  apply List.filter_congr
  intro r _
  exact Bool.and_comm _ _

theorem string_eq_empty_of_length (x : String) (h : x.length = 0) : x = "" := by
  cases x with
  | mk data =>
      have hd : data = [] := List.length_eq_zero.mp h
      subst hd
      rfl

/-- C10 (amended): for every ledger holding at a height `h > 0` exactly one
record `r`, whose reason starts with the not-found reason, and whatever the
order in which the groups are visited: `RescanFailedRecord` does attempt one
re-extraction for `h` (the hash fetch of `h` when `r` has no txid, the batch
extraction of `[r.TxID]` with empty block hash when it has one); when it
completes no record of the ledger carries a reason starting with the not-found
reason; when `r` has a txid no record with the identity `(h, r.TxID)` is left;
when `r` has no txid, the ledger holds no record at `h` any more, unless the
block at `h` was fetched with at least one transaction and its batch
extraction returned an error, in which case the row `(h, "")` is kept, its
reason overwritten by `""` or `"ExtractData Notify failed."`. -/
theorem C10_not_found_retried (env : Env) (s : State) (r : UnscanRecord)
    (hperm : (env.mapOrder (buildBlockMap s.unscan)).Perm (buildBlockMap s.unscan))
    (hsole : atHeight r.BlockHeight s.unscan = [r]) (hpos : 0 < r.BlockHeight)
    (hreason : HasPrefix r.Reason notFindTXReason = true) :
    (r.TxID.length = 0 → r.BlockHeight ∈ hashFetches (RescanFailedRecord env s).log) ∧
    (0 < r.TxID.length →
      (r.BlockHeight, "", [r.TxID]) ∈ batchCalls (RescanFailedRecord env s).log) ∧
    (∀ x ∈ (RescanFailedRecord env s).unscan, HasPrefix x.Reason notFindTXReason = false) ∧
    (0 < r.TxID.length →
      ∀ x ∈ (RescanFailedRecord env s).unscan,
        ¬ (x.BlockHeight = r.BlockHeight ∧ x.TxID = r.TxID)) ∧
    (r.TxID.length = 0 →
      (∀ hash block, env.GetBlockHash r.BlockHeight = .ok hash → env.GetBlock hash = .ok block →
        block.tx ≠ [] →
        (BatchExtractTransaction env r.BlockHeight "" block.tx s).1 ≠ none →
        ∃ X : String, (X = "" ∨ X = "ExtractData Notify failed.") ∧
          atHeight r.BlockHeight (RescanFailedRecord env s).unscan
            = [NewUnscanRecord r.BlockHeight "" X]) ∧
      ((¬ ∃ hash block, env.GetBlockHash r.BlockHeight = .ok hash ∧
          env.GetBlock hash = .ok block ∧ block.tx ≠ [] ∧
          (BatchExtractTransaction env r.BlockHeight "" block.tx s).1 ≠ none) →
        atHeight r.BlockHeight (RescanFailedRecord env s).unscan = [])) := by
  have hlog : (RescanFailedRecord env s).log = (rescanLoop env s).log := rfl
  have hne0 : r.BlockHeight ≠ 0 := by omega
  have hr : r ∈ s.unscan := by
    have : r ∈ atHeight r.BlockHeight s.unscan := by rw [hsole]; simp
    exact (List.mem_filter.mp this).1
  have hmem : r.BlockHeight ∈ s.unscan.map (fun r => r.BlockHeight) :=
    List.mem_map.mpr ⟨r, hr, rfl⟩
  obtain ⟨p1, _, _, p4⟩ := rescanLoop_self env s r.BlockHeight hperm hmem hpos
  obtain ⟨_, f2⟩ := rescanLoop_atHeight env s hperm
  have hex := explicitTxids_eq r.BlockHeight s.unscan
  rw [hsole] at hex
  have hpurge : ∀ x ∈ (RescanFailedRecord env s).unscan,
      HasPrefix x.Reason notFindTXReason = false := by
    intro x hx
    simp only [RescanFailedRecord, DeleteUnscanRecordNotFindTX, List.mem_filter] at hx
    simpa using hx.2
  have hat : ∀ a : LedgerAct,
      (∀ t, (rescanGroup env t (r.BlockHeight, explicitTxids r.BlockHeight s.unscan)).unscan
        = a.run r.BlockHeight t.unscan) →
      atHeight r.BlockHeight (RescanFailedRecord env s).unscan
        = (a.run r.BlockHeight [r]).filter (fun x => ¬ HasPrefix x.Reason notFindTXReason) := by
    intro a ha
    have := f2 r.BlockHeight hmem a ha
    rw [hsole] at this
    simp only [RescanFailedRecord]
    rw [atHeight_purge, this]
  refine ⟨?_, ?_, hpurge, ?_, ?_⟩
  · intro h0
    rw [hlog]
    apply p4
    rw [hex]
    simp [h0]
  · intro hlen
    rw [hlog]
    have e : explicitTxids r.BlockHeight s.unscan = [r.TxID] := by
      rw [hex]; simp [hlen]
    rw [e] at p1
    have hspec : specRescanTxs env r.BlockHeight [r.TxID] = some [r.TxID] := by
      simp [specRescanTxs]
    rw [hspec] at p1
    have : (r.BlockHeight, "", [r.TxID]) ∈ batchCallsAt r.BlockHeight (rescanLoop env s).log := by
      rw [p1]; simp
    exact (List.mem_filter.mp this).1
  · intro hlen x hx hid
    obtain ⟨a, _, e⟩ := rescanGroup_act env
      (r.BlockHeight, explicitTxids r.BlockHeight s.unscan)
    have hxa : x ∈ atHeight r.BlockHeight (RescanFailedRecord env s).unscan := by
      simp [atHeight, hx, hid.1]
    rw [hat a e] at hxa
    obtain ⟨hxrun, _⟩ := List.mem_filter.1 hxa
    rcases LedgerAct.mem_run_txid _ a _ x hxrun with m | m
    · simp only [List.mem_singleton] at m
      subst m
      have := hpurge x hx
      rw [hreason] at this
      exact Bool.noConfusion this
    · rw [hid.2] at m
      rw [m] at hlen
      simp at hlen
  · intro hlen
    have htx : r.TxID = "" := string_eq_empty_of_length _ hlen
    have hexp : explicitTxids r.BlockHeight s.unscan = [] := by
      rw [hex]; simp [hlen]
    have hkeep : (∀ t, (rescanGroup env t (r.BlockHeight, explicitTxids r.BlockHeight
          s.unscan)).unscan = LedgerAct.keep.run r.BlockHeight t.unscan) →
        atHeight r.BlockHeight (RescanFailedRecord env s).unscan = [] := by
      intro ha
      rw [hat _ ha]
      simp [LedgerAct.run, hreason]
    have hdel : (∀ t, (rescanGroup env t (r.BlockHeight, explicitTxids r.BlockHeight
          s.unscan)).unscan = LedgerAct.delete.run r.BlockHeight t.unscan) →
        atHeight r.BlockHeight (RescanFailedRecord env s).unscan = [] := by
      intro ha
      rw [hat _ ha]
      simp [LedgerAct.run]
    have hups : ∀ X : String, (X = "" ∨ X = "ExtractData Notify failed.") →
        (∀ t, (rescanGroup env t (r.BlockHeight, explicitTxids r.BlockHeight
          s.unscan)).unscan = (LedgerAct.upsert X).run r.BlockHeight t.unscan) →
        atHeight r.BlockHeight (RescanFailedRecord env s).unscan
          = [NewUnscanRecord r.BlockHeight "" X] := by
      intro X cX ha
      rw [hat _ ha]
      have hkey : r.BlockHeight = (NewUnscanRecord r.BlockHeight "" X).BlockHeight ∧
          r.TxID = (NewUnscanRecord r.BlockHeight "" X).TxID := ⟨rfl, htx⟩
      simp only [LedgerAct.run]
      rw [insertUnscan_cons_pos _ r [] hkey]
      have hc : HasPrefix X notFindTXReason = false := by
        rcases cX with e | e
        · rw [e]; decide
        · rw [e]; decide
      simp [List.filter_cons, NewUnscanRecord, hc]
    -- the round of the group `(h, [])`
    rw [hexp] at hkeep hdel hups
    have hround : ∀ t, (rescanGroup env t (r.BlockHeight, [])).unscan
        = (match env.GetBlockHash r.BlockHeight with
           | .error _ => t.unscan
           | .ok hash =>
               match env.GetBlock hash with
               | .error _ => t.unscan
               | .ok block =>
                   (rescanExtract env r.BlockHeight block.tx
                     ((t.emit (Event.GetBlockHash r.BlockHeight)).emit
                       (Event.GetBlock hash))).unscan) := by
      intro t
      simp only [rescanGroup, hne0, if_false, List.length_nil, if_true]
      cases env.GetBlockHash r.BlockHeight with
      | error e => rfl
      | ok hash =>
          dsimp only
          cases env.GetBlock hash with
          | error e => rfl
          | ok block => rfl
    cases hh : env.GetBlockHash r.BlockHeight with
    | error e =>
        have ha : ∀ t, (rescanGroup env t (r.BlockHeight, [])).unscan
            = LedgerAct.keep.run r.BlockHeight t.unscan := by
          intro t; rw [hround t, hh]; rfl
        refine ⟨?_, fun _ => hkeep ha⟩
        intro hash block h1
        cases h1
    | ok hash =>
        cases hb : env.GetBlock hash with
        | error e =>
            have ha : ∀ t, (rescanGroup env t (r.BlockHeight, [])).unscan
                = LedgerAct.keep.run r.BlockHeight t.unscan := by
              intro t; rw [hround t, hh]; dsimp only; rw [hb]; rfl
            refine ⟨?_, fun _ => hkeep ha⟩
            intro hash2 block h1 h2
            cases h1
            rw [hb] at h2
            cases h2
        | ok block =>
            have hgrp : ∀ t, (rescanGroup env t (r.BlockHeight, [])).unscan
                = (rescanExtract env r.BlockHeight block.tx
                    ((t.emit (Event.GetBlockHash r.BlockHeight)).emit
                      (Event.GetBlock hash))).unscan := by
              intro t; rw [hround t, hh]; dsimp only; rw [hb]
            obtain ⟨q1, q2, q3⟩ := rescanExtract_unscan env r.BlockHeight hne0 block.tx s
            refine ⟨?_, ?_⟩
            · intro hash2 block2 h1 h2 hne herr
              cases h1
              rw [hb] at h2
              cases h2
              obtain ⟨X, cX, eX⟩ := q3 hne herr
              refine ⟨X, cX, hups X cX ?_⟩
              intro t
              rw [hgrp t, eX]
              rfl
            · intro hnot
              by_cases hnil : block.tx = []
              · apply hkeep
                intro t
                rw [hgrp t, q2 hnil]
                rfl
              · cases hres : (BatchExtractTransaction env r.BlockHeight "" block.tx s).1 with
                | none =>
                    apply hdel
                    intro t
                    rw [hgrp t, q1 hres]
                    rfl
                | some err =>
                    exfalso
                    apply hnot
                    exact ⟨hash, block, rfl, hb, hnil, by rw [hres]; simp⟩

/-- C10 (witness): the ledger whose only record, at height 7, is a block-level
record with the not-found reason; block 7 is fetched, its transaction `Tz`
cannot be extracted, and the row `(7, "")` is kept with the reason `""`.  For
the ledger whose only record, at height 5, names `Tx`, the batch extraction of
`[Tx]` fails, the `Tx` record is purged and the block-level record written by
the failed batch is what the ledger holds. -/
theorem C10_not_found_retried_witness :
    (RescanFailedRecord rescanFailEnv notFoundBlockAt7State).unscan
      = [NewUnscanRecord 7 "" ""] ∧
    batchCalls (RescanFailedRecord emptyEnv notFoundTxState).log = [(5, "", ["Tx"])] ∧
    (RescanFailedRecord emptyEnv notFoundTxState).unscan = [NewUnscanRecord 5 "" ""] ∧
    7 ∈ hashFetches (RescanFailedRecord rescanFailEnv notFoundBlockAt7State).log :=
  ⟨by decide, by decide, by decide,
   (C10_not_found_retried rescanFailEnv notFoundBlockAt7State
      (NewUnscanRecord 7 "" "[-5]No information available about transaction")
      (List.Perm.refl _) (by decide) (by decide) (by decide)).1 (by decide)⟩

end qtum

namespace manager

theorem deriveKeys_single (env : Env) (newIndex : Int) (pub : String)
    (newKeys : List (List Nat)) :
    deriveKeys env newIndex [pub] newKeys
      = (match env.OWDecode pub with
         | .error err => .error err
         | .ok pubkey => .ok (newKeys ++ [env.GenPublicChild pubkey (toUint32 newIndex)])) := by
  unfold deriveKeys
  cases env.OWDecode pub with
  | error err => rfl
  | ok pubkey => rfl

theorem wrapInt_of_range (x : Int) (h1 : -(2 ^ 63) ≤ x) (h2 : x < 2 ^ 63) : wrapInt x = x := by
  unfold wrapInt
  omega

theorem toUint64_of_nonneg (x : Int) (h1 : 0 ≤ x) (h2 : x < 2 ^ 63) :
    ((toUint64 x : Nat) : Int) = x := by
  unfold toUint64
  omega

theorem head_append_append (l : List (List Nat)) (x y : List Nat) :
    (l ++ [x] ++ [y]).head? = (l ++ [x]).head? := by
  cases l <;> rfl

/-- The loop of `CreateAddress` for an account with exactly one owner key, when
it completes: one address per round, with consecutive indices, every address
string encoded from the first element of `newKeys`. -/
theorem createLoop_single (env : Env) (symbolInfo : SymbolInfo) (accountID pub : String)
    (n : Nat) (account : AssetsAccount) (newKeys : List (List Nat)) (addrs : List Address)
    (log : List DbCall) (res : List Address) (log2 : List DbCall)
    (hown : account.OwnerKeys = [pub])
    (hlow : -1 ≤ account.AddressIndex) (hhigh : account.AddressIndex + n < 2 ^ 63)
    (hrun : createLoop env symbolInfo accountID n account newKeys addrs log = (.ok res, log2)) :
    ∃ new : List Address, res = addrs ++ new ∧
      new.map (fun x => ((x.Index : Int), x.HDPath))
        = (List.range n).map (fun (i : Nat) =>
            (account.AddressIndex + 1 + (i : Int),
              account.HDPath ++ "/" ++ toString (account.AddressIndex + 1 + (i : Int)))) ∧
      (0 < n → ∃ pubkey, env.OWDecode pub = .ok pubkey ∧
        ∀ x ∈ new, ∃ key0,
          (newKeys ++ [env.GenPublicChild pubkey
              (toUint32 (account.AddressIndex + 1))]).head? = some key0 ∧
          symbolInfo.PublicKeyToAddress key0 env.isTestnet = .ok x.Address) := by
  induction n generalizing account newKeys addrs log with
  | zero =>
      simp only [createLoop, Prod.mk.injEq, Except.ok.injEq] at hrun
      exact ⟨[], by simp [hrun.1], by simp, fun h => absurd h (by decide)⟩
  | succ n ih =>
      have hw : wrapInt (account.AddressIndex + 1) = account.AddressIndex + 1 :=
        wrapInt_of_range _ (by omega) (by push_cast at hhigh; omega)
      have hlen : ¬ account.OwnerKeys.length > 1 := by rw [hown]; simp
      have hdk := deriveKeys_single env (account.AddressIndex + 1) pub newKeys
      rw [← hown] at hdk
      simp only [createLoop, hw, hdk, hlen, if_false] at hrun
      cases hd : env.OWDecode pub with
      | error err =>
          rw [hd] at hrun
          simp at hrun
      | ok pubkey =>
          rw [hd] at hrun
          simp only at hrun
          cases hk : (newKeys ++ [env.GenPublicChild pubkey
              (toUint32 (account.AddressIndex + 1))]).head? with
          | none =>
              rw [hk] at hrun
              simp at hrun
          | some key0 =>
              rw [hk] at hrun
              simp only at hrun
              cases he : symbolInfo.PublicKeyToAddress key0 env.isTestnet with
              | error err =>
                  rw [he] at hrun
                  simp at hrun
              | ok address =>
                  rw [he] at hrun
                  simp only at hrun
                  split at hrun
                  · simp at hrun
                  · split at hrun
                    · simp at hrun
                    · obtain ⟨new, e1, e2, e3⟩ := ih
                        { account with AddressIndex := account.AddressIndex + 1 } _ _ _
                        hown (by simp only; omega)
                        (by simp only; push_cast at hhigh; omega) hrun
                      refine ⟨{ Address := address, AccountID := accountID,
                                HDPath := account.HDPath ++ "/" ++
                                  toString (account.AddressIndex + 1),
                                CreatedAt := env.now, Symbol := account.Symbol,
                                Index := toUint64 (account.AddressIndex + 1),
                                WatchOnly := false } :: new, by rw [e1]; simp, ?_, ?_⟩
                      · rw [List.range_succ_eq_map, List.map_cons, List.map_cons,
                          List.map_map, e2]
                        have hidx : ((toUint64 (account.AddressIndex + 1) : Nat) : Int)
                            = account.AddressIndex + 1 :=
                          toUint64_of_nonneg _ (by omega)
                            (by push_cast at hhigh; omega)
                        simp only [hidx, Nat.cast_zero, add_zero, List.cons.injEq, true_and]
                        apply List.map_congr_left
                        intro i _
                        have harith : account.AddressIndex + 1 + 1 + (i : Int)
                            = account.AddressIndex + 1 + ((i + 1 : Nat) : Int) := by
                          push_cast
                          ring
                        simp only [Function.comp, Nat.succ_eq_add_one, harith]
                      · intro _
                        refine ⟨pubkey, rfl, ?_⟩
                        intro x hx
                        rcases List.mem_cons.1 hx with e | e
                        · subst e
                          exact ⟨key0, hk, he⟩
                        · by_cases hn : 0 < n
                          · obtain ⟨pk2, hpk2, hall⟩ := e3 hn
                            rw [hd] at hpk2
                            cases hpk2
                            obtain ⟨k2, hk2, he2⟩ := hall x e
                            rw [head_append_append, hk] at hk2
                            cases hk2
                            exact ⟨key0, hk, he2⟩
                          · have hn0 : n = 0 := by omega
                            subst hn0
                            simp at e2
                            rw [e2] at e
                            simp at e

/-- C25: for every account with exactly one owner key and address index `a`
(with `-1 <= a` and `a + count` below `2^63`, so that no index wraps), every
successful `CreateAddress(appID, walletID, accountID, count)` has `count >= 1`
and returns `count` addresses whose `Index` fields are `a+1, ..., a+count` in
order and whose `HDPath` is the account path followed by `/` and the same
index; every returned `Address` string is the encoding of one and the same key,
the child key of index `a+1` derived in the first round (`newKeys[0]`), so all
returned `Address` strings are equal.  `CreateAddress` with `count = 0` returns
an error and makes no call on the database transaction. -/
theorem C25_addresses_from_first_key (env : Env) (appID walletID accountID : String)
    (count : Nat) (account : AssetsAccount) (pub : String) (addrs : List Address)
    (log : List DbCall)
    (hacc : GetAssetsAccountInfo env appID walletID accountID = .ok account)
    (hown : account.OwnerKeys = [pub])
    (hlow : -1 ≤ account.AddressIndex) (hhigh : account.AddressIndex + count < 2 ^ 63)
    (hres : CreateAddress env appID walletID accountID count = (.ok addrs, log)) :
    1 ≤ count ∧ addrs.length = count ∧
    addrs.map (fun x => ((x.Index : Int), x.HDPath))
      = (List.range count).map (fun (i : Nat) =>
          (account.AddressIndex + 1 + (i : Int),
            account.HDPath ++ "/" ++ toString (account.AddressIndex + 1 + (i : Int)))) ∧
    (∃ pubkey symbolInfo address,
      env.OWDecode pub = .ok pubkey ∧ env.GetSymbolInfo account.Symbol = .ok symbolInfo ∧
      symbolInfo.PublicKeyToAddress
          (env.GenPublicChild pubkey (toUint32 (account.AddressIndex + 1))) env.isTestnet
        = .ok address ∧
      ∀ x ∈ addrs, x.Address = address) ∧
    (∃ err, CreateAddress env appID walletID accountID 0 = (.error err, [])) := by
  have hzero : ∃ err, CreateAddress env appID walletID accountID 0 = (.error err, []) := by
    simp only [CreateAddress, hacc, if_true]
    exact ⟨_, rfl⟩
  have hpos : 1 ≤ count := by
    by_contra hc
    have h0 : count = 0 := by omega
    subst h0
    obtain ⟨err, he⟩ := hzero
    rw [he] at hres
    simp at hres
  have hc0 : ¬ count = 0 := by omega
  simp only [CreateAddress, hacc, hc0, if_false] at hres
  cases hsym : env.GetSymbolInfo account.Symbol with
  | error err =>
      rw [hsym] at hres
      simp at hres
  | ok symbolInfo =>
      rw [hsym] at hres
      simp only at hres
      split at hres
      · simp at hres
      · split at hres
        · simp at hres
        · split at hres
          · simp at hres
          · rename_i res lg hloop
            split at hres
            · simp at hres
            · simp only [Prod.mk.injEq, Except.ok.injEq] at hres
              obtain ⟨hr, _⟩ := hres
              subst hr
              obtain ⟨new, e1, e2, e3⟩ := createLoop_single env symbolInfo accountID pub count
                account [] [] [] res lg hown hlow hhigh hloop
              simp only [List.nil_append] at e1 e3
              subst e1
              have hlen : res.length = count := by
                have := congrArg List.length e2
                simpa using this
              obtain ⟨pubkey, hd, hall⟩ := e3 (by omega)
              have hne : res ≠ [] := by
                intro e
                rw [e] at hlen
                simp at hlen
                omega
              obtain ⟨x0, rest, hx0⟩ := List.exists_cons_of_ne_nil hne
              obtain ⟨k0, hk0, ha0⟩ := hall x0 (by rw [hx0]; simp)
              simp only [List.head?_cons, Option.some.injEq] at hk0
              subst hk0
              refine ⟨hpos, hlen, e2, ⟨pubkey, symbolInfo, x0.Address, hd, rfl, ha0, ?_⟩, hzero⟩
              intro x hx
              obtain ⟨k, hk, ha⟩ := hall x hx
              simp only [List.head?_cons, Option.some.injEq] at hk
              subst hk
              rw [ha0] at ha
              exact (Except.ok.inj ha).symm

/-- C25 (witness): a fresh account (`AddressIndex = -1`) with the single owner
key `pubA`: `CreateAddress` with `count = 3` returns the indices 0, 1, 2 with
the paths `.../0`, `.../1`, `.../2`, all three addresses being `Q0`, the
address of the child key of index 0. -/
theorem C25_addresses_from_first_key_witness :
    ((CreateAddress oneKeyEnv "app" "w" "acc1" 3).1.toOption.map
      (fun l => l.map (fun x => (x.Index, x.HDPath, x.Address))))
      = some [(0, "m/44/88/0/0", "Q0"), (1, "m/44/88/0/1", "Q0"), (2, "m/44/88/0/2", "Q0")] ∧
    (CreateAddress oneKeyEnv "app" "w" "acc1" 0).2 = [] ∧
    (1 ≤ 3 ∧
      [({ Address := "Q0", AccountID := "acc1", HDPath := "m/44/88/0/0", CreatedAt := 0,
          Symbol := "QTUM", Index := 0, WatchOnly := false } : Address),
       { Address := "Q0", AccountID := "acc1", HDPath := "m/44/88/0/1", CreatedAt := 0,
         Symbol := "QTUM", Index := 1, WatchOnly := false },
       { Address := "Q0", AccountID := "acc1", HDPath := "m/44/88/0/2", CreatedAt := 0,
         Symbol := "QTUM", Index := 2, WatchOnly := false }].length = 3) :=
  ⟨by decide, by decide,
   ⟨(C25_addresses_from_first_key oneKeyEnv "app" "w" "acc1" 3
      { AccountID := "acc1", Symbol := "QTUM", HDPath := "m/44/88/0",
        AddressIndex := -1, OwnerKeys := ["pubA"], Required := 1 } "pubA"
      [{ Address := "Q0", AccountID := "acc1", HDPath := "m/44/88/0/0", CreatedAt := 0,
         Symbol := "QTUM", Index := 0, WatchOnly := false },
       { Address := "Q0", AccountID := "acc1", HDPath := "m/44/88/0/1", CreatedAt := 0,
         Symbol := "QTUM", Index := 1, WatchOnly := false },
       { Address := "Q0", AccountID := "acc1", HDPath := "m/44/88/0/2", CreatedAt := 0,
         Symbol := "QTUM", Index := 2, WatchOnly := false }]
      (CreateAddress oneKeyEnv "app" "w" "acc1" 3).2
      rfl rfl (by decide) (by decide) rfl).1,
    (C25_addresses_from_first_key oneKeyEnv "app" "w" "acc1" 3
      { AccountID := "acc1", Symbol := "QTUM", HDPath := "m/44/88/0",
        AddressIndex := -1, OwnerKeys := ["pubA"], Required := 1 } "pubA"
      [{ Address := "Q0", AccountID := "acc1", HDPath := "m/44/88/0/0", CreatedAt := 0,
         Symbol := "QTUM", Index := 0, WatchOnly := false },
       { Address := "Q0", AccountID := "acc1", HDPath := "m/44/88/0/1", CreatedAt := 0,
         Symbol := "QTUM", Index := 1, WatchOnly := false },
       { Address := "Q0", AccountID := "acc1", HDPath := "m/44/88/0/2", CreatedAt := 0,
         Symbol := "QTUM", Index := 2, WatchOnly := false }]
      (CreateAddress oneKeyEnv "app" "w" "acc1" 3).2
      rfl rfl (by decide) (by decide) rfl).2.1⟩⟩

end manager
